import Mathlib

/-!
# OMX camera adapter: zoom controller, face-detection result transformer, autofocus

A shallow embedding of `camera/OMXCameraAdapter/OMXZoom.cpp`,
`camera/OMXCameraAdapter/OMXFD.cpp` and `camera/OMXCameraAdapter/OMXFocus.cpp`.

Conventions of the embedding:

* member variables of the adapter that a function reads or writes are fields of an
  explicit state record, passed in and returned;
* every call into code that is not part of these files (the OMX component, the
  `BaseCameraAdapter` state machine, the allocator) takes its outcome from an explicit
  environment argument, one field per call site, so that every call can succeed or fail
  on its own; the zoom and focus functions also return, in order, the calls they made
  (hardware reads and writes, subscriber notifications, state transitions, ...);
* `status_t` and `int` values are integers; `mCurrentZoomIdx += mZoomInc` is integer
  addition (signed overflow is undefined in the source and needs an index near
  `INT_MAX`, which takes more than `2^31` steps to reach from a table index);
* the `double` arithmetic of `encodeFaceCoordinates` is IEEE 754 binary64 arithmetic:
  every conversion, division, multiplication, addition and subtraction is rounded to
  nearest, ties to even, and a store of a `double` into an `int` field truncates toward
  zero.
-/

set_option linter.unusedVariables false

namespace OMXCameraAdapter

/-! ## Status codes and OMX constants -/

/-- The `status_t` success value (`utils/Errors.h`: `NO_ERROR = 0`). -/
def NO_ERROR : Int := 0

/-- The errno value `EINVAL`. -/
def EINVAL : Int := 22

/-- The errno value `ENOMEM`. -/
def ENOMEM : Int := 12

/-- The `status_t` value `NO_INIT` (`utils/Errors.h`: `NO_INIT = -ENODEV`). -/
def NO_INIT : Int := -19

/-- The `OMX_ERRORTYPE` success value. -/
def OMX_ErrorNone : Nat := 0

/-- The states of an OMX component (`OMX_Core.h`). -/
inductive OMX_STATETYPE
  | OMX_StateInvalid
  | OMX_StateLoaded
  | OMX_StateIdle
  | OMX_StateExecuting
  | OMX_StatePause
  | OMX_StateWaitForResources
  deriving DecidableEq, Repr

/-! ## Zoom controller (`OMXZoom.cpp`) -/

/-- Modelled from the spec: `ZOOM_STAGES` is declared in `OMXCameraAdapter.h`, which is not
among the sources. The spec speaks of a stage table of 31 entries, and the initialiser of
`ZOOM_STEPS` has 31 entries. -/
def ZOOM_STAGES : Int := 31

/-- The table `OMXCameraAdapter::ZOOM_STEPS`. -/
def ZOOM_STEPS : List Int :=
  [ 65536, 70124,
    75366, 80609,
    86508, 92406,
    99615, 106168,
    114033, 122552,
    131072, 140247,
    150733, 161219,
    173015, 185467,
    198574, 212992,
    228065, 244449,
    262144, 281149,
    300810, 322437,
    346030, 370934,
    397148, 425984,
    456131, 488899,
    524288 ]

/-- Modelled from the spec: the flag `ZOOM_ACTIVE` of `enum AdapterActiveStates` is
declared in `CameraHal.h`, which is not among the sources. The adapter state is a bit set
of such flags, and the spec's `smoothActive` is this flag being set. It is a single bit
(`1 << 7` in the header); the theorems below do not depend on which one. -/
def ZOOM_ACTIVE : Nat := 1 <<< 7

/-- The zoom members of `OMXCameraAdapter`, with the function-local `static int prevIndex`
of `doZoom`. -/
structure ZoomState where
  mCurrentZoomIdx : Int
  mTargetZoomIdx : Int
  mZoomInc : Int
  mReturnZoomStatus : Bool
  mZoomParameterIdx : Int
  prevIndex : Int
  deriving DecidableEq, Repr

/-- What the OMX component answers during one call: its state as cached in
`mComponentState`, and the result of `OMX_SetConfig`. -/
structure OMXPort where
  mComponentState : OMX_STATETYPE
  eError : Nat
  deriving DecidableEq, Repr

/-- What `BaseCameraAdapter` answers during one call of `advanceZoom`: the state that
`getState` reports and the results of `setState`, `commitState` and `rollbackState`. -/
structure AdapterEnv where
  state : Nat
  setStateRet : Int
  commitStateRet : Int
  rollbackStateRet : Int
  deriving DecidableEq, Repr

/-- The externally visible actions of the zoom controller. -/
inductive ZoomEffect
  | setConfigDigitalZoom (xWidth : Int) (xHeight : Int)
  | notifyZoomSubscribers (idx : Int) (final : Bool)
  | setStateStopSmoothZoom
  | commitState
  | rollbackState
  deriving DecidableEq, Repr

/-- The outcome of one call: returned status, state afterwards, actions in order. -/
structure ZoomResult where
  ret : Int
  st : ZoomState
  effects : List ZoomEffect
  deriving DecidableEq, Repr

/-- `OMXCameraAdapter::doZoom`. -/
def doZoom (hw : OMXPort) (z : ZoomState) (index : Int) : ZoomResult :=
  let ret0 : Int := NO_ERROR
  let ret1 : Int := if hw.mComponentState = OMX_STATETYPE.OMX_StateInvalid then -1 else ret0
  let ret2 : Int := if 0 > index ∨ (ZOOM_STAGES - 1) < index then -EINVAL else ret1
  if z.prevIndex = index then
    ⟨NO_ERROR, z, []⟩
  else if NO_ERROR = ret2 then
    let fx := [ZoomEffect.setConfigDigitalZoom (ZOOM_STEPS.getD index.toNat 0)
      (ZOOM_STEPS.getD index.toNat 0)]
    if OMX_ErrorNone ≠ hw.eError then
      ⟨-1, z, fx⟩
    else
      ⟨ret2, { z with prevIndex := index }, fx⟩
  else
    ⟨ret2, z, []⟩

/-- `OMXCameraAdapter::setParametersZoom`; `zoom` is `params.getInt(KEY_ZOOM)`. -/
def setParametersZoom (hw : OMXPort) (zoom : Int) (state : Nat) (z : ZoomState) :
    ZoomResult :=
  if (ZOOM_ACTIVE &&& state) ≠ ZOOM_ACTIVE then
    if zoom ≥ 0 ∧ zoom < ZOOM_STAGES then
      let z1 := { z with mTargetZoomIdx := zoom }
      let z2 := { z1 with mCurrentZoomIdx := z1.mTargetZoomIdx }
      let r := doZoom hw z2 z2.mCurrentZoomIdx
      ⟨NO_ERROR, r.st, r.effects⟩
    else
      ⟨NO_ERROR, z, []⟩
  else
    ⟨NO_ERROR, z, []⟩

/-- The transition block that `advanceZoom` contains twice:
`ret = setState(CAMERA_STOP_SMOOTH_ZOOM)`, then `commitState()` on success and
`ret |= rollbackState()` otherwise. -/
def stopSmoothZoomState (ad : AdapterEnv) : Int × List ZoomEffect :=
  if NO_ERROR = ad.setStateRet then
    (ad.commitStateRet, [ZoomEffect.setStateStopSmoothZoom, ZoomEffect.commitState])
  else
    (Int.lor ad.setStateRet ad.rollbackStateRet,
      [ZoomEffect.setStateStopSmoothZoom, ZoomEffect.rollbackState])

/-- `OMXCameraAdapter::advanceZoom`. -/
def advanceZoom (hw : OMXPort) (ad : AdapterEnv) (z : ZoomState) : ZoomResult :=
  if z.mReturnZoomStatus then
    let z1 := { z with mCurrentZoomIdx := z.mCurrentZoomIdx + z.mZoomInc }
    let z2 := { z1 with mTargetZoomIdx := z1.mCurrentZoomIdx }
    let z3 := { z2 with mReturnZoomStatus := false }
    let r := doZoom hw z3 z3.mCurrentZoomIdx
    ⟨r.ret, r.st,
      r.effects ++ [ZoomEffect.notifyZoomSubscribers r.st.mCurrentZoomIdx true]⟩
  else if z.mCurrentZoomIdx ≠ z.mTargetZoomIdx then
    let z1 :=
      if (ZOOM_ACTIVE &&& ad.state) ≠ 0 then
        let zi := { z with mZoomInc := if z.mCurrentZoomIdx < z.mTargetZoomIdx then 1 else -1 }
        { zi with mCurrentZoomIdx := zi.mCurrentZoomIdx + zi.mZoomInc }
      else
        { z with mCurrentZoomIdx := z.mTargetZoomIdx }
    let r := doZoom hw z1 z1.mCurrentZoomIdx
    if (ZOOM_ACTIVE &&& ad.state) ≠ 0 then
      if r.st.mCurrentZoomIdx = r.st.mTargetZoomIdx then
        let t := if NO_ERROR = r.ret then stopSmoothZoomState ad else (r.ret, [])
        ⟨t.1, { r.st with mReturnZoomStatus := false },
          r.effects ++ t.2 ++ [ZoomEffect.notifyZoomSubscribers r.st.mCurrentZoomIdx true]⟩
      else
        ⟨r.ret, r.st,
          r.effects ++ [ZoomEffect.notifyZoomSubscribers r.st.mCurrentZoomIdx false]⟩
    else
      r
  else if z.mCurrentZoomIdx = z.mTargetZoomIdx ∧ (ZOOM_ACTIVE &&& ad.state) ≠ 0 then
    let t := stopSmoothZoomState ad
    ⟨t.1, z, t.2⟩
  else
    ⟨NO_ERROR, z, []⟩

/-- `OMXCameraAdapter::startSmoothZoom`. -/
def startSmoothZoom (targetIdx : Int) (z : ZoomState) : ZoomResult :=
  if targetIdx ≥ 0 ∧ targetIdx < ZOOM_STAGES then
    let z1 := { z with mTargetZoomIdx := targetIdx }
    let z2 := { z1 with mZoomParameterIdx := z1.mCurrentZoomIdx }
    ⟨NO_ERROR, { z2 with mReturnZoomStatus := false }, []⟩
  else
    ⟨-EINVAL, z, []⟩

/-- `OMXCameraAdapter::stopSmoothZoom`. -/
def stopSmoothZoom (z : ZoomState) : ZoomResult :=
  if z.mTargetZoomIdx ≠ z.mCurrentZoomIdx then
    let z1 := { z with mZoomInc := if z.mCurrentZoomIdx < z.mTargetZoomIdx then 1 else -1 }
    ⟨NO_ERROR, { z1 with mReturnZoomStatus := true }, []⟩
  else
    ⟨NO_ERROR, z, []⟩

/-- The zoom notifications among a list of actions, in order, as `(index, final)`. -/
def zoomNotifications : List ZoomEffect → List (Int × Bool)
  | [] => []
  | ZoomEffect.notifyZoomSubscribers idx final :: fx => (idx, final) :: zoomNotifications fx
  | _ :: fx => zoomNotifications fx

/-- The hardware zoom writes among a list of actions, in order, as `(xWidth, xHeight)`. -/
def zoomWrites : List ZoomEffect → List (Int × Int)
  | [] => []
  | ZoomEffect.setConfigDigitalZoom w h :: fx => (w, h) :: zoomWrites fx
  | _ :: fx => zoomWrites fx

/-- Consecutive calls of `advanceZoom`, one per element of the list (the environment of
that call): the state after the last call, and the actions of each call. -/
def advanceZoomSeq : List (OMXPort × AdapterEnv) → ZoomState → ZoomState × List (List ZoomEffect)
  | [], z => (z, [])
  | e :: es, z =>
    let r := advanceZoom e.1 e.2 z
    let rest := advanceZoomSeq es r.st
    (rest.1, r.effects :: rest.2)

/-- One call of the zoom interface, with the environment it runs in. -/
inductive ZoomCall
  | setParametersZoom (hw : OMXPort) (zoom : Int) (state : Nat)
  | startSmoothZoom (targetIdx : Int)
  | stopSmoothZoom
  | advanceZoom (hw : OMXPort) (ad : AdapterEnv)
  deriving DecidableEq, Repr

/-- The effect of one call on the zoom state. -/
def ZoomCall.run : ZoomCall → ZoomState → ZoomResult
  | ZoomCall.setParametersZoom hw zoom state, z => OMXCameraAdapter.setParametersZoom hw zoom state z
  | ZoomCall.startSmoothZoom t, z => OMXCameraAdapter.startSmoothZoom t z
  | ZoomCall.stopSmoothZoom, z => OMXCameraAdapter.stopSmoothZoom z
  | ZoomCall.advanceZoom hw ad, z => OMXCameraAdapter.advanceZoom hw ad z

/-- The state after a sequence of calls. -/
def runZoomCalls : List ZoomCall → ZoomState → ZoomState
  | [], z => z
  | c :: cs, z => runZoomCalls cs (c.run z).st

/-- The zoom state at adapter construction, as far as the specification fixes it: both indices 0,
no stop pending, `prevIndex` statically initialised to 0. The initial increment and
ramp-start index are set in code outside these files and are left open. -/
def initialZoomState (inc : Int) (parameterIdx : Int) : ZoomState :=
  { mCurrentZoomIdx := 0, mTargetZoomIdx := 0, mZoomInc := inc, mReturnZoomStatus := false,
    mZoomParameterIdx := parameterIdx, prevIndex := 0 }

/-! ## Face-detection result transformer (`OMXFD.cpp`) -/

/-- The coordinate constants of class `CameraFDResult` (declared in `CameraHal.h`, which is
not among the sources): the edges of the normalized output space and the value stored for
a landmark that is not reported. They are a parameter of the embedding. -/
structure FaceSpace where
  LEFT : Int
  TOP : Int
  RIGHT : Int
  BOTTOM : Int
  INVALID_DATA : Int
  deriving DecidableEq, Repr

/-- Modelled from the spec: a fixed normalized space centred at zero. The values are the
ones `CameraHal.h` gives the constants, the Android face coordinate space from
(-1000, -1000) to (1000, 1000), with -2000 for a landmark that is not reported. -/
def cameraHalFaceSpace : FaceSpace :=
  { LEFT := -1000, TOP := -1000, RIGHT := 1000, BOTTOM := 1000, INVALID_DATA := -2000 }

/-- Conversion of an integer to `size_t` (32 bits on the target). -/
def toSizeT (x : Int) : Nat := (x % 2 ^ 32).toNat

/-- Conversion of an unsigned 32-bit value to `int32_t`. -/
def toInt32 (n : Nat) : Int :=
  if n % 2 ^ 32 < 2 ^ 31 then ((n % 2 ^ 32 : Nat) : Int) else ((n % 2 ^ 32 : Nat) : Int) - 2 ^ 32

/-- The rounding `trunc` of the specification's formulas, which are written in exact
arithmetic: the fractional part of a rational is discarded (rounding toward zero). -/
def truncToInt (q : ℚ) : Int := if 0 ≤ q then ⌊q⌋ else ⌈q⌉

/-! ## IEEE 754 double precision, as `encodeFaceCoordinates` uses it -/

/-- A value of type `double` (IEEE 754 binary64): the finite value `m * 2 ^ e`, an
infinity, or a NaN. The sign of a zero is not kept: no operation of the code depends on
it (a divisor is a converted unsigned value, so it is never a negative zero). -/
inductive Double
  | finite (m : Int) (e : Int)
  | inf (negative : Bool)
  | nan
  deriving DecidableEq, Repr

/-- The number of binary digits of `n` (0 for 0), counted with at most `fuel` halvings. -/
def bitLengthAux : Nat → Nat → Nat
  | 0, _ => 0
  | fuel + 1, n => if n = 0 then 0 else bitLengthAux fuel (n / 2) + 1

/-- The number of binary digits of `n`: the least `k` with `n < 2 ^ k`. -/
def bitLength (n : Nat) : Nat := bitLengthAux n n

/-- Rounding to `double` of the rational `n / d * 2 ^ e` (`d` positive), negated when
`negative` is set: round to nearest, ties to even, with 53 significant bits, gradual
underflow below `2 ^ -1022` and overflow to infinity from `2 ^ 1024`. The quotient is
taken with 64 guard bits, `sticky` records a remainder, and `drop` low bits are rounded
away so that the result is a multiple of `2 ^ u`. -/
def Double.round (negative : Bool) (n d : Nat) (e : Int) : Double :=
  if n = 0 then Double.finite 0 0
  else
    let k : Nat := 64 + bitLength d
    let q : Nat := n * 2 ^ k / d
    let sticky : Bool := decide (n * 2 ^ k % d ≠ 0)
    let E : Int := (bitLength q : Int) - 1 + e - (k : Int)
    let u : Int := max E (-1022) - 52
    let drop : Nat := (u - (e - (k : Int))).toNat
    let n0 : Nat := q / 2 ^ drop
    let rem : Nat := q % 2 ^ drop
    let half : Nat := 2 ^ (drop - 1)
    let up : Bool :=
      decide (half < rem) || (decide (rem = half) && (sticky || decide (n0 % 2 = 1)))
    let N : Nat := if up then n0 + 1 else n0
    if (bitLength N : Int) + u > 1024 then Double.inf negative
    else Double.finite (if negative then -(N : Int) else (N : Int)) u

/-- Conversion of an integer to `double`. -/
def Double.ofInt (z : Int) : Double := Double.round (decide (z < 0)) z.natAbs 1 0

/-- Negation. -/
def Double.neg : Double → Double
  | Double.finite m e => Double.finite (-m) e
  | Double.inf s => Double.inf (!s)
  | Double.nan => Double.nan

/-- Multiplication of two `double` values. -/
def Double.mul : Double → Double → Double
  | Double.finite m1 e1, Double.finite m2 e2 =>
    Double.round (decide (m1 * m2 < 0)) (m1 * m2).natAbs 1 (e1 + e2)
  | Double.finite m _, Double.inf s =>
    if m = 0 then Double.nan else Double.inf (xor (decide (m < 0)) s)
  | Double.inf s, Double.finite m _ =>
    if m = 0 then Double.nan else Double.inf (xor s (decide (m < 0)))
  | Double.inf s1, Double.inf s2 => Double.inf (xor s1 s2)
  | _, _ => Double.nan

/-- Division of two `double` values. -/
def Double.div : Double → Double → Double
  | Double.finite m1 e1, Double.finite m2 e2 =>
    if m2 = 0 then
      if m1 = 0 then Double.nan else Double.inf (decide (m1 < 0))
    else
      Double.round (decide (m1 * m2 < 0)) m1.natAbs m2.natAbs (e1 - e2)
  | Double.finite _ _, Double.inf _ => Double.finite 0 0
  | Double.inf s, Double.finite m _ => Double.inf (xor s (decide (m < 0)))
  | _, _ => Double.nan

/-- Addition of two `double` values. -/
def Double.add : Double → Double → Double
  | Double.finite m1 e1, Double.finite m2 e2 =>
    let e : Int := min e1 e2
    let m : Int := m1 * 2 ^ (e1 - e).toNat + m2 * 2 ^ (e2 - e).toNat
    Double.round (decide (m < 0)) m.natAbs 1 e
  | Double.finite _ _, Double.inf s => Double.inf s
  | Double.inf s, Double.finite _ _ => Double.inf s
  | Double.inf s1, Double.inf s2 => if s1 = s2 then Double.inf s1 else Double.nan
  | _, _ => Double.nan

/-- Subtraction of two `double` values. -/
def Double.sub (a b : Double) : Double := Double.add a (Double.neg b)

/-- The least value of `int32_t`. -/
def INT32_MIN : Int := -2 ^ 31

/-- The integer part of the finite value `m * 2 ^ e`: the fractional part is discarded
(rounding toward zero). -/
def Double.intPart (m e : Int) : Int :=
  if 0 ≤ e then m * 2 ^ e.toNat else Int.tdiv m (2 ^ (-e).toNat)

/-- The store of a `double` into an `int32_t`: the fractional part is discarded. For a
value whose integer part is not representable, an infinity or a NaN the conversion is
undefined in C; the value stored is then taken to be `INT32_MIN`, which is what the
conversion instruction of x86 produces. -/
def Double.toInt32 : Double → Int
  | Double.finite m e =>
    if INT32_MIN ≤ Double.intPart m e ∧ Double.intPart m e ≤ 2 ^ 31 - 1 then Double.intPart m e
    else INT32_MIN
  | _ => INT32_MIN

/-- A `double` that is finite with a value between two integers. -/
def Double.Within (r : Double) (lo hi : Int) : Prop :=
  ∃ m e, r = Double.finite m e ∧ (lo : ℚ) ≤ (m : ℚ) * (2 : ℚ) ^ e ∧
    (m : ℚ) * (2 : ℚ) ^ e ≤ (hi : ℚ)

/-- The double `r` is a correct rounding of the rational `z`, as far as the proofs need
it: if `r` is finite it is on the same side of every integer of magnitude at most
`2 ^ 52` as `z`, and its distance from `z` is at most `B / 2 ^ 53` for every bound `B` of
`|z|` in the normal range; and `r` is finite when `|z|` is at most `2 ^ 52`. -/
def Double.IsRoundingOf (r : Double) (z : ℚ) : Prop :=
  (∀ m e, r = Double.finite m e →
    (∀ lo : Int, |lo| ≤ 2 ^ 52 → (lo : ℚ) ≤ z → (lo : ℚ) ≤ (m : ℚ) * (2 : ℚ) ^ e) ∧
    (∀ hi : Int, |hi| ≤ 2 ^ 52 → z ≤ (hi : ℚ) → (m : ℚ) * (2 : ℚ) ^ e ≤ (hi : ℚ)) ∧
    (∀ B : ℚ, |z| ≤ B → (2 : ℚ) ^ (-1022 : Int) ≤ B →
      |(m : ℚ) * (2 : ℚ) ^ e - z| ≤ B / 2 ^ 53)) ∧
  (|z| ≤ 2 ^ 52 → ∃ m e, r = Double.finite m e)

/-- The formula `norm = (raw / previewDimension) * range - range/2` of the specification,
evaluated the way the code evaluates it: in double arithmetic, every operation rounded,
with the integer half of the range. -/
def normDouble (raw : Int) (previewDimension range : Nat) : Double :=
  Double.sub
    (Double.mul (Double.div (Double.ofInt raw) (Double.ofInt previewDimension))
      (Double.ofInt range))
    (Double.ofInt ((range / 2 : Nat) : Int))

/-- The width or height of the specification "scaled by the same ratio", times the
multiplier of the orientation (1, or -1 at 180 degrees), in double arithmetic. -/
def extentDouble (raw : Int) (previewDimension range : Nat) (multiplier : Int) : Double :=
  Double.mul
    (Double.mul (Double.div (Double.ofInt raw) (Double.ofInt previewDimension))
      (Double.ofInt range))
    (Double.ofInt multiplier)

/-- The scaled extent of the specification "added to the already-transformed left/top"
`near`, which is an `int`, in double arithmetic. -/
def farDouble (near raw : Int) (previewDimension range : Nat) (multiplier : Int) : Double :=
  Double.add (Double.ofInt near) (extentDouble raw previewDimension range multiplier)

/-- The integer test that `j` passes when the quotient `j / H`, rounded to a double and
multiplied by `H` in double arithmetic, does not end above `j`: with `2 ^ a ≤ j` the
leading bit of `j` and `s` the shift that brings `j` into `[H, 2 * H)`, the double nearest
to `j / H` is at most `R / 2 ^ (s + 52)` with `R` the quotient below, and `R * H` exceeds
`j * 2 ^ (s + 52)` by less than half a spacing of the doubles around `j`. -/
def exactTest (H j : Nat) : Bool :=
  let a : Nat := bitLength j - 1
  let s0 : Nat := bitLength H - bitLength j
  let s : Nat := if H ≤ j * 2 ^ s0 then s0 else s0 + 1
  decide (H ≤ j * 2 ^ s ∧ j * 2 ^ s < 2 * H ∧ 2 ^ a ≤ j ∧
    2 * ((2 * j * 2 ^ (s + 52) + H) / (2 * H)) * H < 2 * j * 2 ^ (s + 52) + 2 ^ (a + s))

/-- Whether every `j` from 1 to `n` passes `exactTest H`. -/
def exactTestUpTo (H : Nat) : Nat → Bool
  | 0 => true
  | n + 1 => exactTest H (n + 1) && exactTestUpTo H n

/-- One entry of `tFacePosition`, as far as `encodeFaceCoordinates` reads it. The fields
are integers; the header that fixes their width and signedness is not among the sources. -/
structure OMX_TI_FACERESULT where
  nScore : Int
  nLeft : Int
  nTop : Int
  nWidth : Int
  nHeight : Int
  deriving DecidableEq, Repr

/-- The face-detection data of a frame, as far as the code reads it. -/
structure OMX_FACEDETECTIONTYPE where
  nSize : Nat
  ulFaceCount : Nat
  tFacePosition : Nat → OMX_TI_FACERESULT

/-- The output record `camera_face_t`; `rect`, `left_eye`, `right_eye` and `mouth` are the
arrays of the C structure. -/
structure camera_face_t where
  rect : List Int
  score : Int
  id : Int
  left_eye : List Int
  right_eye : List Int
  mouth : List Int
  deriving DecidableEq, Repr

/-- The output record `camera_frame_metadata_t`; `faces = none` is the null pointer. -/
structure camera_frame_metadata_t where
  number_of_faces : Int
  faces : Option (List camera_face_t)
  deriving DecidableEq, Repr

/-- Whether the two `malloc` calls of `encodeFaceCoordinates` return a block. -/
structure Allocator where
  faceResultOk : Bool
  facesOk : Bool
  deriving DecidableEq, Repr

/-- The outcome of `encodeFaceCoordinates`: the status, and what was stored through
`pFaces` (`none`: nothing was stored). -/
structure EncodeResult where
  ret : Int
  pFaces : Option camera_frame_metadata_t
  deriving DecidableEq, Repr

/-- The local `hRange` of `encodeFaceCoordinates`: `RIGHT - LEFT` stored in a `size_t`. -/
def hRange (c : FaceSpace) : Nat := toSizeT (c.RIGHT - c.LEFT)

/-- The local `vRange` of `encodeFaceCoordinates`: `BOTTOM - TOP` stored in a `size_t`. -/
def vRange (c : FaceSpace) : Nat := toSizeT (c.BOTTOM - c.TOP)

/-- The body of the loop of `encodeFaceCoordinates` for one face: the four stores into
`rect` in source order, then the score, id and landmarks. `tmp` is a `double`; the
operands `hRange`, `hRange / 2` (an integer division), `orient_mult` and the `int` read
back from `rect` are converted to `double` by the usual arithmetic conversions. -/
def encodeFace (c : FaceSpace) (mDeviceOrientation : Int) (previewWidth previewHeight : Nat)
    (face : OMX_TI_FACERESULT) : camera_face_t :=
  let hRange : Nat := hRange c
  let vRange : Nat := vRange c
  let orient_mult : Int := if mDeviceOrientation = 180 then -1 else 1
  let trans_left : Nat := if mDeviceOrientation = 180 then 2 else 0
  let trans_top : Nat := if mDeviceOrientation = 180 then 3 else 1
  let trans_right : Nat := if mDeviceOrientation = 180 then 0 else 2
  let trans_bot : Nat := if mDeviceOrientation = 180 then 1 else 3
  let rect0 : List Int := [0, 0, 0, 0]
  let tmp1 : Double := Double.div (Double.ofInt face.nLeft) (Double.ofInt previewWidth)
  let tmp2 : Double := Double.mul tmp1 (Double.ofInt hRange)
  let tmp3 : Double := Double.sub tmp2 (Double.ofInt ((hRange / 2 : Nat) : Int))
  let rect1 := rect0.set trans_left tmp3.toInt32
  let tmp4 : Double := Double.div (Double.ofInt face.nTop) (Double.ofInt previewHeight)
  let tmp5 : Double := Double.mul tmp4 (Double.ofInt vRange)
  let tmp6 : Double := Double.sub tmp5 (Double.ofInt ((vRange / 2 : Nat) : Int))
  let rect2 := rect1.set trans_top tmp6.toInt32
  let tmp7 : Double := Double.div (Double.ofInt face.nWidth) (Double.ofInt previewWidth)
  let tmp8 : Double := Double.mul tmp7 (Double.ofInt hRange)
  let tmp9 : Double := Double.mul tmp8 (Double.ofInt orient_mult)
  let rect3 := rect2.set trans_right
    (Double.add (Double.ofInt (rect2.getD trans_left 0)) tmp9).toInt32
  let tmp10 : Double := Double.div (Double.ofInt face.nHeight) (Double.ofInt previewHeight)
  let tmp11 : Double := Double.mul tmp10 (Double.ofInt vRange)
  let tmp12 : Double := Double.mul tmp11 (Double.ofInt orient_mult)
  let rect4 := rect3.set trans_bot
    (Double.add (Double.ofInt (rect3.getD trans_top 0)) tmp12).toInt32
  { rect := rect4
    score := face.nScore
    id := 0
    left_eye := [c.INVALID_DATA, c.INVALID_DATA]
    right_eye := [c.INVALID_DATA, c.INVALID_DATA]
    mouth := [c.INVALID_DATA, c.INVALID_DATA] }

/-- `OMXCameraAdapter::encodeFaceCoordinates`. -/
def encodeFaceCoordinates (c : FaceSpace) (mDeviceOrientation : Int) (heap : Allocator)
    (faceData : Option OMX_FACEDETECTIONTYPE) (previewWidth previewHeight : Nat) :
    EncodeResult :=
  match faceData with
  | none => ⟨EINVAL, none⟩
  | some fd =>
    if heap.faceResultOk = false then
      ⟨-ENOMEM, none⟩
    else if 0 < fd.ulFaceCount then
      if heap.facesOk = false then
        ⟨-ENOMEM, none⟩
      else
        let faces := (List.range fd.ulFaceCount).map
          (fun i => encodeFace c mDeviceOrientation previewWidth previewHeight (fd.tFacePosition i))
        ⟨NO_ERROR, some { number_of_faces := toInt32 fd.ulFaceCount, faces := some faces }⟩
    else
      ⟨NO_ERROR, some { number_of_faces := 0, faces := none }⟩

/-- The extra-data block of a frame; `data` is its payload read as face-detection data. -/
structure OMX_OTHER_EXTRADATATYPE where
  data : Option OMX_FACEDETECTIONTYPE

/-- The platform-private block of a buffer, as far as `detectFaces` reads it. -/
structure OMX_TI_PLATFORMPRIVATE where
  nSize : Nat
  nMetaDataSize : Int
  pMetaDataBuffer : Option OMX_OTHER_EXTRADATATYPE

/-- The buffer header, as far as `detectFaces` reads it. -/
structure OMX_BUFFERHEADERTYPE where
  pPlatformPrivate : Option OMX_TI_PLATFORMPRIVATE

/-- The values of `sizeof(OMX_TI_PLATFORMPRIVATE)` and `sizeof(OMX_FACEDETECTIONTYPE)`;
the structures are declared outside the sources, so the sizes are a parameter. -/
structure Layout where
  sizeofPlatformPrivate : Nat
  sizeofFaceDetection : Nat
  deriving DecidableEq, Repr

/-- The class `CameraFDResult`: it holds the pointer it was constructed with. -/
structure CameraFDResult where
  mFaceData : Option camera_frame_metadata_t
  deriving DecidableEq, Repr

/-- The outcome of `detectFaces`: the status and the caller's `result` pointer after the
call (`none`: null). -/
structure DetectResult where
  ret : Int
  result : Option CameraFDResult
  deriving DecidableEq, Repr

/-- `OMXCameraAdapter::detectFaces`; `result` is the value the caller's smart pointer
holds on entry. As in the source, the local `ret` is first set by the size check of the
platform-private block and later assigned the status of `encodeFaceCoordinates`. -/
def detectFaces (c : FaceSpace) (lay : Layout) (mComponentState : OMX_STATETYPE)
    (mDeviceOrientation : Int) (heap : Allocator) (pBuffHeader : Option OMX_BUFFERHEADERTYPE)
    (result : Option CameraFDResult) (previewWidth previewHeight : Nat) : DetectResult :=
  if OMX_STATETYPE.OMX_StateExecuting ≠ mComponentState then
    ⟨NO_INIT, result⟩
  else
    match pBuffHeader with
    | none => ⟨-EINVAL, result⟩
    | some bh =>
      match bh.pPlatformPrivate with
      | none => ⟨-EINVAL, result⟩
      | some platformPrivate =>
        let ret : Int :=
          if lay.sizeofPlatformPrivate = platformPrivate.nSize then NO_ERROR else -EINVAL
        if 0 ≥ platformPrivate.nMetaDataSize then
          ⟨-EINVAL, result⟩
        else
          match platformPrivate.pMetaDataBuffer with
          | none => ⟨-EINVAL, result⟩
          | some extraData =>
            match extraData.data with
            | none => ⟨-EINVAL, result⟩
            | some faceData =>
              if lay.sizeofFaceDetection = faceData.nSize then
                let r := encodeFaceCoordinates c mDeviceOrientation heap (some faceData)
                  previewWidth previewHeight
                let ret : Int := r.ret
                if NO_ERROR = ret then
                  ⟨ret, some ⟨r.pFaces⟩⟩
                else
                  ⟨ret, none⟩
              else
                ⟨-EINVAL, result⟩

/-- Entry `i` of the face array that `encodeFaceCoordinates` stored, if there is one. -/
def EncodeResult.face (r : EncodeResult) (i : Nat) : Option camera_face_t :=
  match r.pFaces with
  | some m =>
    match m.faces with
    | some fs => fs[i]?
    | none => none
  | none => none

/-! ## Autofocus controller (`OMXFocus.cpp`) -/

/-- The `status_t` value `INVALID_OPERATION` (`utils/Errors.h`: `-ENOSYS`). -/
def INVALID_OPERATION : Int := -38

/-- The `status_t` value `UNKNOWN_ERROR` (`utils/Errors.h`: `0x80000000` as a 32-bit int). -/
def UNKNOWN_ERROR : Int := -2147483648

/-- Modelled from the spec: the flag `AF_ACTIVE` of `enum AdapterActiveStates` is declared
in `CameraHal.h`, which is not among the sources. The spec's "autofocus active" logical
state is this flag being set in the adapter state. It is a single bit (`1 << 6` in the
header); the theorems below do not depend on which one. -/
def AF_ACTIVE : Nat := 1 <<< 6

/-- Modelled from the spec: the flag `SetFocus` of the pending 3A settings is declared in a
header that is not among the sources. Raising it marks the focus mode for re-application
on the next configuration pass. It is a single bit (`1 << 11` in the header). -/
def SetFocus : Nat := 1 <<< 11

/-- The focus-control modes the code tells apart (`OMX_IVCommon.h` and the TI extensions);
every other mode is `other`. -/
inductive OMX_IMAGE_FOCUSCONTROLTYPE
  | OMX_IMAGE_FocusControlOn
  | OMX_IMAGE_FocusControlOff
  | OMX_IMAGE_FocusControlAuto
  | OMX_IMAGE_FocusControlAutoLock
  | OMX_IMAGE_FocusControlAutoInfinity
  | other (code : Nat)
  deriving DecidableEq, Repr

/-- The focus status values the code tells apart (`OMX_IVCommon.h`); every other value is
`other`. -/
inductive OMX_FOCUSSTATUSTYPE
  | OMX_FocusStatusOff
  | OMX_FocusStatusRequest
  | OMX_FocusStatusReached
  | OMX_FocusStatusUnableToReach
  | OMX_FocusStatusLost
  | other (code : Nat)
  deriving DecidableEq, Repr

/-- The members of the adapter that the focus functions read or write:
`mComponentState`, `mParameters3A.Focus` and `mPending3Asettings`. -/
structure FocusState where
  mComponentState : OMX_STATETYPE
  Focus : OMX_IMAGE_FOCUSCONTROLTYPE
  mPending3Asettings : Nat
  deriving DecidableEq, Repr

/-- What `encodeFocusDistance` writes into its buffer: the text `Infinity`, or the
distance divided by 1000 and printed with three decimals (kept as the distance). -/
inductive EncodedDistance
  | infinity
  | metres (dist : Nat)
  deriving DecidableEq, Repr

/-- The externally visible actions of the focus functions, in the order of the calls in
the source. -/
inductive FocusEffect
  | pauseFaceDetection (pause : Bool)
  | registerForEvent
  | signalEvent
  | waitTimeout
  | setConfigCallbackRequest (bEnable : Bool)
  | setConfigFocusControl (eFocusControl : OMX_IMAGE_FOCUSCONTROLTYPE)
  | getConfigFocusControl
  | getConfigFocusStatus
  | getConfigFocusDistance
  | set3ALock (lock : Bool)
  | setStateCancelAutofocus
  | commitState
  | rollbackState
  | notifyFocusSubscribers (status : Bool)
  | setFocusDistances (near : EncodedDistance) (optimal : EncodedDistance) (far : EncodedDistance)
  deriving DecidableEq, Repr

/-- The outcome of a focus function that changes no member: status and actions. -/
structure FocusResult where
  ret : Int
  effects : List FocusEffect
  deriving DecidableEq, Repr

/-- The outcome of `doAutoFocus`: status, members afterwards, actions. -/
structure AutoFocusResult where
  ret : Int
  st : FocusState
  effects : List FocusEffect
  deriving DecidableEq, Repr

/-- What the hardware answers during one call of `stopAutoFocus`: the results of the two
`OMX_SetConfig` calls (callback request, focus off) and of the `OMX_GetConfig` for the
focus distances, with the distances read. -/
structure StopFocusEnv where
  callbackError : Nat
  focusOffError : Nat
  distanceError : Nat
  nFocusDistanceNear : Nat
  nFocusDistanceOptimal : Nat
  nFocusDistanceFar : Nat
  deriving DecidableEq, Repr

/-- What the environment answers during one call of `returnFocusStatus`: the adapter
state and transition results, the result and value of the focus status query, the result
of `set3ALock(OMX_TRUE)`, and the answers to the nested `stopAutoFocus`. -/
structure ReturnFocusEnv where
  adapter : AdapterEnv
  focusStatusError : Nat
  eFocusStatus : OMX_FOCUSSTATUSTYPE
  lockRet : Int
  stop : StopFocusEnv
  deriving DecidableEq, Repr

/-- What the environment answers during one call of `doAutoFocus`: the count of
`mDoAFSem`, the results of `RegisterForEvent`, of the `OMX_SetConfig` calls (arming the
callback, focus mode, disarming the callback), of `WaitTimeout` and of `SignalEvent`, and
the answers to the one `returnFocusStatus` call a run makes. -/
structure AutoFocusEnv where
  semCount : Nat
  registerRet : Int
  armError : Nat
  focusControlError : Nat
  waitRet : Int
  disarmError : Nat
  signalEventRet : Int
  completion : ReturnFocusEnv
  deriving DecidableEq, Repr

/-- What the environment answers during one call of `cancelAutoFocus`: the result of
`set3ALock(OMX_FALSE)`, the result and value of the focus mode query, the answers to the
nested `stopAutoFocus`, and the result of `SignalEvent`. -/
structure CancelFocusEnv where
  unlockRet : Int
  focusModeError : Nat
  eFocusControl : OMX_IMAGE_FOCUSCONTROLTYPE
  stop : StopFocusEnv
  signalEventRet : Int
  deriving DecidableEq, Repr

/-- `OMXCameraAdapter::setFocusCallback`; `eError` is the result of its `OMX_SetConfig`. -/
def setFocusCallback (st : FocusState) (eError : Nat) (enabled : Bool) : FocusResult :=
  let ret0 : Int := NO_ERROR
  let ret1 : Int := if OMX_STATETYPE.OMX_StateExecuting ≠ st.mComponentState then -1 else ret0
  if NO_ERROR = ret1 then
    let bEnable : Bool := if enabled then true else false
    if OMX_ErrorNone ≠ eError then
      ⟨-1, [FocusEffect.setConfigCallbackRequest bEnable]⟩
    else
      ⟨ret1, [FocusEffect.setConfigCallbackRequest bEnable]⟩
  else
    ⟨ret1, []⟩

/-- `OMXCameraAdapter::checkFocus`, called with the address of a local, so the pointer is
never null; `eError` is the result of its `OMX_GetConfig`. -/
def checkFocus (st : FocusState) (eError : Nat) : FocusResult :=
  let ret0 : Int := NO_ERROR
  let ret1 : Int := if OMX_STATETYPE.OMX_StateExecuting ≠ st.mComponentState then -EINVAL else ret0
  if NO_ERROR = ret1 then
    if OMX_ErrorNone ≠ eError then
      ⟨-1, [FocusEffect.getConfigFocusStatus]⟩
    else
      ⟨ret1, [FocusEffect.getConfigFocusStatus]⟩
  else
    ⟨ret1, []⟩

/-- `OMXCameraAdapter::getFocusDistances`; the distances are read by the caller from the
environment when the status is `NO_ERROR`. -/
def getFocusDistances (st : FocusState) (env : StopFocusEnv) : FocusResult :=
  let ret0 : Int := NO_ERROR
  let ret1 : Int :=
    if OMX_STATETYPE.OMX_StateInvalid = st.mComponentState then UNKNOWN_ERROR else ret0
  if NO_ERROR = ret1 then
    if OMX_ErrorNone ≠ env.distanceError then
      ⟨UNKNOWN_ERROR, [FocusEffect.getConfigFocusDistance]⟩
    else
      ⟨ret1, [FocusEffect.getConfigFocusDistance]⟩
  else
    ⟨ret1, []⟩

/-- `OMXCameraAdapter::encodeFocusDistance`: the status and the text written. -/
def encodeFocusDistance (st : FocusState) (dist : Nat) : Int × EncodedDistance :=
  let ret : Int := NO_ERROR
  let dist1 : Nat :=
    if st.Focus = OMX_IMAGE_FOCUSCONTROLTYPE.OMX_IMAGE_FocusControlAutoInfinity then 0 else dist
  if 0 = dist1 then (ret, EncodedDistance.infinity) else (ret, EncodedDistance.metres dist1)

/-- `OMXCameraAdapter::addFocusDistances`. -/
def addFocusDistances (st : FocusState) (near optimal far : Nat) : FocusResult :=
  let ret0 : Int := NO_ERROR
  let n := encodeFocusDistance st near
  let ret1 : Int := if NO_ERROR = ret0 then n.1 else ret0
  let o := encodeFocusDistance st optimal
  let ret2 : Int := if NO_ERROR = ret1 then o.1 else ret1
  let f := encodeFocusDistance st far
  let ret3 : Int := if NO_ERROR = ret2 then f.1 else ret2
  if NO_ERROR = ret3 then
    ⟨ret3, [FocusEffect.setFocusDistances n.2 o.2 f.2]⟩
  else
    ⟨ret3, []⟩

/-- `OMXCameraAdapter::updateFocusDistances`. -/
def updateFocusDistances (st : FocusState) (env : StopFocusEnv) : FocusResult :=
  let g := getFocusDistances st env
  if NO_ERROR = g.ret then
    let a := addFocusDistances st env.nFocusDistanceNear env.nFocusDistanceOptimal
      env.nFocusDistanceFar
    ⟨a.ret, g.effects ++ a.effects⟩
  else
    ⟨g.ret, g.effects⟩

/-- `OMXCameraAdapter::stopAutoFocus`; `omxToAndroidError` is
`ErrorUtils::omxToAndroidError`, which is not among the sources. -/
def stopAutoFocus (omxToAndroidError : Nat → Int) (st : FocusState) (env : StopFocusEnv) :
    FocusResult :=
  let ret0 : Int := NO_ERROR
  if OMX_STATETYPE.OMX_StateExecuting ≠ st.mComponentState then
    ⟨NO_INIT, []⟩
  else if st.Focus = OMX_IMAGE_FOCUSCONTROLTYPE.OMX_IMAGE_FocusControlAutoInfinity then
    ⟨NO_ERROR, []⟩
  else
    let cb := if NO_ERROR = ret0 then setFocusCallback st env.callbackError false else ⟨ret0, []⟩
    let ret1 : Int := cb.ret
    if NO_ERROR = ret1 then
      let fx := cb.effects ++
        [FocusEffect.setConfigFocusControl OMX_IMAGE_FOCUSCONTROLTYPE.OMX_IMAGE_FocusControlOff]
      if OMX_ErrorNone ≠ env.focusOffError then
        ⟨omxToAndroidError env.focusOffError, fx⟩
      else
        let u := updateFocusDistances st env
        ⟨ret1, fx ++ u.effects⟩
    else
      let u := updateFocusDistances st env
      ⟨ret1, cb.effects ++ u.effects⟩

/-- `OMXCameraAdapter::getFocusMode`; `eError` is the result of its `OMX_GetConfig`. -/
def getFocusMode (omxToAndroidError : Nat → Int) (st : FocusState) (eError : Nat) :
    FocusResult :=
  if OMX_STATETYPE.OMX_StateInvalid = st.mComponentState then
    ⟨NO_INIT, []⟩
  else
    ⟨omxToAndroidError eError, [FocusEffect.getConfigFocusControl]⟩

/-- `OMXCameraAdapter::cancelAutoFocus`. -/
def cancelAutoFocus (omxToAndroidError : Nat → Int) (env : CancelFocusEnv) (st : FocusState) :
    FocusResult :=
  let fx0 := [FocusEffect.set3ALock false]
  let m := getFocusMode omxToAndroidError st env.focusModeError
  let ret1 : Int := m.ret
  if NO_ERROR ≠ ret1 then
    ⟨ret1, fx0 ++ m.effects⟩
  else if env.eFocusControl ≠ OMX_IMAGE_FOCUSCONTROLTYPE.OMX_IMAGE_FocusControlAuto ∧
      env.eFocusControl ≠ OMX_IMAGE_FOCUSCONTROLTYPE.OMX_IMAGE_FocusControlAutoInfinity then
    let s := stopAutoFocus omxToAndroidError st env.stop
    let ret2 : Int := Int.lor ret1 env.signalEventRet
    ⟨ret2, fx0 ++ m.effects ++ s.effects ++ [FocusEffect.signalEvent] ++
      [FocusEffect.pauseFaceDetection false]⟩
  else
    ⟨ret1, fx0 ++ m.effects ++ [FocusEffect.pauseFaceDetection false]⟩

/-- The transition block of `returnFocusStatus`:
`ret = setState(CAMERA_CANCEL_AUTOFOCUS)`, then `commitState()` on success and
`ret |= rollbackState()` otherwise. -/
def cancelAutofocusState (ad : AdapterEnv) : Int × List FocusEffect :=
  if NO_ERROR = ad.setStateRet then
    (ad.commitStateRet, [FocusEffect.setStateCancelAutofocus, FocusEffect.commitState])
  else
    (Int.lor ad.setStateRet ad.rollbackStateRet,
      [FocusEffect.setStateCancelAutofocus, FocusEffect.rollbackState])

/-- `OMXCameraAdapter::returnFocusStatus`. -/
def returnFocusStatus (omxToAndroidError : Nat → Int) (env : ReturnFocusEnv) (st : FocusState)
    (timeoutReached : Bool) : FocusResult :=
  let ret0 : Int := NO_ERROR
  if (AF_ACTIVE &&& env.adapter.state) ≠ AF_ACTIVE then
    ⟨NO_ERROR, []⟩
  else
    let c : FocusResult :=
      if NO_ERROR = ret0 ∧ timeoutReached = false then checkFocus st env.focusStatusError
      else ⟨ret0, []⟩
    let ret1 : Int := c.ret
    let m : Bool × List FocusEffect :=
      if NO_ERROR = ret1 then
        if timeoutReached then
          (false, [])
        else if st.Focus = OMX_IMAGE_FOCUSCONTROLTYPE.OMX_IMAGE_FocusControlAuto then
          (true, [])
        else
          let sw : Bool × List FocusEffect :=
            if env.eFocusStatus = OMX_FOCUSSTATUSTYPE.OMX_FocusStatusReached then
              (true, [FocusEffect.set3ALock true])
            else
              (false, [])
          (sw.1, sw.2 ++ (stopAutoFocus omxToAndroidError st env.stop).effects)
      else
        (false, [])
    let focusStatus : Bool := m.1
    let t := cancelAutofocusState env.adapter
    let ret3 : Int := t.1
    let n : List FocusEffect :=
      if NO_ERROR = ret3 then [FocusEffect.notifyFocusSubscribers focusStatus] else []
    ⟨ret3, c.effects ++ m.2 ++ t.2 ++ n ++ [FocusEffect.pauseFaceDetection false]⟩

/-- `OMXCameraAdapter::doAutoFocus`. The status check of continuous autofocus is the
`#else` branch of the source: it is not asked of the hardware but set to `NO_ERROR` and
`OMX_FocusStatusReached`. -/
def doAutoFocus (omxToAndroidError : Nat → Int) (env : AutoFocusEnv) (st : FocusState) :
    AutoFocusResult :=
  let ret0 : Int := NO_ERROR
  if OMX_STATETYPE.OMX_StateExecuting ≠ st.mComponentState then
    let r := returnFocusStatus omxToAndroidError env.completion st false
    ⟨NO_INIT, st, r.effects⟩
  else if 0 ≠ env.semCount then
    ⟨NO_INIT, st, []⟩
  else
    let fx0 := [FocusEffect.pauseFaceDetection true]
    let eFocusControl0 : OMX_IMAGE_FOCUSCONTROLTYPE := st.Focus
    let checkRet : Int := NO_ERROR
    let checkStatus : OMX_FOCUSSTATUSTYPE := OMX_FOCUSSTATUSTYPE.OMX_FocusStatusReached
    let isAuto : Bool :=
      decide (st.Focus = OMX_IMAGE_FOCUSCONTROLTYPE.OMX_IMAGE_FocusControlAuto)
    if isAuto = true ∧ NO_ERROR ≠ checkRet then
      ⟨checkRet, st, fx0⟩
    else
      let ret1 : Int := if isAuto then checkRet else ret0
      let eFocusControl : OMX_IMAGE_FOCUSCONTROLTYPE :=
        if isAuto = true ∧ OMX_FOCUSSTATUSTYPE.OMX_FocusStatusReached ≠ checkStatus then
          OMX_IMAGE_FOCUSCONTROLTYPE.OMX_IMAGE_FocusControlAutoLock
        else eFocusControl0
      let waits : Bool := decide
        (eFocusControl ≠ OMX_IMAGE_FOCUSCONTROLTYPE.OMX_IMAGE_FocusControlAuto ∧
          eFocusControl ≠ OMX_IMAGE_FOCUSCONTROLTYPE.OMX_IMAGE_FocusControlAutoInfinity)
      let reg : FocusResult :=
        if waits then
          if NO_ERROR = env.registerRet then
            let cb := setFocusCallback st env.armError true
            ⟨cb.ret, FocusEffect.registerForEvent :: cb.effects⟩
          else
            ⟨env.registerRet, [FocusEffect.registerForEvent]⟩
        else
          ⟨ret1, []⟩
      let ret2 : Int := reg.ret
      let fx1 := fx0 ++ reg.effects ++ [FocusEffect.setConfigFocusControl eFocusControl]
      if OMX_ErrorNone ≠ env.focusControlError then
        ⟨INVALID_OPERATION, st, fx1⟩
      else
        let fin : FocusResult :=
          if waits then
            let ret3 : Int := env.waitRet
            let cb := setFocusCallback st env.disarmError false
            if ret3 ≠ NO_ERROR then
              let r := returnFocusStatus omxToAndroidError env.completion st true
              ⟨ret3, [FocusEffect.waitTimeout] ++ cb.effects ++ [FocusEffect.signalEvent] ++
                r.effects⟩
            else
              let r := returnFocusStatus omxToAndroidError env.completion st false
              ⟨r.ret, [FocusEffect.waitTimeout] ++ cb.effects ++ r.effects⟩
          else
            if NO_ERROR = ret2 then
              let r := returnFocusStatus omxToAndroidError env.completion st false
              ⟨r.ret, r.effects⟩
            else
              ⟨ret2, []⟩
        let st1 : FocusState :=
          if st.Focus = OMX_IMAGE_FOCUSCONTROLTYPE.OMX_IMAGE_FocusControlAuto ∧
              eFocusControl = OMX_IMAGE_FOCUSCONTROLTYPE.OMX_IMAGE_FocusControlAutoLock then
            { st with mPending3Asettings := st.mPending3Asettings ||| SetFocus }
          else st
        ⟨fin.ret, st1, fx1 ++ fin.effects⟩

/-- The focus results delivered to subscribers among a list of actions, in order. -/
def focusNotifications : List FocusEffect → List Bool
  | [] => []
  | FocusEffect.notifyFocusSubscribers status :: fx => status :: focusNotifications fx
  | _ :: fx => focusNotifications fx

/-- The actions that start or run a focus session, which completion handling never
takes: pausing face detection, registering for the event, arming the callback, writing a
focus mode other than off, waiting, and signalling the synthetic event. -/
def FocusEffect.isSessionStep : FocusEffect → Bool
  | FocusEffect.pauseFaceDetection true => true
  | FocusEffect.registerForEvent => true
  | FocusEffect.setConfigCallbackRequest true => true
  | FocusEffect.setConfigFocusControl OMX_IMAGE_FOCUSCONTROLTYPE.OMX_IMAGE_FocusControlOff => false
  | FocusEffect.setConfigFocusControl _ => true
  | FocusEffect.waitTimeout => true
  | FocusEffect.signalEvent => true
  | _ => false

/-- Whether an action is a hardware configuration read or write (`OMX_GetConfig` or
`OMX_SetConfig`). -/
def FocusEffect.isHardwareConfig : FocusEffect → Bool
  | FocusEffect.setConfigCallbackRequest _ => true
  | FocusEffect.setConfigFocusControl _ => true
  | FocusEffect.getConfigFocusControl => true
  | FocusEffect.getConfigFocusStatus => true
  | FocusEffect.getConfigFocusDistance => true
  | _ => false

/-! ## Concrete inputs used to instantiate the theorems -/

/-- A component in the executing state whose `OMX_SetConfig` succeeds. -/
def sampleHw : OMXPort := ⟨OMX_STATETYPE.OMX_StateExecuting, OMX_ErrorNone⟩

/-- An adapter in the smooth-zoom-active state whose transitions succeed. -/
def activeAdapter : AdapterEnv := ⟨ZOOM_ACTIVE, NO_ERROR, NO_ERROR, NO_ERROR⟩

/-- An adapter with no active flag set whose transitions succeed. -/
def idleAdapter : AdapterEnv := ⟨0, NO_ERROR, NO_ERROR, NO_ERROR⟩

/-- Structure sizes for the examples. -/
def sampleLayout : Layout := ⟨32, 100⟩

/-- A face that covers the top-left quarter of a 640 x 480 preview. -/
def quarterFace : OMX_TI_FACERESULT :=
  { nScore := 50, nLeft := 0, nTop := 0, nWidth := 320, nHeight := 240 }

/-- Face-detection data with one face, of the size `sampleLayout` expects. -/
def quarterFaceData : OMX_FACEDETECTIONTYPE :=
  { nSize := 100, ulFaceCount := 1, tFacePosition := fun _ => quarterFace }

/-- Face-detection data with no face, of the size `sampleLayout` expects. -/
def noFaceData : OMX_FACEDETECTIONTYPE :=
  { nSize := 100, ulFaceCount := 0, tFacePosition := fun _ => quarterFace }

/-- Face-detection data whose declared size is not the one `sampleLayout` expects. -/
def wrongSizeFaceData : OMX_FACEDETECTIONTYPE :=
  { nSize := 96, ulFaceCount := 1, tFacePosition := fun _ => quarterFace }

/-- A platform-private block of the expected size that carries `wrongSizeFaceData`. -/
def wrongSizePlatformPrivate : OMX_TI_PLATFORMPRIVATE :=
  { nSize := 32, nMetaDataSize := 1, pMetaDataBuffer := some ⟨some wrongSizeFaceData⟩ }

/-- A buffer whose platform-private block declares size 0 instead of the expected 32;
everything else in it is well formed. -/
def badPlatformPrivateBuffer : OMX_BUFFERHEADERTYPE :=
  ⟨some { nSize := 0, nMetaDataSize := 1, pMetaDataBuffer := some ⟨some noFaceData⟩ }⟩

/-- A stand-in for `ErrorUtils::omxToAndroidError` in the examples: `NO_ERROR` for
`OMX_ErrorNone`, `UNKNOWN_ERROR` for everything else. -/
def sampleOmxToAndroidError (eError : Nat) : Int :=
  if eError = OMX_ErrorNone then NO_ERROR else UNKNOWN_ERROR

/-- A hardware that accepts every call of `stopAutoFocus` and reports distances. -/
def okStop : StopFocusEnv :=
  { callbackError := OMX_ErrorNone, focusOffError := OMX_ErrorNone,
    distanceError := OMX_ErrorNone, nFocusDistanceNear := 500,
    nFocusDistanceOptimal := 1000, nFocusDistanceFar := 2000 }

/-- An adapter in the autofocus-active state whose transitions succeed. -/
def afAdapter : AdapterEnv := ⟨AF_ACTIVE, NO_ERROR, NO_ERROR, NO_ERROR⟩

/-- Completion handling in the autofocus-active state with every call succeeding and the
hardware reporting the given focus status. -/
def okCompletion (status : OMX_FOCUSSTATUSTYPE) : ReturnFocusEnv :=
  { adapter := afAdapter, focusStatusError := OMX_ErrorNone, eFocusStatus := status,
    lockRet := NO_ERROR, stop := okStop }

/-- Completion handling as `okCompletion`, but with the adapter not autofocus-active. -/
def idleCompletion (status : OMX_FOCUSSTATUSTYPE) : ReturnFocusEnv :=
  { okCompletion status with adapter := idleAdapter }

/-- An executing component with the given persistent focus mode and nothing pending. -/
def focusStateWith (mode : OMX_IMAGE_FOCUSCONTROLTYPE) : FocusState :=
  { mComponentState := OMX_STATETYPE.OMX_StateExecuting, Focus := mode,
    mPending3Asettings := 0 }

/-- A component in the loaded state, persistent mode auto-lock. -/
def loadedFocusState : FocusState :=
  { mComponentState := OMX_STATETYPE.OMX_StateLoaded,
    Focus := OMX_IMAGE_FOCUSCONTROLTYPE.OMX_IMAGE_FocusControlAutoLock,
    mPending3Asettings := 0 }

/-- A session in which every call succeeds and the completion event arrives in time. -/
def okSession (status : OMX_FOCUSSTATUSTYPE) : AutoFocusEnv :=
  { semCount := 0, registerRet := NO_ERROR, armError := OMX_ErrorNone,
    focusControlError := OMX_ErrorNone, waitRet := NO_ERROR, disarmError := OMX_ErrorNone,
    signalEventRet := NO_ERROR, completion := okCompletion status }

/-- A session in which every hardware call succeeds and the wait times out
(`WaitTimeout` returns -1). -/
def timedOutSession : AutoFocusEnv :=
  { okSession OMX_FOCUSSTATUSTYPE.OMX_FocusStatusRequest with waitRet := -1 }

/-- A session in which the hardware rejects the focus-mode write (error 0x80001001). -/
def rejectedSession : AutoFocusEnv :=
  { okSession OMX_FOCUSSTATUSTYPE.OMX_FocusStatusRequest with
    focusControlError := 0x80001001 }

/-- A cancellation in which every call succeeds and the hardware reports the given mode. -/
def okCancel (mode : OMX_IMAGE_FOCUSCONTROLTYPE) : CancelFocusEnv :=
  { unlockRet := NO_ERROR, focusModeError := OMX_ErrorNone, eFocusControl := mode,
    stop := okStop, signalEventRet := NO_ERROR }

/-- A component in the executing state whose `OMX_SetConfig` fails (error 0x80001001). -/
def rejectingHw : OMXPort := ⟨OMX_STATETYPE.OMX_StateExecuting, 0x80001001⟩

/-- A hardware that accepts the two writes of `stopAutoFocus` and fails the query of the
focus distances (error 0x80001001). -/
def failedDistanceStop : StopFocusEnv := { okStop with distanceError := 0x80001001 }

/-- A face in the middle of a 640 x 480 preview. -/
def centreFace : OMX_TI_FACERESULT :=
  { nScore := 80, nLeft := 160, nTop := 120, nWidth := 320, nHeight := 240 }

/-- Face-detection data with two faces: `quarterFace`, then `centreFace`. -/
def twoFaceData : OMX_FACEDETECTIONTYPE :=
  { nSize := 100, ulFaceCount := 2,
    tFacePosition := fun i => if i = 0 then quarterFace else centreFace }

/-- A face 402 pixels from the left of an 800 x 480 preview. -/
def offCentreFace : OMX_TI_FACERESULT :=
  { nScore := 60, nLeft := 402, nTop := 120, nWidth := 200, nHeight := 120 }

/-- Face-detection data with the one face `offCentreFace`. -/
def offCentreFaceData : OMX_FACEDETECTIONTYPE :=
  { nSize := 100, ulFaceCount := 1, tFacePosition := fun _ => offCentreFace }

/-- A face that reaches from pixel 398 to the right border of an 800 x 480 preview. -/
def wideFace : OMX_TI_FACERESULT :=
  { nScore := 70, nLeft := 398, nTop := 0, nWidth := 402, nHeight := 240 }

/-- Face-detection data with the one face `wideFace`. -/
def wideFaceData : OMX_FACEDETECTIONTYPE :=
  { nSize := 100, ulFaceCount := 1, tFacePosition := fun _ => wideFace }

/-- An output space from (-50, -50) to (50, 50). -/
def smallFaceSpace : FaceSpace :=
  { LEFT := -50, TOP := -50, RIGHT := 50, BOTTOM := 50, INVALID_DATA := -2000 }

/-- A face that reaches from pixel 28 to the right border of a 100 x 100 preview. -/
def borderFace : OMX_TI_FACERESULT :=
  { nScore := 10, nLeft := 28, nTop := 0, nWidth := 72, nHeight := 50 }

/-- Face-detection data with the one face `borderFace`. -/
def borderFaceData : OMX_FACEDETECTIONTYPE :=
  { nSize := 100, ulFaceCount := 1, tFacePosition := fun _ => borderFace }

/-! ## Zoom controller: lemmas -/

/-- `doZoom` changes no zoom member other than `prevIndex`, and notifies nobody. -/
theorem doZoom_frame (hw : OMXPort) (z : ZoomState) (index : Int) :
    (doZoom hw z index).st.mCurrentZoomIdx = z.mCurrentZoomIdx ∧
    (doZoom hw z index).st.mTargetZoomIdx = z.mTargetZoomIdx ∧
    (doZoom hw z index).st.mZoomInc = z.mZoomInc ∧
    (doZoom hw z index).st.mReturnZoomStatus = z.mReturnZoomStatus ∧
    (doZoom hw z index).st.mZoomParameterIdx = z.mZoomParameterIdx ∧
    zoomNotifications (doZoom hw z index).effects = [] := by
  unfold doZoom
  simp only []
  split_ifs <;> simp [zoomNotifications]

theorem zoomNotifications_append (a b : List ZoomEffect) :
    zoomNotifications (a ++ b) = zoomNotifications a ++ zoomNotifications b := by
  induction a with
  | nil => rfl
  | cons x xs ih => cases x <;> simp [zoomNotifications, ih]

theorem stopSmoothZoomState_quiet (ad : AdapterEnv) :
    zoomNotifications (stopSmoothZoomState ad).2 = [] := by
  unfold stopSmoothZoomState
  split_ifs <;> simp [zoomNotifications]

/-- One tick of an active ramp below its target: one step up, one notification. -/
theorem advanceZoom_step_up (hw : OMXPort) (ad : AdapterEnv) (z : ZoomState)
    (hp : z.mReturnZoomStatus = false) (hlt : z.mCurrentZoomIdx < z.mTargetZoomIdx)
    (ha : (ZOOM_ACTIVE &&& ad.state) ≠ 0) :
    (advanceZoom hw ad z).st.mCurrentZoomIdx = z.mCurrentZoomIdx + 1 ∧
    (advanceZoom hw ad z).st.mTargetZoomIdx = z.mTargetZoomIdx ∧
    (advanceZoom hw ad z).st.mReturnZoomStatus = false ∧
    zoomNotifications (advanceZoom hw ad z).effects =
      [(z.mCurrentZoomIdx + 1, decide (z.mCurrentZoomIdx + 1 = z.mTargetZoomIdx))] := by
  have hne : z.mCurrentZoomIdx ≠ z.mTargetZoomIdx := ne_of_lt hlt
  unfold advanceZoom
  simp only [hp, hne, ha, hlt, if_true, if_false, ne_eq, not_false_eq_true, Bool.false_eq_true]
  obtain ⟨h1, h2, h3, h4, h5, h6⟩ := doZoom_frame hw
    { z with mZoomInc := 1, mCurrentZoomIdx := z.mCurrentZoomIdx + 1 } (z.mCurrentZoomIdx + 1)
  simp only [] at h1 h2 h3 h4 h5 h6
  split_ifs with hc hr
  all_goals simp_all [zoomNotifications_append, zoomNotifications, stopSmoothZoomState_quiet]

/-- One tick of an active ramp above its target: one step down, one notification. -/
theorem advanceZoom_step_down (hw : OMXPort) (ad : AdapterEnv) (z : ZoomState)
    (hp : z.mReturnZoomStatus = false) (hlt : z.mTargetZoomIdx < z.mCurrentZoomIdx)
    (ha : (ZOOM_ACTIVE &&& ad.state) ≠ 0) :
    (advanceZoom hw ad z).st.mCurrentZoomIdx = z.mCurrentZoomIdx - 1 ∧
    (advanceZoom hw ad z).st.mTargetZoomIdx = z.mTargetZoomIdx ∧
    (advanceZoom hw ad z).st.mReturnZoomStatus = false ∧
    zoomNotifications (advanceZoom hw ad z).effects =
      [(z.mCurrentZoomIdx - 1, decide (z.mCurrentZoomIdx - 1 = z.mTargetZoomIdx))] := by
  have hne : z.mCurrentZoomIdx ≠ z.mTargetZoomIdx := ne_of_gt hlt
  have hnl : ¬ z.mCurrentZoomIdx < z.mTargetZoomIdx := not_lt.mpr (le_of_lt hlt)
  unfold advanceZoom
  simp only [hp, hne, ha, hnl, if_true, if_false, ne_eq, not_false_eq_true, Bool.false_eq_true]
  obtain ⟨h1, h2, h3, h4, h5, h6⟩ := doZoom_frame hw
    { z with mZoomInc := -1, mCurrentZoomIdx := z.mCurrentZoomIdx + -1 } (z.mCurrentZoomIdx + -1)
  simp only [] at h1 h2 h3 h4 h5 h6
  split_ifs with hc hr
  all_goals simp_all [zoomNotifications_append, zoomNotifications, stopSmoothZoomState_quiet,
    sub_eq_add_neg]

/-- An active ramp with the target above: as many ticks as the distance reach the target. -/
theorem ramp_up (envs : List (OMXPort × AdapterEnv)) :
    ∀ z : ZoomState, z.mReturnZoomStatus = false → z.mCurrentZoomIdx ≤ z.mTargetZoomIdx →
      (∀ e ∈ envs, (ZOOM_ACTIVE &&& e.2.state) ≠ 0) →
      envs.length = (z.mTargetZoomIdx - z.mCurrentZoomIdx).toNat →
      (advanceZoomSeq envs z).1.mCurrentZoomIdx = z.mTargetZoomIdx ∧
      (advanceZoomSeq envs z).2.map zoomNotifications =
        (List.range envs.length).map
          (fun k : Nat => [(z.mCurrentZoomIdx + ((k : Int) + 1), decide (k + 1 = envs.length))]) := by
  induction envs with
  | nil =>
    intro z _ hle _ hlen
    simp only [List.length_nil] at hlen
    refine ⟨?_, by simp [advanceZoomSeq]⟩
    simp only [advanceZoomSeq]
    omega
  | cons e es ih =>
    intro z hp hle ha hlen
    simp only [List.length_cons] at hlen
    have hlt : z.mCurrentZoomIdx < z.mTargetZoomIdx := by omega
    obtain ⟨s1, s2, s3, s4⟩ := advanceZoom_step_up e.1 e.2 z hp hlt (ha e (List.mem_cons_self _ _))
    have ha2 : ∀ x ∈ es, (ZOOM_ACTIVE &&& x.2.state) ≠ 0 :=
      fun x hx => ha x (List.mem_cons_of_mem _ hx)
    obtain ⟨i1, i2⟩ := ih (advanceZoom e.1 e.2 z).st s3 (by omega) ha2 (by omega)
    refine ⟨?_, ?_⟩
    · simp only [advanceZoomSeq]
      rw [i1, s2]
    · simp only [advanceZoomSeq, List.map_cons, List.length_cons]
      rw [i2, s4, s1, List.range_succ_eq_map, List.map_cons, List.map_map]
      congr 1
      · have : (z.mCurrentZoomIdx + 1 = z.mTargetZoomIdx) ↔ (0 + 1 = es.length + 1) := by omega
        simp [this]
      · apply List.map_congr_left
        intro k _
        simp only [Function.comp, Nat.succ_eq_add_one]
        have : (k + 1 = es.length) ↔ (k + 1 + 1 = es.length + 1) := by omega
        simp only [this]
        push_cast
        ring_nf

/-- An active ramp with the target below: as many ticks as the distance reach the target. -/
theorem ramp_down (envs : List (OMXPort × AdapterEnv)) :
    ∀ z : ZoomState, z.mReturnZoomStatus = false → z.mTargetZoomIdx ≤ z.mCurrentZoomIdx →
      (∀ e ∈ envs, (ZOOM_ACTIVE &&& e.2.state) ≠ 0) →
      envs.length = (z.mCurrentZoomIdx - z.mTargetZoomIdx).toNat →
      (advanceZoomSeq envs z).1.mCurrentZoomIdx = z.mTargetZoomIdx ∧
      (advanceZoomSeq envs z).2.map zoomNotifications =
        (List.range envs.length).map
          (fun k : Nat => [(z.mCurrentZoomIdx - ((k : Int) + 1), decide (k + 1 = envs.length))]) := by
  induction envs with
  | nil =>
    intro z _ hle _ hlen
    simp only [List.length_nil] at hlen
    refine ⟨?_, by simp [advanceZoomSeq]⟩
    simp only [advanceZoomSeq]
    omega
  | cons e es ih =>
    intro z hp hle ha hlen
    simp only [List.length_cons] at hlen
    have hlt : z.mTargetZoomIdx < z.mCurrentZoomIdx := by omega
    obtain ⟨s1, s2, s3, s4⟩ :=
      advanceZoom_step_down e.1 e.2 z hp hlt (ha e (List.mem_cons_self _ _))
    have ha2 : ∀ x ∈ es, (ZOOM_ACTIVE &&& x.2.state) ≠ 0 :=
      fun x hx => ha x (List.mem_cons_of_mem _ hx)
    obtain ⟨i1, i2⟩ := ih (advanceZoom e.1 e.2 z).st s3 (by omega) ha2 (by omega)
    refine ⟨?_, ?_⟩
    · simp only [advanceZoomSeq]
      rw [i1, s2]
    · simp only [advanceZoomSeq, List.map_cons, List.length_cons]
      rw [i2, s4, s1, List.range_succ_eq_map, List.map_cons, List.map_map]
      congr 1
      · have : (z.mCurrentZoomIdx - 1 = z.mTargetZoomIdx) ↔ (0 + 1 = es.length + 1) := by omega
        simp [this]
      · apply List.map_congr_left
        intro k _
        simp only [Function.comp, Nat.succ_eq_add_one]
        have : (k + 1 = es.length) ↔ (k + 1 + 1 = es.length + 1) := by omega
        simp only [this]
        push_cast
        ring_nf

/-! ## Zoom controller: claims -/

/-- Claim C1 (smooth-zoom convergence). From any zoom state with current index `s`, for
every target `t` in `[0, ZOOM_STAGES - 1]`, `startSmoothZoom t` succeeds and `|t - s|`
calls of `advanceZoom`, each seeing the adapter in the smooth-zoom-active state, leave
`mCurrentZoomIdx = t`. Call number `k` (counted from 1) sends exactly one notification:
the index `k` steps from `s` toward `t`, with `final = true` exactly when `k = |t - s|`.
This holds whatever the hardware writes and the state transitions return, so in
particular when they all succeed; a stop pending before the call is cleared by
`startSmoothZoom`. -/
theorem smoothZoom_converges (z : ZoomState) (t : Int) (envs : List (OMXPort × AdapterEnv))
    (ht : 0 ≤ t ∧ t ≤ ZOOM_STAGES - 1)
    (hactive : ∀ e ∈ envs, (ZOOM_ACTIVE &&& e.2.state) ≠ 0)
    (hlen : envs.length = (t - z.mCurrentZoomIdx).natAbs) :
    (startSmoothZoom t z).ret = NO_ERROR ∧
    (advanceZoomSeq envs (startSmoothZoom t z).st).1.mCurrentZoomIdx = t ∧
    (advanceZoomSeq envs (startSmoothZoom t z).st).2.map zoomNotifications =
      (List.range envs.length).map
        (fun k : Nat =>
          [(if z.mCurrentZoomIdx ≤ t then z.mCurrentZoomIdx + ((k : Int) + 1)
            else z.mCurrentZoomIdx - ((k : Int) + 1),
            decide (k + 1 = envs.length))]) := by
  have hs : (startSmoothZoom t z).ret = NO_ERROR ∧
      (startSmoothZoom t z).st.mReturnZoomStatus = false ∧
      (startSmoothZoom t z).st.mCurrentZoomIdx = z.mCurrentZoomIdx ∧
      (startSmoothZoom t z).st.mTargetZoomIdx = t := by
    have h30 : t < ZOOM_STAGES := by have := ht.2; unfold ZOOM_STAGES at *; omega
    unfold startSmoothZoom
    simp [ht.1, h30]
  obtain ⟨h0, h1, h2, h3⟩ := hs
  refine ⟨h0, ?_⟩
  by_cases hle : z.mCurrentZoomIdx ≤ t
  · have h := ramp_up envs (startSmoothZoom t z).st h1 (by omega) hactive (by omega)
    rw [h2, h3] at h
    simpa only [hle, if_true] using h
  · have h := ramp_down envs (startSmoothZoom t z).st h1 (by omega) hactive (by omega)
    rw [h2, h3] at h
    simpa only [hle, if_false] using h

/-- The scenario of claim C1: 31 stages, `startSmoothZoom 5` from index 0, five ticks;
the notifications are 1, 2, 3, 4 with `final = false`, then 5 with `final = true`. -/
theorem smoothZoom_converges_witness :
    (0 ≤ (5 : Int) ∧ (5 : Int) ≤ ZOOM_STAGES - 1) ∧
    (advanceZoomSeq (List.replicate 5 (sampleHw, activeAdapter))
      (startSmoothZoom 5 (initialZoomState 1 0)).st).1.mCurrentZoomIdx = 5 ∧
    (advanceZoomSeq (List.replicate 5 (sampleHw, activeAdapter))
      (startSmoothZoom 5 (initialZoomState 1 0)).st).2.map zoomNotifications =
      [[(1, false)], [(2, false)], [(3, false)], [(4, false)], [(5, true)]] :=
  have h := smoothZoom_converges (initialZoomState 1 0) 5
    (List.replicate 5 (sampleHw, activeAdapter)) (by decide) (by decide) (by decide)
  ⟨by decide, h.2.1, h.2.2.trans (by decide)⟩

/-- Claim C2 (zoom index invariant), evaluated where it fails. From the initial state:
`startSmoothZoom 30`, `stopSmoothZoom` (a stop is now pending, increment +1), then
`setParametersZoom` with stage 30 while the adapter is not in the smooth-zoom state
(both indices become 30, the pending stop is not cleared), then one `advanceZoom`:
the pending-stop step adds the increment, and `mCurrentZoomIdx = mTargetZoomIdx = 31`,
outside `[0, ZOOM_STAGES - 1]`; `doZoom` rejects the index with `-EINVAL` and writes
nothing, and subscribers are told index 31. -/
theorem zoomIndex_leaves_table :
    (runZoomCalls
      [ZoomCall.startSmoothZoom 30, ZoomCall.stopSmoothZoom,
        ZoomCall.setParametersZoom sampleHw 30 0, ZoomCall.advanceZoom sampleHw idleAdapter]
      (initialZoomState 1 0)).mCurrentZoomIdx = 31 ∧
    (runZoomCalls
      [ZoomCall.startSmoothZoom 30, ZoomCall.stopSmoothZoom,
        ZoomCall.setParametersZoom sampleHw 30 0, ZoomCall.advanceZoom sampleHw idleAdapter]
      (initialZoomState 1 0)).mTargetZoomIdx = 31 ∧
    ¬ ((31 : Int) ≤ ZOOM_STAGES - 1) ∧
    advanceZoom sampleHw idleAdapter
      (runZoomCalls
        [ZoomCall.startSmoothZoom 30, ZoomCall.stopSmoothZoom,
          ZoomCall.setParametersZoom sampleHw 30 0]
        (initialZoomState 1 0)) =
      ⟨-EINVAL,
        { mCurrentZoomIdx := 31, mTargetZoomIdx := 31, mZoomInc := 1,
          mReturnZoomStatus := false, mZoomParameterIdx := 0, prevIndex := 30 },
        [ZoomEffect.notifyZoomSubscribers 31 true]⟩ := by
  decide

/-- Every stage in `[0, ZOOM_STAGES - 1]` has an entry in `ZOOM_STEPS`, and that entry is
what `doZoom` reads. -/
theorem ZOOM_STEPS_entry (s : Int) (hs : 0 ≤ s ∧ s ≤ ZOOM_STAGES - 1) :
    ∃ v, ZOOM_STEPS[s.toNat]? = some v ∧ ZOOM_STEPS.getD s.toNat 0 = v := by
  have hlen : ZOOM_STEPS.length = 31 := by decide
  have hlt : s.toNat < ZOOM_STEPS.length := by
    have := hs.2
    unfold ZOOM_STAGES at this
    omega
  refine ⟨ZOOM_STEPS[s.toNat], List.getElem?_eq_getElem hlt, ?_⟩
  simp [List.getD_eq_getElem?_getD, List.getElem?_eq_getElem hlt]

/-- Claim C3 (immediate zoom). When the adapter state does not have the smooth-zoom flag
and the component state is not invalid, `setParametersZoom` with a stage `s` in
`[0, ZOOM_STAGES - 1]` leaves `mCurrentZoomIdx = mTargetZoomIdx = s`. If `s` differs from
the last stage written to hardware (`prevIndex`) it issues exactly one zoom write, with
`ZOOM_STEPS[s]` as width and height scale; if `s` equals it, it issues no write. -/
theorem setParametersZoom_immediate (hw : OMXPort) (s : Int) (state : Nat) (z : ZoomState)
    (hidle : (ZOOM_ACTIVE &&& state) ≠ ZOOM_ACTIVE)
    (hvalid : hw.mComponentState ≠ OMX_STATETYPE.OMX_StateInvalid)
    (hs : 0 ≤ s ∧ s ≤ ZOOM_STAGES - 1) :
    (setParametersZoom hw s state z).st.mCurrentZoomIdx = s ∧
    (setParametersZoom hw s state z).st.mTargetZoomIdx = s ∧
    (s ≠ z.prevIndex →
      ∃ v, ZOOM_STEPS[s.toNat]? = some v ∧
        zoomWrites (setParametersZoom hw s state z).effects = [(v, v)]) ∧
    (s = z.prevIndex → zoomWrites (setParametersZoom hw s state z).effects = []) := by
  have h30 : s < ZOOM_STAGES := by have := hs.2; unfold ZOOM_STAGES at *; omega
  have hrange : ¬ (0 > s ∨ ZOOM_STAGES - 1 < s) := by
    have := hs.1
    have := hs.2
    omega
  obtain ⟨v, hv1, hv2⟩ := ZOOM_STEPS_entry s hs
  unfold setParametersZoom
  simp only [hidle, hs.1, h30, ne_eq, not_false_eq_true, if_true, ge_iff_le, and_self]
  obtain ⟨f1, f2, -, -, -, -⟩ :=
    doZoom_frame hw { z with mTargetZoomIdx := s, mCurrentZoomIdx := s } s
  refine ⟨f1, f2, ?_, ?_⟩
  · intro hne
    refine ⟨v, hv1, ?_⟩
    have hne2 : ¬ z.prevIndex = s := fun h => hne h.symm
    unfold doZoom
    simp only [hvalid, hrange, hne2, if_false, if_true, hv2]
    split_ifs <;> simp [zoomWrites]
  · intro heq
    unfold doZoom
    simp [heq, zoomWrites]

/-- An instance of claim C3: stage 7 requested in the initial state, component executing,
no smooth zoom; one write of `ZOOM_STEPS[7] = 106168`. -/
theorem setParametersZoom_immediate_witness :
    (setParametersZoom sampleHw 7 0 (initialZoomState 1 0)).st.mCurrentZoomIdx = 7 ∧
    (setParametersZoom sampleHw 7 0 (initialZoomState 1 0)).st.mTargetZoomIdx = 7 ∧
    ((7 : Int) ≠ (initialZoomState 1 0).prevIndex →
      ∃ v, ZOOM_STEPS[(7 : Int).toNat]? = some v ∧
        zoomWrites (setParametersZoom sampleHw 7 0 (initialZoomState 1 0)).effects = [(v, v)]) ∧
    ((7 : Int) = (initialZoomState 1 0).prevIndex →
      zoomWrites (setParametersZoom sampleHw 7 0 (initialZoomState 1 0)).effects = []) :=
  setParametersZoom_immediate sampleHw 7 0 (initialZoomState 1 0)
    (by decide) (by decide) (by decide)

/-- Claim C4 as stated fails: in the initial state (indices equal, no stop pending)
`stopSmoothZoom` changes nothing and the following `advanceZoom` sends no notification at
all, whether the adapter is in the smooth-zoom state or not. -/
theorem stopSmoothZoom_at_target_is_silent :
    zoomNotifications
      (advanceZoom sampleHw activeAdapter (stopSmoothZoom (initialZoomState 1 0)).st).effects = [] ∧
    zoomNotifications
      (advanceZoom sampleHw idleAdapter (stopSmoothZoom (initialZoomState 1 0)).st).effects = [] ∧
    ¬ ∃ idx : Int, zoomNotifications
      (advanceZoom sampleHw activeAdapter (stopSmoothZoom (initialZoomState 1 0)).st).effects
        = [(idx, true)] := by
  refine ⟨by decide, by decide, ?_⟩
  rintro ⟨idx, h⟩
  have h0 : zoomNotifications
      (advanceZoom sampleHw activeAdapter (stopSmoothZoom (initialZoomState 1 0)).st).effects
        = [] := by decide
  rw [h0] at h
  exact List.noConfusion h

/-- Claim C4, amended. For every zoom state in which the indices differ or a stop is
already pending, `stopSmoothZoom` followed by one `advanceZoom` sends exactly one zoom
notification, with `final = true` and the index reached, and afterwards
`mCurrentZoomIdx = mTargetZoomIdx` and no stop is pending. -/
theorem stopSmoothZoom_then_advanceZoom (hw : OMXPort) (ad : AdapterEnv) (z : ZoomState)
    (h : z.mCurrentZoomIdx ≠ z.mTargetZoomIdx ∨ z.mReturnZoomStatus = true) :
    zoomNotifications (advanceZoom hw ad (stopSmoothZoom z).st).effects =
      [((advanceZoom hw ad (stopSmoothZoom z).st).st.mCurrentZoomIdx, true)] ∧
    (advanceZoom hw ad (stopSmoothZoom z).st).st.mCurrentZoomIdx =
      (advanceZoom hw ad (stopSmoothZoom z).st).st.mTargetZoomIdx ∧
    (advanceZoom hw ad (stopSmoothZoom z).st).st.mReturnZoomStatus = false := by
  have hpend : (stopSmoothZoom z).st.mReturnZoomStatus = true := by
    unfold stopSmoothZoom
    by_cases hne : z.mTargetZoomIdx ≠ z.mCurrentZoomIdx
    · simp [hne]
    · have heq : z.mCurrentZoomIdx = z.mTargetZoomIdx := (not_not.mp hne).symm
      rcases h with h | h
      · exact absurd heq h
      · simp [hne, h]
  generalize (stopSmoothZoom z).st = y at hpend
  unfold advanceZoom
  simp only [hpend, if_true]
  obtain ⟨f1, f2, -, f4, -, f6⟩ := doZoom_frame hw
    { y with mCurrentZoomIdx := y.mCurrentZoomIdx + y.mZoomInc,
             mTargetZoomIdx := y.mCurrentZoomIdx + y.mZoomInc,
             mReturnZoomStatus := false } (y.mCurrentZoomIdx + y.mZoomInc)
  simp only [] at f1 f2 f4 f6
  refine ⟨?_, ?_, ?_⟩
  · simp [zoomNotifications_append, f6, zoomNotifications]
  · rw [f1, f2]
  · exact f4

/-- An instance of amended claim C4: a ramp from 0 toward 5 is stopped before its first
tick; the next tick moves to index 1 and reports it as final. -/
theorem stopSmoothZoom_then_advanceZoom_witness :
    zoomNotifications (advanceZoom sampleHw idleAdapter
      (stopSmoothZoom (startSmoothZoom 5 (initialZoomState 1 0)).st).st).effects = [(1, true)] ∧
    (advanceZoom sampleHw idleAdapter
      (stopSmoothZoom (startSmoothZoom 5 (initialZoomState 1 0)).st).st).st.mCurrentZoomIdx =
    (advanceZoom sampleHw idleAdapter
      (stopSmoothZoom (startSmoothZoom 5 (initialZoomState 1 0)).st).st).st.mTargetZoomIdx ∧
    (advanceZoom sampleHw idleAdapter
      (stopSmoothZoom (startSmoothZoom 5 (initialZoomState 1 0)).st).st).st.mReturnZoomStatus
        = false :=
  have h := stopSmoothZoom_then_advanceZoom sampleHw idleAdapter
    (startSmoothZoom 5 (initialZoomState 1 0)).st (Or.inl (by decide))
  ⟨h.1.trans (by decide), h.2.1, h.2.2⟩

/-! ## Face-detection result transformer: lemmas -/

theorem truncToInt_intCast (z : Int) : truncToInt (z : ℚ) = z := by
  unfold truncToInt
  split_ifs
  · exact Int.floor_intCast z
  · exact Int.ceil_intCast z

theorem truncToInt_ge (q : ℚ) (lo : Int) (h : (lo : ℚ) ≤ q) : lo ≤ truncToInt q := by
  unfold truncToInt
  split_ifs with h0
  · exact Int.le_floor.mpr h
  · exact Int.cast_le.mp (le_trans h (Int.le_ceil q))

theorem truncToInt_le (q : ℚ) (hi : Int) (h : q ≤ (hi : ℚ)) : truncToInt q ≤ hi := by
  unfold truncToInt
  split_ifs with h0
  · exact Int.cast_le.mp (le_trans (Int.floor_le q) h)
  · exact Int.ceil_le.mpr h

theorem truncToInt_lt_add_one (q : ℚ) : ((truncToInt q : Int) : ℚ) < q + 1 := by
  unfold truncToInt
  split_ifs with h0
  · exact lt_of_le_of_lt (Int.floor_le q) (lt_add_one q)
  · exact Int.ceil_lt_add_one q

theorem truncToInt_le_of_lt (q : ℚ) (hi : Int) (h0 : 0 ≤ hi) (h : q < (hi : ℚ) + 1) :
    truncToInt q ≤ hi := by
  unfold truncToInt
  split_ifs with hq
  · have : ⌊q⌋ < hi + 1 := by
      apply Int.floor_lt.mpr
      push_cast
      exact h
    omega
  · have hneg : q < 0 := not_le.mp hq
    have : ⌈q⌉ ≤ 0 := Int.ceil_le.mpr (by exact_mod_cast le_of_lt hneg)
    omega

/-! ## Double precision: the rounding -/

theorem bitLengthAux_spec (fuel : Nat) : ∀ n : Nat, n ≤ fuel → 0 < n →
    2 ^ (bitLengthAux fuel n - 1) ≤ n ∧ n < 2 ^ bitLengthAux fuel n ∧ 0 < bitLengthAux fuel n := by
  induction fuel with
  | zero =>
    intro n h1 h2
    omega
  | succ f ih =>
    intro n h1 h2
    have hn : n ≠ 0 := by omega
    simp only [bitLengthAux, hn, if_false]
    by_cases h0 : n / 2 = 0
    · have h1' : n = 1 := by omega
      subst h1'
      have : bitLengthAux f (1 / 2) = 0 := by
        cases f <;> simp [bitLengthAux]
      rw [this]
      simp
    · obtain ⟨a, b, c⟩ := ih (n / 2) (by omega) (by omega)
      set L := bitLengthAux f (n / 2) with hL
      have hL1 : L = (L - 1) + 1 := by omega
      refine ⟨?_, ?_, by omega⟩
      · have : 2 ^ (L + 1 - 1) = 2 * 2 ^ (L - 1) := by
          rw [Nat.add_sub_cancel]
          conv_lhs => rw [hL1]
          rw [pow_succ]
          ring
        rw [this]
        omega
      · rw [pow_succ]
        omega

/-- For positive `n`, `bitLength n` is the number of its binary digits. -/
theorem bitLength_spec (n : Nat) (h : 0 < n) :
    2 ^ (bitLength n - 1) ≤ n ∧ n < 2 ^ bitLength n ∧ 0 < bitLength n :=
  bitLengthAux_spec n n (le_refl n) h

theorem bitLength_le (n k : Nat) (h : n < 2 ^ k) : bitLength n ≤ k := by
  by_cases h0 : n = 0
  · subst h0
    have : bitLength 0 = 0 := by simp [bitLength, bitLengthAux]
    omega
  · obtain ⟨a, -, c⟩ := bitLength_spec n (by omega)
    by_contra hc
    have hk : k ≤ bitLength n - 1 := by omega
    have : 2 ^ k ≤ 2 ^ (bitLength n - 1) := Nat.pow_le_pow_right (by norm_num) hk
    omega

/-- The last step of the rounding: `q + r / d` is divided by `2 ^ drop` and rounded to an
integer `N`; `N` is within a half of the quotient and no integer lies strictly between
them. -/
theorem round_core (q r d drop N : Nat) (hd : 0 < d) (hr : r < d) (hdrop : 0 < drop)
    (hN : N = if (decide (2 ^ (drop - 1) < q % 2 ^ drop) ||
        (decide (q % 2 ^ drop = 2 ^ (drop - 1)) &&
          (decide (r ≠ 0) || decide (q / 2 ^ drop % 2 = 1)))) = true
      then q / 2 ^ drop + 1 else q / 2 ^ drop) :
    (N : ℚ) - 1 / 2 ≤ ((q : ℚ) + (r : ℚ) / (d : ℚ)) / (2 : ℚ) ^ drop ∧
    ((q : ℚ) + (r : ℚ) / (d : ℚ)) / (2 : ℚ) ^ drop ≤ (N : ℚ) + 1 / 2 ∧
    (∀ M : Int, ((q : ℚ) + (r : ℚ) / (d : ℚ)) / (2 : ℚ) ^ drop ≤ (M : ℚ) → (N : Int) ≤ M) ∧
    (∀ M : Int, (M : ℚ) ≤ ((q : ℚ) + (r : ℚ) / (d : ℚ)) / (2 : ℚ) ^ drop → M ≤ (N : Int)) := by
  set P : Nat := 2 ^ drop with hP
  set half : Nat := 2 ^ (drop - 1) with hhalf
  have hPh : P = 2 * half := by
    rw [hP, hhalf]
    conv_lhs => rw [show drop = (drop - 1) + 1 by omega]
    rw [pow_succ]
    ring
  have hhalfpos : 0 < half := Nat.pos_pow_of_pos _ (by norm_num)
  have hPpos : 0 < P := by omega
  set n0 : Nat := q / P with hn0
  set rem : Nat := q % P with hrem
  have hq : q = P * n0 + rem := (Nat.div_add_mod q P).symm
  have hremlt : rem < P := Nat.mod_lt _ hPpos
  set f : ℚ := (r : ℚ) / (d : ℚ) with hf
  have hdq : (0 : ℚ) < (d : ℚ) := by exact_mod_cast hd
  have hf0 : 0 ≤ f := div_nonneg (Nat.cast_nonneg r) (le_of_lt hdq)
  have hf1 : f < 1 := by
    rw [hf, div_lt_one hdq]
    exact_mod_cast hr
  have hPq : ((2 : ℚ) ^ drop) = (P : ℚ) := by
    rw [hP]
    push_cast
    rfl
  rw [hPq]
  have hPq0 : (0 : ℚ) < (P : ℚ) := by exact_mod_cast hPpos
  have hPhq : (P : ℚ) = 2 * (half : ℚ) := by exact_mod_cast hPh
  have ht : ((q : ℚ) + f) / (P : ℚ) = (n0 : ℚ) + ((rem : ℚ) + f) / (P : ℚ) := by
    rw [hq]
    push_cast
    field_simp
    ring
  rw [ht]
  have hremq : (rem : ℚ) + 1 ≤ (P : ℚ) := by exact_mod_cast hremlt
  have hfrac0 : 0 ≤ ((rem : ℚ) + f) / (P : ℚ) :=
    div_nonneg (add_nonneg (Nat.cast_nonneg rem) hf0) (le_of_lt hPq0)
  have hfrac1 : ((rem : ℚ) + f) / (P : ℚ) < 1 := by
    rw [div_lt_one hPq0]
    linarith
  by_cases hup : (decide (half < rem) ||
      (decide (rem = half) && (decide (r ≠ 0) || decide (n0 % 2 = 1)))) = true
  · rw [if_pos hup] at hN
    have hge : half ≤ rem := by
      simp only [Bool.or_eq_true, Bool.and_eq_true, decide_eq_true_eq] at hup
      rcases hup with h | ⟨h, -⟩ <;> omega
    have hhalf_le : (1 : ℚ) / 2 ≤ ((rem : ℚ) + f) / (P : ℚ) := by
      rw [le_div_iff₀ hPq0, hPhq]
      have : (half : ℚ) ≤ (rem : ℚ) := by exact_mod_cast hge
      linarith
    subst hN
    push_cast
    refine ⟨by linarith, by linarith, ?_, ?_⟩
    · intro M hM
      have : (n0 : ℚ) < (M : ℚ) := by linarith
      have : (n0 : Int) < M := by exact_mod_cast this
      omega
    · intro M hM
      have : (M : ℚ) < (n0 : ℚ) + 1 := by linarith
      have : M < (n0 : Int) + 1 := by exact_mod_cast this
      omega
  · rw [if_neg hup] at hN
    have hle : ((rem : ℚ) + f) / (P : ℚ) ≤ 1 / 2 := by
      rw [div_le_iff₀ hPq0, hPhq]
      simp only [Bool.or_eq_true, Bool.and_eq_true, decide_eq_true_eq, not_or, not_and,
        not_lt] at hup
      obtain ⟨h1, h2⟩ := hup
      by_cases he : rem = half
      · have h3 := h2 he
        have hr0 : r = 0 := by
          by_contra hc
          exact h3.1 hc
        have : f = 0 := by
          rw [hf, hr0]
          simp
        rw [this, he]
        linarith
      · have : rem + 1 ≤ half := by omega
        have : (rem : ℚ) + 1 ≤ (half : ℚ) := by exact_mod_cast this
        linarith
    subst hN
    refine ⟨by linarith, by linarith, ?_, ?_⟩
    · intro M hM
      have : (n0 : ℚ) ≤ (M : ℚ) := by linarith
      exact_mod_cast this
    · intro M hM
      have : (M : ℚ) < (n0 : ℚ) + 1 := by linarith
      have : M < (n0 : Int) + 1 := by exact_mod_cast this
      omega

/-- The rounding of a positive rational `x = n / d * 2 ^ e`: the result is `N * 2 ^ u`
(or an infinity when that is too large), where `N` is within a half of `x / 2 ^ u`, no
multiple of `2 ^ u` lies strictly between `x` and the result, and `2 ^ u` is the spacing of
the doubles around `x`. -/
theorem round_spec (negative : Bool) (n d : Nat) (e : Int) (hn : 0 < n) (hd : 0 < d) :
    ∃ (N : Nat) (u : Int),
      Double.round negative n d e =
        (if (bitLength N : Int) + u > 1024 then Double.inf negative
          else Double.finite (if negative then -(N : Int) else (N : Int)) u) ∧
      (∀ M : Int, (n : ℚ) / (d : ℚ) * (2 : ℚ) ^ e ≤ (M : ℚ) * (2 : ℚ) ^ u → (N : Int) ≤ M) ∧
      (∀ M : Int, (M : ℚ) * (2 : ℚ) ^ u ≤ (n : ℚ) / (d : ℚ) * (2 : ℚ) ^ e → M ≤ (N : Int)) ∧
      |(N : ℚ) * (2 : ℚ) ^ u - (n : ℚ) / (d : ℚ) * (2 : ℚ) ^ e| ≤ (2 : ℚ) ^ u / 2 ∧
      (n : ℚ) / (d : ℚ) * (2 : ℚ) ^ e < (2 : ℚ) ^ (u + 53) ∧
      -1074 ≤ u ∧
      (u ≠ -1074 → (2 : ℚ) ^ (u + 52) ≤ (n : ℚ) / (d : ℚ) * (2 : ℚ) ^ e) := by
  have h2 : (2 : ℚ) ≠ 0 := two_ne_zero
  have h2p : (0 : ℚ) < 2 := by norm_num
  have h21 : (1 : ℚ) ≤ 2 := by norm_num
  set k : Nat := 64 + bitLength d with hk
  set q : Nat := n * 2 ^ k / d with hq
  set r : Nat := n * 2 ^ k % d with hr
  have hqr : n * 2 ^ k = d * q + r := (Nat.div_add_mod _ d).symm
  have hrlt : r < d := Nat.mod_lt _ hd
  obtain ⟨-, hdlt, -⟩ := bitLength_spec d hd
  have hq64 : 2 ^ 64 ≤ q := by
    rw [hq, Nat.le_div_iff_mul_le hd]
    have h1 : 2 ^ k = 2 ^ 64 * 2 ^ bitLength d := by rw [hk, pow_add]
    rw [h1]
    have h3 : 2 ^ 64 * d ≤ 2 ^ 64 * 2 ^ bitLength d := Nat.mul_le_mul_left _ (le_of_lt hdlt)
    have h4 : 2 ^ 64 * 2 ^ bitLength d ≤ n * (2 ^ 64 * 2 ^ bitLength d) :=
      Nat.le_mul_of_pos_left _ hn
    omega
  have hqpos : 0 < q := lt_of_lt_of_le (by norm_num) hq64
  obtain ⟨hLlo, hLhi, hLpos⟩ := bitLength_spec q hqpos
  set L : Nat := bitLength q with hL
  have hL65 : 65 ≤ L := by
    by_contra hc
    have : L ≤ 64 := by omega
    have : 2 ^ L ≤ 2 ^ 64 := Nat.pow_le_pow_right (by norm_num) this
    omega
  set E : Int := (L : Int) - 1 + e - (k : Int) with hE
  set u : Int := max E (-1022) - 52 with hu
  have huE : E - 52 ≤ u := by
    rw [hu]
    have := le_max_left E (-1022)
    omega
  have hu1074 : -1074 ≤ u := by
    rw [hu]
    have := le_max_right E (-1022)
    omega
  set drop : Nat := (u - (e - (k : Int))).toNat with hdrop
  have hdropZ : (drop : Int) = u - (e - (k : Int)) := by
    rw [hdrop]
    exact Int.toNat_of_nonneg (by omega)
  have hdrop1 : 0 < drop := by omega
  set N : Nat := if (decide (2 ^ (drop - 1) < q % 2 ^ drop) ||
        (decide (q % 2 ^ drop = 2 ^ (drop - 1)) &&
          (decide (r ≠ 0) || decide (q / 2 ^ drop % 2 = 1)))) = true
      then q / 2 ^ drop + 1 else q / 2 ^ drop with hN
  obtain ⟨c1, c2, c3, c4⟩ := round_core q r d drop N hd hrlt hdrop1 hN
  -- the value in terms of the quotient
  have hdq : (0 : ℚ) < (d : ℚ) := by exact_mod_cast hd
  set y : ℚ := (q : ℚ) + (r : ℚ) / (d : ℚ) with hy
  have hny : (n : ℚ) / (d : ℚ) = y / (2 : ℚ) ^ k := by
    have h1 : ((n * 2 ^ k : Nat) : ℚ) = ((d * q + r : Nat) : ℚ) := by rw [hqr]
    push_cast at h1
    rw [hy]
    rw [div_eq_div_iff (ne_of_gt hdq) (ne_of_gt (pow_pos h2p k))]
    have h3 : ((q : ℚ) + (r : ℚ) / (d : ℚ)) * (d : ℚ) = (d : ℚ) * (q : ℚ) + (r : ℚ) := by
      field_simp
      ring
    rw [h3, ← h1]
  have hpk : (0 : ℚ) < (2 : ℚ) ^ k := pow_pos h2p k
  have hx : (n : ℚ) / (d : ℚ) * (2 : ℚ) ^ e = y * (2 : ℚ) ^ (e - (k : Int)) := by
    rw [hny, zpow_sub₀ h2, zpow_natCast]
    field_simp
  have hsc : (0 : ℚ) < (2 : ℚ) ^ (e - (k : Int)) := zpow_pos h2p _
  have hupow : (2 : ℚ) ^ u = (2 : ℚ) ^ drop * (2 : ℚ) ^ (e - (k : Int)) := by
    rw [← zpow_natCast, ← zpow_add₀ h2]
    congr 1
    omega
  have hdp : (0 : ℚ) < (2 : ℚ) ^ drop := pow_pos h2p drop
  have hyt : y = y / (2 : ℚ) ^ drop * (2 : ℚ) ^ drop := by field_simp
  refine ⟨N, u, ?_, ?_, ?_, ?_, ?_, hu1074, ?_⟩
  · unfold Double.round
    simp only [Nat.pos_iff_ne_zero.mp hn, if_false]
  · intro M hM
    apply c3
    rw [hx, hupow] at hM
    have h5 : y ≤ (M : ℚ) * (2 : ℚ) ^ drop := by
      have := le_of_mul_le_mul_right (by linarith [hM] : y * (2 : ℚ) ^ (e - (k : Int)) ≤
        ((M : ℚ) * (2 : ℚ) ^ drop) * (2 : ℚ) ^ (e - (k : Int))) hsc
      exact this
    rw [div_le_iff₀ hdp]
    exact h5
  · intro M hM
    apply c4
    rw [hx, hupow] at hM
    have h5 : (M : ℚ) * (2 : ℚ) ^ drop ≤ y := by
      have := le_of_mul_le_mul_right (by linarith [hM] :
        ((M : ℚ) * (2 : ℚ) ^ drop) * (2 : ℚ) ^ (e - (k : Int)) ≤
          y * (2 : ℚ) ^ (e - (k : Int))) hsc
      exact this
    rw [le_div_iff₀ hdp]
    exact h5
  · rw [hx, hupow]
    have h6 : (N : ℚ) * ((2 : ℚ) ^ drop * (2 : ℚ) ^ (e - (k : Int))) -
        y * (2 : ℚ) ^ (e - (k : Int)) =
        ((N : ℚ) - y / (2 : ℚ) ^ drop) * ((2 : ℚ) ^ drop * (2 : ℚ) ^ (e - (k : Int))) := by
      have hA : (2 : ℚ) ^ drop ≠ 0 := ne_of_gt hdp
      field_simp
      ring
    rw [h6, abs_mul, abs_of_pos (mul_pos hdp hsc)]
    have h7 : |(N : ℚ) - y / (2 : ℚ) ^ drop| ≤ 1 / 2 := by
      rw [abs_sub_le_iff]
      constructor <;> linarith
    have := mul_le_mul_of_nonneg_right h7 (le_of_lt (mul_pos hdp hsc))
    linarith
  · rw [hx]
    have hy1 : y < (2 : ℚ) ^ L := by
      have hr1 : (r : ℚ) / (d : ℚ) < 1 := by
        rw [div_lt_one hdq]
        exact_mod_cast hrlt
      have : (q : ℚ) + 1 ≤ (2 : ℚ) ^ L := by exact_mod_cast hLhi
      rw [hy]
      linarith
    have h8 : y * (2 : ℚ) ^ (e - (k : Int)) < (2 : ℚ) ^ L * (2 : ℚ) ^ (e - (k : Int)) :=
      mul_lt_mul_of_pos_right hy1 hsc
    have h9 : (2 : ℚ) ^ L * (2 : ℚ) ^ (e - (k : Int)) = (2 : ℚ) ^ (E + 1) := by
      rw [← zpow_natCast, ← zpow_add₀ h2]
      congr 1
      omega
    have h10 : (2 : ℚ) ^ (E + 1) ≤ (2 : ℚ) ^ (u + 53) :=
      zpow_le_zpow_right₀ h21 (by omega)
    linarith
  · intro hne
    have huE2 : u = E - 52 := by
      rw [hu]
      rcases max_choice E (-1022) with h | h
      · rw [h]
      · rw [h] at hu
        omega
    rw [hx]
    have hy0 : (2 : ℚ) ^ (L - 1) ≤ y := by
      have h11 : ((2 ^ (L - 1) : Nat) : ℚ) ≤ (q : ℚ) := by exact_mod_cast hLlo
      have hr0 : 0 ≤ (r : ℚ) / (d : ℚ) := div_nonneg (Nat.cast_nonneg r) (le_of_lt hdq)
      push_cast at h11
      rw [hy]
      linarith
    have h12 : (2 : ℚ) ^ (L - 1) * (2 : ℚ) ^ (e - (k : Int)) ≤ y * (2 : ℚ) ^ (e - (k : Int)) :=
      mul_le_mul_of_nonneg_right hy0 (le_of_lt hsc)
    have h13 : (2 : ℚ) ^ (L - 1) * (2 : ℚ) ^ (e - (k : Int)) = (2 : ℚ) ^ (u + 52) := by
      rw [← zpow_natCast, ← zpow_add₀ h2]
      congr 1
      have : ((L - 1 : Nat) : Int) = (L : Int) - 1 := by omega
      omega
    linarith

/-- The rounding of a positive rational, in terms of its magnitude `N * 2 ^ u`. -/
theorem round_mag (negative : Bool) (n d : Nat) (e : Int) (hn : 0 < n) (hd : 0 < d) :
    ∃ (N : Nat) (u : Int),
      Double.round negative n d e =
        (if (bitLength N : Int) + u > 1024 then Double.inf negative
          else Double.finite (if negative then -(N : Int) else (N : Int)) u) ∧
      (∀ lo : Nat, lo ≤ 2 ^ 52 → (lo : ℚ) ≤ (n : ℚ) / (d : ℚ) * (2 : ℚ) ^ e →
        (lo : ℚ) ≤ (N : ℚ) * (2 : ℚ) ^ u) ∧
      (∀ hi : Nat, hi ≤ 2 ^ 52 → (n : ℚ) / (d : ℚ) * (2 : ℚ) ^ e ≤ (hi : ℚ) →
        (N : ℚ) * (2 : ℚ) ^ u ≤ (hi : ℚ) ∧ (bitLength N : Int) + u ≤ 1024) ∧
      (∀ B : ℚ, (n : ℚ) / (d : ℚ) * (2 : ℚ) ^ e ≤ B → (2 : ℚ) ^ (-1022 : Int) ≤ B →
        |(N : ℚ) * (2 : ℚ) ^ u - (n : ℚ) / (d : ℚ) * (2 : ℚ) ^ e| ≤ B / 2 ^ 53) := by
  have h2 : (2 : ℚ) ≠ 0 := two_ne_zero
  have h2p : (0 : ℚ) < 2 := by norm_num
  have h21 : (1 : ℚ) ≤ 2 := by norm_num
  have h12 : (1 : ℚ) < 2 := by norm_num
  obtain ⟨N, u, hr, hup, hlow, herr, hlt, hu, hnorm⟩ := round_spec negative n d e hn hd
  set x : ℚ := (n : ℚ) / (d : ℚ) * (2 : ℚ) ^ e with hx
  have hupos : (0 : ℚ) < (2 : ℚ) ^ u := zpow_pos h2p u
  -- a multiple of the spacing when the spacing is at most one
  have hmult : ∀ v : Nat, u ≤ 0 → ((v * 2 ^ (-u).toNat : Nat) : ℚ) * (2 : ℚ) ^ u = (v : ℚ) := by
    intro v hu0
    have h1 : (((-u).toNat : Nat) : Int) = -u := Int.toNat_of_nonneg (by omega)
    push_cast
    rw [mul_assoc, ← zpow_natCast, h1, ← zpow_add₀ h2]
    simp
  have hu0_of : ∀ hi : Nat, hi ≤ 2 ^ 52 → x ≤ (hi : ℚ) → u ≤ 0 := by
    intro hi hhi hxhi
    by_contra hc
    have h1 := hnorm (by omega)
    have h3 : (hi : ℚ) ≤ (2 : ℚ) ^ (52 : Int) := by
      have h5 : (hi : ℚ) ≤ ((2 ^ 52 : Nat) : ℚ) := by exact_mod_cast hhi
      have h6 : ((2 ^ 52 : Nat) : ℚ) = (2 : ℚ) ^ (52 : Int) := by norm_num
      rw [h6] at h5
      exact h5
    have h4 : (2 : ℚ) ^ (52 : Int) < (2 : ℚ) ^ (u + 52) := zpow_lt_zpow_right₀ h12 (by omega)
    linarith
  refine ⟨N, u, hr, ?_, ?_, ?_⟩
  · intro lo hlo hlox
    by_cases hu0 : u ≤ 0
    · have h1 := hlow ((lo * 2 ^ (-u).toNat : Nat) : Int) (by
        have := hmult lo hu0
        push_cast at this ⊢
        rw [this]
        exact hlox)
      have h3 : ((lo * 2 ^ (-u).toNat : Nat) : ℚ) ≤ (N : ℚ) := by exact_mod_cast h1
      have h4 := mul_le_mul_of_nonneg_right h3 (le_of_lt hupos)
      rw [hmult lo hu0] at h4
      exact h4
    · have h1 := hnorm (by omega)
      have h8 : ((((2 ^ 52 : Nat) : Int) : ℚ)) * (2 : ℚ) ^ u = (2 : ℚ) ^ (u + 52) := by
        rw [zpow_add₀ h2]
        norm_num
        ring
      have h3 := hlow ((2 ^ 52 : Nat) : Int) (by
        rw [h8]
        exact h1)
      have h4 : ((2 ^ 52 : Nat) : ℚ) ≤ (N : ℚ) := by exact_mod_cast h3
      have h5 : (1 : ℚ) ≤ (2 : ℚ) ^ u := by
        have := zpow_le_zpow_right₀ h21 (show (0 : Int) ≤ u by omega)
        simpa using this
      have h6 : (lo : ℚ) ≤ ((2 ^ 52 : Nat) : ℚ) := by exact_mod_cast hlo
      have h7 : (0 : ℚ) ≤ (N : ℚ) := Nat.cast_nonneg N
      nlinarith
  · intro hi hhi hxhi
    have hu0 := hu0_of hi hhi hxhi
    have h1 := hup ((hi * 2 ^ (-u).toNat : Nat) : Int) (by
      have := hmult hi hu0
      push_cast at this ⊢
      rw [this]
      exact hxhi)
    have h3 : (N : ℚ) ≤ ((hi * 2 ^ (-u).toNat : Nat) : ℚ) := by exact_mod_cast h1
    have h4 := mul_le_mul_of_nonneg_right h3 (le_of_lt hupos)
    rw [hmult hi hu0] at h4
    refine ⟨h4, ?_⟩
    have h5 : N ≤ hi * 2 ^ (-u).toNat := by exact_mod_cast h1
    have h6 : N < 2 ^ (53 + (-u).toNat) := by
      have : hi * 2 ^ (-u).toNat ≤ 2 ^ 52 * 2 ^ (-u).toNat := Nat.mul_le_mul_right _ hhi
      have h7 : 2 ^ (53 + (-u).toNat) = 2 * (2 ^ 52 * 2 ^ (-u).toNat) := by
        rw [pow_add]
        ring
      have h8 : 0 < 2 ^ 52 * 2 ^ (-u).toNat := by positivity
      omega
    have h9 := bitLength_le N _ h6
    have h10 : (((-u).toNat : Nat) : Int) = -u := Int.toNat_of_nonneg (by omega)
    omega
  · intro B hB hBn
    have hgoal : (2 : ℚ) ^ u / 2 ≤ B / 2 ^ 53 := by
      by_cases hc : u = -1074
      · rw [hc]
        have h1 : (2 : ℚ) ^ (-1074 : Int) / 2 = (2 : ℚ) ^ (-1022 : Int) / 2 ^ 53 := by
          rw [show (-1074 : Int) = -1022 + -52 by norm_num, zpow_add₀ h2]
          norm_num
        rw [h1]
        exact div_le_div_of_nonneg_right hBn (by positivity)
      · have h1 := hnorm hc
        have h3 : (2 : ℚ) ^ u / 2 = (2 : ℚ) ^ (u + 52) / 2 ^ 53 := by
          rw [zpow_add₀ h2]
          norm_num
          ring
        rw [h3]
        exact div_le_div_of_nonneg_right (le_trans h1 hB) (by positivity)
    exact le_trans herr hgoal

/-- `Double.round` is a correct rounding of the rational it is given. -/
theorem round_isRounding (negative : Bool) (n d : Nat) (e : Int) (hd : 0 < d) :
    (Double.round negative n d e).IsRoundingOf
      ((if negative then -1 else 1) * ((n : ℚ) / (d : ℚ) * (2 : ℚ) ^ e)) := by
  have h2p : (0 : ℚ) < 2 := by norm_num
  by_cases hn : n = 0
  · subst hn
    have hr : Double.round negative 0 d e = Double.finite 0 0 := by
      unfold Double.round
      simp
    rw [hr]
    simp only [Nat.cast_zero, zero_div, zero_mul, mul_zero]
    refine ⟨?_, fun _ => ⟨0, 0, rfl⟩⟩
    intro m e' hme
    injection hme with h1 h3
    subst h1
    subst h3
    simp only [Int.cast_zero, zero_mul, sub_zero, abs_zero]
    refine ⟨fun lo _ h => h, fun hi _ h => h, fun B hB _ => ?_⟩
    simp only [abs_zero] at hB
    positivity
  · have hnpos : 0 < n := Nat.pos_of_ne_zero hn
    obtain ⟨N, u, hr, hlo, hhi, herr⟩ := round_mag negative n d e hnpos hd
    set x : ℚ := (n : ℚ) / (d : ℚ) * (2 : ℚ) ^ e with hx
    have hxpos : 0 < x := by
      have h1 : (0 : ℚ) < (n : ℚ) := by exact_mod_cast hnpos
      have h3 : (0 : ℚ) < (d : ℚ) := by exact_mod_cast hd
      exact mul_pos (div_pos h1 h3) (zpow_pos h2p e)
    have hupos : (0 : ℚ) < (2 : ℚ) ^ u := zpow_pos h2p u
    have hNnn : (0 : ℚ) ≤ (N : ℚ) * (2 : ℚ) ^ u :=
      mul_nonneg (Nat.cast_nonneg N) (le_of_lt hupos)
    have h52 : ((2 ^ 52 : Nat) : Int) = 2 ^ 52 := by norm_num
    have key_hi : ∀ b : Int, |b| ≤ 2 ^ 52 → x ≤ (b : ℚ) → (N : ℚ) * (2 : ℚ) ^ u ≤ (b : ℚ) := by
      intro b hb hxb
      have hb0 : 0 ≤ b := by
        have : (0 : ℚ) < (b : ℚ) := lt_of_lt_of_le hxpos hxb
        have : (0 : Int) < b := by exact_mod_cast this
        omega
      obtain ⟨k, hk⟩ := Int.eq_ofNat_of_zero_le hb0
      subst hk
      have hk52 : k ≤ 2 ^ 52 := by
        have := abs_le.mp hb
        omega
      have := (hhi k hk52 (by exact_mod_cast hxb)).1
      exact_mod_cast this
    have key_lo : ∀ b : Int, |b| ≤ 2 ^ 52 → (b : ℚ) ≤ x → (b : ℚ) ≤ (N : ℚ) * (2 : ℚ) ^ u := by
      intro b hb hbx
      by_cases hb0 : 0 ≤ b
      · obtain ⟨k, hk⟩ := Int.eq_ofNat_of_zero_le hb0
        subst hk
        have hk52 : k ≤ 2 ^ 52 := by
          have := abs_le.mp hb
          omega
        have := hlo k hk52 (by exact_mod_cast hbx)
        exact_mod_cast this
      · have : (b : ℚ) ≤ 0 := by
          have : b ≤ 0 := by omega
          exact_mod_cast this
        linarith
    refine ⟨?_, ?_⟩
    · intro m e' hme
      rw [hr] at hme
      split_ifs at hme with hov hneg
      · injection hme with h1 h3
        subst h1
        subst h3
        simp only [if_pos hneg, Int.cast_neg, Int.cast_natCast, neg_mul, one_mul]
        refine ⟨?_, ?_, ?_⟩
        · intro lo hlo2 hloz
          have h4 := key_hi (-lo) (by rwa [abs_neg]) (by push_cast; linarith)
          push_cast at h4
          linarith
        · intro hi hhi2 hzhi
          have h4 := key_lo (-hi) (by rwa [abs_neg]) (by push_cast; linarith)
          push_cast at h4
          linarith
        · intro B hB hBn
          rw [abs_neg, abs_of_pos hxpos] at hB
          have h4 := herr B hB hBn
          have h5 : -((N : ℚ) * (2 : ℚ) ^ u) - -x = -((N : ℚ) * (2 : ℚ) ^ u - x) := by ring
          rw [h5, abs_neg]
          exact h4
      · injection hme with h1 h3
        subst h1
        subst h3
        simp only [if_neg hneg, Int.cast_natCast, one_mul]
        refine ⟨fun lo hlo2 hloz => key_lo lo hlo2 hloz,
          fun hi hhi2 hzhi => key_hi hi hhi2 hzhi, ?_⟩
        intro B hB hBn
        rw [abs_of_pos hxpos] at hB
        exact herr B hB hBn
    · intro hz
      have hxle : x ≤ ((2 ^ 52 : Nat) : ℚ) := by
        have h4 : |x| ≤ 2 ^ 52 := by
          have : |(if negative = true then (-1 : ℚ) else 1) * x| = |x| := by
            split_ifs <;> simp
          rw [this] at hz
          exact hz
        rw [abs_of_pos hxpos] at h4
        push_cast
        exact h4
      have h5 := (hhi (2 ^ 52) (le_refl _) hxle).2
      rw [hr, if_neg (by omega)]
      exact ⟨_, _, rfl⟩

/-! ## Double precision: the operations -/

theorem IsRoundingOf_congr (r : Double) (z z' : ℚ) (h : r.IsRoundingOf z) (hz : z = z') :
    r.IsRoundingOf z' := by
  rw [← hz]
  exact h

theorem natAbs_cast_sign (m : Int) :
    (if decide (m < 0) = true then (-1 : ℚ) else 1) * ((m.natAbs : Nat) : ℚ) = (m : ℚ) := by
  by_cases h : m < 0
  · simp only [h, decide_True, if_true]
    rw [Nat.cast_natAbs, abs_of_neg h]
    push_cast
    ring
  · simp only [h, decide_False, if_false, Bool.false_eq_true]
    rw [Nat.cast_natAbs, abs_of_nonneg (not_lt.mp h)]
    ring

/-- The conversion of an integer is a rounding of it. -/
theorem ofInt_isRounding (z : Int) : (Double.ofInt z).IsRoundingOf (z : ℚ) := by
  have h := round_isRounding (decide (z < 0)) z.natAbs 1 0 (by norm_num)
  refine IsRoundingOf_congr _ _ _ h ?_
  have := natAbs_cast_sign z
  simp only [Nat.cast_one, div_one, zpow_zero, mul_one]
  exact this

/-- The product of two finite doubles is a rounding of the product of their values. -/
theorem mul_isRounding (m1 e1 m2 e2 : Int) :
    (Double.mul (Double.finite m1 e1) (Double.finite m2 e2)).IsRoundingOf
      (((m1 : ℚ) * (2 : ℚ) ^ e1) * ((m2 : ℚ) * (2 : ℚ) ^ e2)) := by
  have h := round_isRounding (decide (m1 * m2 < 0)) (m1 * m2).natAbs 1 (e1 + e2) (by norm_num)
  refine IsRoundingOf_congr _ _ _ h ?_
  have h1 := natAbs_cast_sign (m1 * m2)
  have h2 : (2 : ℚ) ≠ 0 := two_ne_zero
  simp only [Nat.cast_one, div_one]
  rw [← mul_assoc, h1, zpow_add₀ h2]
  push_cast
  ring

/-- The quotient of two finite doubles, the divisor not zero, is a rounding of the
quotient of their values. -/
theorem div_isRounding (m1 e1 m2 e2 : Int) (h0 : m2 ≠ 0) :
    (Double.div (Double.finite m1 e1) (Double.finite m2 e2)).IsRoundingOf
      (((m1 : ℚ) * (2 : ℚ) ^ e1) / ((m2 : ℚ) * (2 : ℚ) ^ e2)) := by
  have hpos : 0 < m2.natAbs := Int.natAbs_pos.mpr h0
  have h := round_isRounding (decide (m1 * m2 < 0)) m1.natAbs m2.natAbs (e1 - e2) hpos
  have hd : Double.div (Double.finite m1 e1) (Double.finite m2 e2) =
      Double.round (decide (m1 * m2 < 0)) m1.natAbs m2.natAbs (e1 - e2) := by
    simp only [Double.div, h0, if_false]
  rw [hd]
  refine IsRoundingOf_congr _ _ _ h ?_
  have h2 : (2 : ℚ) ≠ 0 := two_ne_zero
  have hm2 : (m2 : ℚ) ≠ 0 := by exact_mod_cast h0
  have hp2 : (2 : ℚ) ^ e2 ≠ 0 := zpow_ne_zero _ h2
  have hS := natAbs_cast_sign (m1 * m2)
  have h3 : (((m1 * m2).natAbs : Nat) : ℚ) = ((m1.natAbs : Nat) : ℚ) * ((m2.natAbs : Nat) : ℚ) := by
    rw [Int.natAbs_mul]
    push_cast
    rfl
  have hA : ((m2.natAbs : Nat) : ℚ) * ((m2.natAbs : Nat) : ℚ) = (m2 : ℚ) * (m2 : ℚ) := by
    rw [Nat.cast_natAbs]
    have h4 : |m2| * |m2| = m2 * m2 := abs_mul_abs_self m2
    exact_mod_cast h4
  have hA2 : ((m2.natAbs : Nat) : ℚ) ≠ 0 := by
    have : (0 : ℚ) < ((m2.natAbs : Nat) : ℚ) := by exact_mod_cast hpos
    exact ne_of_gt this
  rw [h3] at hS
  push_cast at hS
  generalize (if decide (m1 * m2 < 0) = true then (-1 : ℚ) else 1) = S at hS ⊢
  generalize ((m1.natAbs : Nat) : ℚ) = A1 at hS ⊢
  generalize ((m2.natAbs : Nat) : ℚ) = A2 at hS hA hA2 ⊢
  have key : S * A1 * (m2 : ℚ) = (m1 : ℚ) * A2 := by
    apply mul_right_cancel₀ hA2
    linear_combination (m2 : ℚ) * hS - (m1 : ℚ) * hA
  rw [zpow_sub₀ h2]
  have hgoal : S * (A1 / A2 * ((2 : ℚ) ^ e1 / (2 : ℚ) ^ e2)) =
      (S * A1 * (m2 : ℚ)) * (2 : ℚ) ^ e1 / (A2 * (m2 : ℚ) * (2 : ℚ) ^ e2) := by
    field_simp
    ring
  rw [hgoal, key]
  field_simp
  ring

/-- The sum of two finite doubles is a rounding of the sum of their values. -/
theorem add_isRounding (m1 e1 m2 e2 : Int) :
    (Double.add (Double.finite m1 e1) (Double.finite m2 e2)).IsRoundingOf
      ((m1 : ℚ) * (2 : ℚ) ^ e1 + (m2 : ℚ) * (2 : ℚ) ^ e2) := by
  have h2 : (2 : ℚ) ≠ 0 := two_ne_zero
  have h := round_isRounding
    (decide (m1 * 2 ^ (e1 - min e1 e2).toNat + m2 * 2 ^ (e2 - min e1 e2).toNat < 0))
    (m1 * 2 ^ (e1 - min e1 e2).toNat + m2 * 2 ^ (e2 - min e1 e2).toNat).natAbs 1
    (min e1 e2) (by norm_num)
  refine IsRoundingOf_congr _ _ _ h ?_
  have h1 := natAbs_cast_sign (m1 * 2 ^ (e1 - min e1 e2).toNat + m2 * 2 ^ (e2 - min e1 e2).toNat)
  simp only [Nat.cast_one, div_one]
  rw [← mul_assoc, h1]
  have k1 : (((e1 - min e1 e2).toNat : Nat) : Int) = e1 - min e1 e2 :=
    Int.toNat_of_nonneg (by have := min_le_left e1 e2; omega)
  have k2 : (((e2 - min e1 e2).toNat : Nat) : Int) = e2 - min e1 e2 :=
    Int.toNat_of_nonneg (by have := min_le_right e1 e2; omega)
  have p1 : (2 : ℚ) ^ (e1 - min e1 e2).toNat * (2 : ℚ) ^ (min e1 e2) = (2 : ℚ) ^ e1 := by
    rw [← zpow_natCast, k1, ← zpow_add₀ h2]
    congr 1
    omega
  have p2 : (2 : ℚ) ^ (e2 - min e1 e2).toNat * (2 : ℚ) ^ (min e1 e2) = (2 : ℚ) ^ e2 := by
    rw [← zpow_natCast, k2, ← zpow_add₀ h2]
    congr 1
    omega
  push_cast
  rw [add_mul, mul_assoc, mul_assoc, p1, p2]

/-- The difference of two finite doubles is a rounding of the difference of their
values. -/
theorem sub_isRounding (m1 e1 m2 e2 : Int) :
    (Double.sub (Double.finite m1 e1) (Double.finite m2 e2)).IsRoundingOf
      ((m1 : ℚ) * (2 : ℚ) ^ e1 - (m2 : ℚ) * (2 : ℚ) ^ e2) := by
  have h := add_isRounding m1 e1 (-m2) e2
  refine IsRoundingOf_congr _ _ _ h ?_
  push_cast
  ring

/-- A rounding of a value between two integers of magnitude at most `2 ^ 52` is finite
and lies between them. -/
theorem within_of_rounding (r : Double) (z : ℚ) (lo hi : Int) (h : r.IsRoundingOf z)
    (hlo : |lo| ≤ 2 ^ 52) (hhi : |hi| ≤ 2 ^ 52) (h1 : (lo : ℚ) ≤ z) (h2 : z ≤ (hi : ℚ)) :
    r.Within lo hi := by
  have hz : |z| ≤ 2 ^ 52 := by
    rw [abs_le]
    have a1 := abs_le.mp hlo
    have a2 := abs_le.mp hhi
    have b1 : ((-(2 ^ 52) : Int) : ℚ) ≤ (lo : ℚ) := by exact_mod_cast a1.1
    have b2 : (hi : ℚ) ≤ ((2 ^ 52 : Int) : ℚ) := by exact_mod_cast a2.2
    push_cast at b1 b2
    constructor <;> linarith
  obtain ⟨m, e, hr⟩ := h.2 hz
  obtain ⟨c1, c2, -⟩ := h.1 m e hr
  exact ⟨m, e, hr, c1 lo hlo h1, c2 hi hhi h2⟩

/-- The integer part of a finite double is the truncation of its value. -/
theorem intPart_eq (m e : Int) :
    Double.intPart m e = truncToInt ((m : ℚ) * (2 : ℚ) ^ e) := by
  have h2 : (2 : ℚ) ≠ 0 := two_ne_zero
  unfold Double.intPart
  by_cases he : 0 ≤ e
  · rw [if_pos he]
    have k : ((e.toNat : Nat) : Int) = e := Int.toNat_of_nonneg he
    have : (m : ℚ) * (2 : ℚ) ^ e = ((m * 2 ^ e.toNat : Int) : ℚ) := by
      push_cast
      rw [← zpow_natCast, k]
    rw [this, truncToInt_intCast]
  · rw [if_neg he]
    have k : (((-e).toNat : Nat) : Int) = -e := Int.toNat_of_nonneg (by omega)
    have hv : (m : ℚ) * (2 : ℚ) ^ e = (m : ℚ) / ((2 ^ (-e).toNat : Nat) : ℚ) := by
      push_cast
      rw [← zpow_natCast, k, zpow_neg, div_inv_eq_mul]
    rw [hv]
    have hD : (0 : Int) ≤ (2 : Int) ^ (-e).toNat := by positivity
    have hDq : (0 : ℚ) < ((2 ^ (-e).toNat : Nat) : ℚ) := by positivity
    have hcast : ((2 : Int) ^ (-e).toNat) = ((2 ^ (-e).toNat : Nat) : Int) := by push_cast; rfl
    unfold truncToInt
    by_cases hm : 0 ≤ m
    · have h0 : (0 : ℚ) ≤ (m : ℚ) / ((2 ^ (-e).toNat : Nat) : ℚ) :=
        div_nonneg (by exact_mod_cast hm) (le_of_lt hDq)
      rw [if_pos h0, Rat.floor_intCast_div_natCast, Int.tdiv_eq_ediv hm hD, hcast]
    · have hm' : m < 0 := not_le.mp hm
      have h0 : ¬ (0 : ℚ) ≤ (m : ℚ) / ((2 ^ (-e).toNat : Nat) : ℚ) := by
        rw [not_le]
        exact div_neg_of_neg_of_pos (by exact_mod_cast hm') hDq
      rw [if_neg h0]
      have h3 : m.tdiv (2 ^ (-e).toNat) = -((-m).tdiv (2 ^ (-e).toNat)) := by
        rw [Int.neg_tdiv, neg_neg]
      rw [h3, Int.tdiv_eq_ediv (by omega) hD, hcast]
      have h4 : (m : ℚ) / ((2 ^ (-e).toNat : Nat) : ℚ) =
          -(((-m : Int) : ℚ) / ((2 ^ (-e).toNat : Nat) : ℚ)) := by
        push_cast
        ring
      rw [h4, Int.ceil_neg, Rat.floor_intCast_div_natCast]

/-- The store of a finite double between two values of `int32_t` is between them. -/
theorem toInt32_within (r : Double) (lo hi : Int) (h : r.Within lo hi)
    (hlo : INT32_MIN ≤ lo) (hhi : hi ≤ 2 ^ 31 - 1) :
    lo ≤ r.toInt32 ∧ r.toInt32 ≤ hi := by
  obtain ⟨m, e, hr, h1, h2⟩ := h
  subst hr
  have a := truncToInt_ge _ lo h1
  have b := truncToInt_le _ hi h2
  rw [← intPart_eq] at a b
  have hin : INT32_MIN ≤ Double.intPart m e ∧ Double.intPart m e ≤ 2 ^ 31 - 1 :=
    ⟨le_trans hlo a, le_trans b hhi⟩
  simp only [Double.toInt32, hin, and_self, if_true]
  exact ⟨a, b⟩

/-- An integer of magnitude at most `2 ^ 52` converts to a double without rounding. -/
theorem ofInt_exact (z : Int) (h : |z| ≤ 2 ^ 52) :
    ∃ m e, Double.ofInt z = Double.finite m e ∧ (m : ℚ) * (2 : ℚ) ^ e = (z : ℚ) := by
  have hr := ofInt_isRounding z
  have hz : |(z : ℚ)| ≤ 2 ^ 52 := by
    rw [← Int.cast_abs]
    exact_mod_cast h
  obtain ⟨m, e, hme⟩ := hr.2 hz
  obtain ⟨c1, c2, -⟩ := hr.1 m e hme
  exact ⟨m, e, hme, le_antisymm (c2 z h le_rfl) (c1 z h le_rfl)⟩

/-- A rounding of a value between two integers of magnitude at most `2 ^ 52` is finite,
lies between them, and is within `B / 2 ^ 53` of the value for every bound `B` of it in
the normal range. -/
theorem rounding_step (r : Double) (z : ℚ) (lo hi : Int) (B : ℚ) (h : r.IsRoundingOf z)
    (hlo : |lo| ≤ 2 ^ 52) (hhi : |hi| ≤ 2 ^ 52) (h1 : (lo : ℚ) ≤ z) (h2 : z ≤ (hi : ℚ))
    (hB : |z| ≤ B) (hB1 : 1 ≤ B) :
    ∃ m e, r = Double.finite m e ∧ (lo : ℚ) ≤ (m : ℚ) * (2 : ℚ) ^ e ∧
      (m : ℚ) * (2 : ℚ) ^ e ≤ (hi : ℚ) ∧ |(m : ℚ) * (2 : ℚ) ^ e - z| ≤ B / 2 ^ 53 := by
  obtain ⟨m, e, hr, c1, c2⟩ := within_of_rounding r z lo hi h hlo hhi h1 h2
  obtain ⟨-, -, c3⟩ := h.1 m e hr
  have hsmall : (2 : ℚ) ^ (-1022 : Int) ≤ B := by
    have : (2 : ℚ) ^ (-1022 : Int) ≤ 1 := by
      rw [zpow_neg]
      apply inv_le_one_of_one_le₀
      exact one_le_zpow₀ (by norm_num) (by norm_num)
    linarith
  exact ⟨m, e, hr, c1, c2, c3 B hB hsmall⟩

/-- A natural number below `2 ^ 32` converts to a double without rounding. -/
theorem ofInt_natCast_exact (n : Nat) (h : n < 2 ^ 32) :
    ∃ m e, Double.ofInt (n : Int) = Double.finite m e ∧ (m : ℚ) * (2 : ℚ) ^ e = (n : ℚ) := by
  have habs : |(n : Int)| ≤ 2 ^ 52 := by
    rw [abs_le]
    constructor <;> omega
  obtain ⟨m, e, h1, h2⟩ := ofInt_exact (n : Int) habs
  exact ⟨m, e, h1, by rw [h2]; norm_cast⟩

/-- The scaled coordinate `raw / previewDimension * range` in double arithmetic, for a
raw value between zero and the preview dimension: it is finite, between zero and the
range, and within `2 * (range + 1) / 2 ^ 53` of the exact quotient. -/
theorem scaled_spec (l : Int) (p r : Nat) (hl : 0 ≤ l) (hlp : l ≤ (p : Int)) (hp : 0 < p)
    (hp2 : p < 2 ^ 32) (hr : r < 2 ^ 32) :
    ∃ m e, Double.mul (Double.div (Double.ofInt l) (Double.ofInt p)) (Double.ofInt r) =
        Double.finite m e ∧
      0 ≤ (m : ℚ) * (2 : ℚ) ^ e ∧ (m : ℚ) * (2 : ℚ) ^ e ≤ (r : ℚ) ∧
      |(m : ℚ) * (2 : ℚ) ^ e - (l : ℚ) / (p : ℚ) * (r : ℚ)| ≤ 2 * ((r : ℚ) + 1) / 2 ^ 53 := by
  have hl2 : |l| ≤ 2 ^ 52 := by
    rw [abs_le]
    constructor <;> omega
  obtain ⟨m1, e1, a1, v1⟩ := ofInt_exact l hl2
  obtain ⟨m2, e2, a2, v2⟩ := ofInt_natCast_exact p hp2
  obtain ⟨m3, e3, a3, v3⟩ := ofInt_natCast_exact r hr
  have hpq : (0 : ℚ) < (p : ℚ) := by exact_mod_cast hp
  have hlq : (0 : ℚ) ≤ (l : ℚ) := by exact_mod_cast hl
  have hlpq : (l : ℚ) ≤ (p : ℚ) := by exact_mod_cast hlp
  have hrq : (0 : ℚ) ≤ (r : ℚ) := Nat.cast_nonneg r
  have hm2 : m2 ≠ 0 := by
    intro h0
    rw [h0] at v2
    simp at v2
    linarith
  have hx0 : (0 : ℚ) ≤ (l : ℚ) / (p : ℚ) := div_nonneg hlq (le_of_lt hpq)
  have hx1 : (l : ℚ) / (p : ℚ) ≤ 1 := (div_le_one hpq).mpr hlpq
  have d1 := div_isRounding m1 e1 m2 e2 hm2
  rw [v1, v2, ← a1, ← a2] at d1
  obtain ⟨m4, e4, a4, lo4, hi4, er4⟩ := rounding_step _ _ 0 1 1 d1 (by norm_num) (by norm_num)
    (by simpa using hx0) (by simpa using hx1) (by rw [abs_of_nonneg hx0]; exact hx1) le_rfl
  have d2 := mul_isRounding m4 e4 m3 e3
  rw [v3, ← a4, ← a3] at d2
  have hrabs : |(r : Int)| ≤ 2 ^ 52 := by
    rw [abs_le]
    constructor <;> omega
  simp only [Int.cast_zero, Int.cast_one] at lo4 hi4
  have hz0 : (0 : ℚ) ≤ (m4 : ℚ) * (2 : ℚ) ^ e4 * (r : ℚ) := mul_nonneg lo4 hrq
  have hz1 : (m4 : ℚ) * (2 : ℚ) ^ e4 * (r : ℚ) ≤ (r : ℚ) := by nlinarith
  obtain ⟨m5, e5, a5, lo5, hi5, er5⟩ := rounding_step _ _ 0 (r : Int) ((r : ℚ) + 1) d2
    (by norm_num) hrabs (by simpa using hz0) (by simpa using hz1)
    (by rw [abs_of_nonneg hz0]; linarith) (by linarith)
  refine ⟨m5, e5, a5, by simpa using lo5, by simpa using hi5, ?_⟩
  have e1x : |(m4 : ℚ) * (2 : ℚ) ^ e4 * (r : ℚ) - (l : ℚ) / (p : ℚ) * (r : ℚ)| ≤
      (r : ℚ) / 2 ^ 53 := by
    rw [← sub_mul, abs_mul, abs_of_nonneg hrq]
    calc |(m4 : ℚ) * (2 : ℚ) ^ e4 - (l : ℚ) / (p : ℚ)| * (r : ℚ)
        ≤ (1 / 2 ^ 53) * (r : ℚ) := mul_le_mul_of_nonneg_right er4 hrq
      _ = (r : ℚ) / 2 ^ 53 := by ring
  have tri := abs_sub_le ((m5 : ℚ) * (2 : ℚ) ^ e5) ((m4 : ℚ) * (2 : ℚ) ^ e4 * (r : ℚ))
    ((l : ℚ) / (p : ℚ) * (r : ℚ))
  have : (r : ℚ) / 2 ^ 53 + ((r : ℚ) + 1) / 2 ^ 53 ≤ 2 * ((r : ℚ) + 1) / 2 ^ 53 := by
    rw [← add_div]
    apply div_le_div_of_nonneg_right _ (by positivity)
    linarith
  linarith

/-- The store of a finite double whose truncation is a value of `int32_t` is that
truncation. -/
theorem toInt32_finite (m e : Int)
    (h : INT32_MIN ≤ truncToInt ((m : ℚ) * (2 : ℚ) ^ e) ∧
      truncToInt ((m : ℚ) * (2 : ℚ) ^ e) ≤ 2 ^ 31 - 1) :
    (Double.finite m e).toInt32 = truncToInt ((m : ℚ) * (2 : ℚ) ^ e) := by
  rw [← intPart_eq] at h ⊢
  simp only [Double.toInt32]
  rw [if_pos h]

/-- The left or top edge in double arithmetic, for a raw value between zero and the
preview dimension: it is finite, between `-(range / 2)` and `range - range / 2`, and
within `3 * (range + 1) / 2 ^ 53` of the exact value. -/
theorem normDouble_spec (l : Int) (p r : Nat) (hl : 0 ≤ l) (hlp : l ≤ (p : Int)) (hp : 0 < p)
    (hp2 : p < 2 ^ 32) (hr : r < 2 ^ 32) :
    ∃ m e, normDouble l p r = Double.finite m e ∧
      ((-((r / 2 : Nat) : Int) : Int) : ℚ) ≤ (m : ℚ) * (2 : ℚ) ^ e ∧
      (m : ℚ) * (2 : ℚ) ^ e ≤ (((r : Int) - ((r / 2 : Nat) : Int) : Int) : ℚ) ∧
      |(m : ℚ) * (2 : ℚ) ^ e - ((l : ℚ) / (p : ℚ) * (r : ℚ) - ((r / 2 : Nat) : ℚ))| ≤
        3 * ((r : ℚ) + 1) / 2 ^ 53 := by
  obtain ⟨m5, e5, a5, lo5, hi5, er5⟩ := scaled_spec l p r hl hlp hp hp2 hr
  have hh : r / 2 < 2 ^ 32 := by omega
  obtain ⟨m6, e6, a6, v6⟩ := ofInt_natCast_exact (r / 2) hh
  have d := sub_isRounding m5 e5 m6 e6
  rw [v6, ← a5, ← a6] at d
  have hle : ((r / 2 : Nat) : ℚ) ≤ (r : ℚ) := by
    exact_mod_cast Nat.div_le_self r 2
  have hh0 : (0 : ℚ) ≤ ((r / 2 : Nat) : ℚ) := Nat.cast_nonneg _
  have c1 : ((-((r / 2 : Nat) : Int) : Int) : ℚ) = -((r / 2 : Nat) : ℚ) := by
    rw [Int.cast_neg, Int.cast_natCast]
  have c2 : (((r : Int) - ((r / 2 : Nat) : Int) : Int) : ℚ) = (r : ℚ) - ((r / 2 : Nat) : ℚ) := by
    rw [Int.cast_sub, Int.cast_natCast, Int.cast_natCast]
  obtain ⟨m, e, a, lo, hi, er⟩ := rounding_step _ _ (-((r / 2 : Nat) : Int))
    ((r : Int) - ((r / 2 : Nat) : Int)) ((r : ℚ) + 1) d
    (by rw [abs_le]; constructor <;> omega) (by rw [abs_le]; constructor <;> omega)
    (by rw [c1]; linarith) (by rw [c2]; linarith)
    (by rw [abs_le]; constructor <;> linarith) (by linarith [Nat.cast_nonneg (α := ℚ) r])
  refine ⟨m, e, a, lo, hi, ?_⟩
  have tri := abs_sub_le ((m : ℚ) * (2 : ℚ) ^ e)
    ((m5 : ℚ) * (2 : ℚ) ^ e5 - ((r / 2 : Nat) : ℚ))
    ((l : ℚ) / (p : ℚ) * (r : ℚ) - ((r / 2 : Nat) : ℚ))
  have e2 : (m5 : ℚ) * (2 : ℚ) ^ e5 - ((r / 2 : Nat) : ℚ) -
      ((l : ℚ) / (p : ℚ) * (r : ℚ) - ((r / 2 : Nat) : ℚ)) =
      (m5 : ℚ) * (2 : ℚ) ^ e5 - (l : ℚ) / (p : ℚ) * (r : ℚ) := by ring
  rw [e2] at tri
  have : ((r : ℚ) + 1) / 2 ^ 53 + 2 * ((r : ℚ) + 1) / 2 ^ 53 = 3 * ((r : ℚ) + 1) / 2 ^ 53 := by
    ring
  linarith

/-- The scaled extent in double arithmetic, for a width or height between zero and the
preview dimension and a multiplier `s` of 1 or -1: it is finite, `s` times it is between
zero and the range, and it is within `3 * (range + 1) / 2 ^ 53` of the exact value. -/
theorem extentDouble_spec (w : Int) (p r : Nat) (s : Int) (hs : s = 1 ∨ s = -1) (hw : 0 ≤ w)
    (hwp : w ≤ (p : Int)) (hp : 0 < p) (hp2 : p < 2 ^ 32) (hr : r < 2 ^ 32) :
    ∃ m e, extentDouble w p r s = Double.finite m e ∧
      0 ≤ (s : ℚ) * ((m : ℚ) * (2 : ℚ) ^ e) ∧ (s : ℚ) * ((m : ℚ) * (2 : ℚ) ^ e) ≤ (r : ℚ) ∧
      |(m : ℚ) * (2 : ℚ) ^ e - (s : ℚ) * ((w : ℚ) / (p : ℚ) * (r : ℚ))| ≤
        3 * ((r : ℚ) + 1) / 2 ^ 53 := by
  obtain ⟨m5, e5, a5, lo5, hi5, er5⟩ := scaled_spec w p r hw hwp hp hp2 hr
  have hsabs : |s| ≤ 2 ^ 52 := by
    rcases hs with h | h <;> rw [h] <;> decide
  obtain ⟨m6, e6, a6, v6⟩ := ofInt_exact s hsabs
  have d := mul_isRounding m5 e5 m6 e6
  rw [v6, ← a5, ← a6] at d
  have hrq : (0 : ℚ) ≤ (r : ℚ) := Nat.cast_nonneg r
  have hrabs : |(r : Int)| ≤ 2 ^ 52 := by
    rw [abs_le]
    constructor <;> omega
  have hnabs : |(-(r : Int))| ≤ 2 ^ 52 := by
    rw [abs_le]
    constructor <;> omega
  have hsum : ((r : ℚ) + 1) / 2 ^ 53 + 2 * ((r : ℚ) + 1) / 2 ^ 53 =
      3 * ((r : ℚ) + 1) / 2 ^ 53 := by ring
  rcases hs with h | h
  · subst h
    simp only [Int.cast_one, mul_one, one_mul] at d ⊢
    obtain ⟨m, e, a, lo, hi, er⟩ := rounding_step _ _ 0 (r : Int) ((r : ℚ) + 1) d
      (by norm_num) hrabs (by simpa using lo5) (by simpa using hi5)
      (by rw [abs_of_nonneg lo5]; linarith) (by linarith)
    refine ⟨m, e, a, by simpa using lo, by simpa using hi, ?_⟩
    have t := abs_sub_le ((m : ℚ) * (2 : ℚ) ^ e) ((m5 : ℚ) * (2 : ℚ) ^ e5)
      ((w : ℚ) / (p : ℚ) * (r : ℚ))
    linarith
  · subst h
    simp only [Int.cast_neg, Int.cast_one, mul_neg, mul_one, neg_mul, one_mul] at d ⊢
    obtain ⟨m, e, a, lo, hi, er⟩ := rounding_step _ _ (-(r : Int)) 0 ((r : ℚ) + 1) d
      hnabs (by norm_num) (by push_cast; linarith) (by push_cast; linarith)
      (by rw [abs_neg, abs_of_nonneg lo5]; linarith) (by linarith)
    push_cast at lo hi
    refine ⟨m, e, a, by linarith, by linarith, ?_⟩
    have t := abs_sub_le ((m : ℚ) * (2 : ℚ) ^ e) (-((m5 : ℚ) * (2 : ℚ) ^ e5))
      (-((w : ℚ) / (p : ℚ) * (r : ℚ)))
    have e3 : |(-((m5 : ℚ) * (2 : ℚ) ^ e5)) - (-((w : ℚ) / (p : ℚ) * (r : ℚ)))| =
        |(m5 : ℚ) * (2 : ℚ) ^ e5 - (w : ℚ) / (p : ℚ) * (r : ℚ)| := by
      rw [← abs_neg]
      congr 1
      ring
    rw [e3] at t
    linarith

/-- The two edges of one axis at an orientation other than 180, for an input inside the
preview: the near edge lies between `-(range / 2)` and `range - range / 2`, the far edge
is not below the near edge and is at most one above `range - range / 2`. -/
theorem edges_upright (l w : Int) (p r : Nat) (hl : 0 ≤ l) (hw : 0 ≤ w)
    (hlw : l + w ≤ (p : Int)) (hp : 0 < p) (hp2 : p < 2 ^ 32) (hr : r < 2 ^ 30) :
    -((r / 2 : Nat) : Int) ≤ (normDouble l p r).toInt32 ∧
    (normDouble l p r).toInt32 ≤ (r : Int) - ((r / 2 : Nat) : Int) ∧
    (normDouble l p r).toInt32 ≤ (farDouble (normDouble l p r).toInt32 w p r 1).toInt32 ∧
    (farDouble (normDouble l p r).toInt32 w p r 1).toInt32 ≤
      (r : Int) - ((r / 2 : Nat) : Int) + 1 := by
  obtain ⟨m, e, a, lo, hi, er⟩ := normDouble_spec l p r hl (by omega) hp hp2 (by omega)
  obtain ⟨m1, e1, a1, lo1, hi1, er1⟩ :=
    extentDouble_spec w p r 1 (Or.inl rfl) hw (by omega) hp hp2 (by omega)
  simp only [Int.cast_one, one_mul] at lo1 hi1 er1
  have n1 := truncToInt_ge _ _ lo
  have n2 := truncToInt_le _ _ hi
  have hnear : (normDouble l p r).toInt32 = truncToInt ((m : ℚ) * (2 : ℚ) ^ e) := by
    rw [a]
    apply toInt32_finite
    unfold INT32_MIN
    constructor <;> omega
  rw [hnear]
  set n : Int := truncToInt ((m : ℚ) * (2 : ℚ) ^ e) with hn
  have hnabs : |n| ≤ 2 ^ 52 := by
    rw [abs_le]
    constructor <;> omega
  obtain ⟨m2, e2, a2, v2⟩ := ofInt_exact n hnabs
  have d := add_isRounding m2 e2 m1 e1
  rw [v2, ← a2, ← a1] at d
  have hrq : (r : ℚ) < 2 ^ 30 := by exact_mod_cast hr
  have hr0 : (0 : ℚ) ≤ (r : ℚ) := Nat.cast_nonneg r
  have hnlo : (-(2 : ℚ) ^ 30) ≤ (n : ℚ) := by
    have : (-(2 : Int) ^ 30) ≤ n := by omega
    exact_mod_cast this
  have hnhi : (n : ℚ) ≤ 2 ^ 30 := by
    have : n ≤ (2 : Int) ^ 30 := by omega
    exact_mod_cast this
  obtain ⟨m3, e3, a3, lo3, hi3, er3⟩ := rounding_step _ _ n (n + (r : Int)) (2 ^ 32) d hnabs
    (by rw [abs_le]; constructor <;> omega) (by linarith) (by push_cast; linarith)
    (by rw [abs_le]; constructor <;> linarith) (by norm_num)
  have f1 := truncToInt_ge _ _ lo3
  have f2 := truncToInt_le _ _ hi3
  have hfar : (farDouble n w p r 1).toInt32 = truncToInt ((m3 : ℚ) * (2 : ℚ) ^ e3) := by
    have : farDouble n w p r 1 = Double.finite m3 e3 := a3
    rw [this]
    apply toInt32_finite
    unfold INT32_MIN
    constructor <;> omega
  rw [hfar]
  refine ⟨n1, n2, f1, ?_⟩
  apply truncToInt_le_of_lt _ _ (by omega)
  have hpq : (0 : ℚ) < (p : ℚ) := by exact_mod_cast hp
  have hlwq : (l : ℚ) + (w : ℚ) ≤ (p : ℚ) := by exact_mod_cast hlw
  have hxy : (l : ℚ) / (p : ℚ) * (r : ℚ) + (w : ℚ) / (p : ℚ) * (r : ℚ) ≤ (r : ℚ) := by
    rw [← add_mul, ← add_div]
    have : ((l : ℚ) + (w : ℚ)) / (p : ℚ) ≤ 1 := (div_le_one hpq).mpr hlwq
    nlinarith
  have hn3 := truncToInt_lt_add_one ((m : ℚ) * (2 : ℚ) ^ e)
  rw [← hn] at hn3
  have k1 : 3 * ((r : ℚ) + 1) / 2 ^ 53 ≤ 1 / 4 := by
    rw [div_le_iff₀ (by positivity)]
    norm_num
    linarith
  have k2 : (2 : ℚ) ^ 32 / 2 ^ 53 ≤ 1 / 4 := by norm_num
  have b1 := (abs_le.mp er).2
  have b2 := (abs_le.mp er1).2
  have b3 := (abs_le.mp er3).2
  have c2 : ((((r : Int) - ((r / 2 : Nat) : Int) + 1 : Int)) : ℚ) =
      (r : ℚ) - ((r / 2 : Nat) : ℚ) + 1 := by
    rw [Int.cast_add, Int.cast_sub, Int.cast_natCast, Int.cast_natCast, Int.cast_one]
  rw [c2]
  linarith

/-- The two edges of one axis at orientation 180, for an input inside the preview: the
edge stored first lies between `-(range / 2)` and `range - range / 2`, and the edge
computed from it is not above it and not below `-(range / 2) - range`. -/
theorem edges_180 (l w : Int) (p r : Nat) (hl : 0 ≤ l) (hw : 0 ≤ w)
    (hlw : l + w ≤ (p : Int)) (hp : 0 < p) (hp2 : p < 2 ^ 32) (hr : r < 2 ^ 30) :
    -((r / 2 : Nat) : Int) ≤ (normDouble l p r).toInt32 ∧
    (normDouble l p r).toInt32 ≤ (r : Int) - ((r / 2 : Nat) : Int) ∧
    -((r / 2 : Nat) : Int) - (r : Int) ≤
      (farDouble (normDouble l p r).toInt32 w p r (-1)).toInt32 ∧
    (farDouble (normDouble l p r).toInt32 w p r (-1)).toInt32 ≤ (normDouble l p r).toInt32 := by
  obtain ⟨m, e, a, lo, hi, er⟩ := normDouble_spec l p r hl (by omega) hp hp2 (by omega)
  obtain ⟨m1, e1, a1, lo1, hi1, er1⟩ :=
    extentDouble_spec w p r (-1) (Or.inr rfl) hw (by omega) hp hp2 (by omega)
  simp only [Int.cast_neg, Int.cast_one, neg_mul, one_mul] at lo1 hi1
  have n1 := truncToInt_ge _ _ lo
  have n2 := truncToInt_le _ _ hi
  have hnear : (normDouble l p r).toInt32 = truncToInt ((m : ℚ) * (2 : ℚ) ^ e) := by
    rw [a]
    apply toInt32_finite
    unfold INT32_MIN
    constructor <;> omega
  rw [hnear]
  set n : Int := truncToInt ((m : ℚ) * (2 : ℚ) ^ e) with hn
  have hnabs : |n| ≤ 2 ^ 52 := by
    rw [abs_le]
    constructor <;> omega
  obtain ⟨m2, e2, a2, v2⟩ := ofInt_exact n hnabs
  have d := add_isRounding m2 e2 m1 e1
  rw [v2, ← a2, ← a1] at d
  have hrq : (r : ℚ) < 2 ^ 30 := by exact_mod_cast hr
  have hr0 : (0 : ℚ) ≤ (r : ℚ) := Nat.cast_nonneg r
  have hnlo : (-(2 : ℚ) ^ 30) ≤ (n : ℚ) := by
    have : (-(2 : Int) ^ 30) ≤ n := by omega
    exact_mod_cast this
  have hnhi : (n : ℚ) ≤ 2 ^ 30 := by
    have : n ≤ (2 : Int) ^ 30 := by omega
    exact_mod_cast this
  obtain ⟨m3, e3, a3, lo3, hi3, er3⟩ := rounding_step _ _ (n - (r : Int)) n (2 ^ 32) d
    (by rw [abs_le]; constructor <;> omega) hnabs (by push_cast; linarith) (by linarith)
    (by rw [abs_le]; constructor <;> linarith) (by norm_num)
  have f1 := truncToInt_ge _ _ lo3
  have f2 := truncToInt_le _ _ hi3
  have hfar : (farDouble n w p r (-1)).toInt32 = truncToInt ((m3 : ℚ) * (2 : ℚ) ^ e3) := by
    have : farDouble n w p r (-1) = Double.finite m3 e3 := a3
    rw [this]
    apply toInt32_finite
    unfold INT32_MIN
    constructor <;> omega
  rw [hfar]
  exact ⟨n1, n2, by omega, f2⟩

/-! ## Double precision: a quotient scaled back to an integer -/

/-- Two roundings in a row, of `x = j / H` and of the rounded `x` times `H`, do not end
above the integer `j`, when `j` passes an integer test on the distance between `x` and the
double nearest to it. `N1 * 2 ^ u1` and `N2 * 2 ^ u2` are the two rounded values. -/
theorem two_roundings_le (j s a H N1 N2 : Nat) (u1 u2 : Int) (x z : ℚ)
    (hH : 0 < H) (hH30 : H < 2 ^ 30) (hj : 1 ≤ j) (hjH : j < H)
    (hs1 : H ≤ j * 2 ^ s) (hs2 : j * 2 ^ s < 2 * H) (ha : 2 ^ a ≤ j)
    (hC : 2 * ((2 * j * 2 ^ (s + 52) + H) / (2 * H)) * H < 2 * j * 2 ^ (s + 52) + 2 ^ (a + s))
    (hx : x = (j : ℚ) / (H : ℚ))
    (h1err : |(N1 : ℚ) * (2 : ℚ) ^ u1 - x| ≤ (2 : ℚ) ^ u1 / 2)
    (h1lt : x < (2 : ℚ) ^ (u1 + 53))
    (h1norm : u1 ≠ -1074 → (2 : ℚ) ^ (u1 + 52) ≤ x)
    (hz : z = (N1 : ℚ) * (2 : ℚ) ^ u1 * (H : ℚ)) (hjz : (j : ℚ) < z)
    (h2err : |(N2 : ℚ) * (2 : ℚ) ^ u2 - z| ≤ (2 : ℚ) ^ u2 / 2)
    (h2lt : z < (2 : ℚ) ^ (u2 + 53))
    (h2norm : u2 ≠ -1074 → (2 : ℚ) ^ (u2 + 52) ≤ z) :
    (N2 : ℚ) * (2 : ℚ) ^ u2 ≤ (j : ℚ) := by
  have h2 : (1 : ℚ) < 2 := by norm_num
  have h20 : (2 : ℚ) ≠ 0 := two_ne_zero
  have hHq : (0 : ℚ) < (H : ℚ) := by exact_mod_cast hH
  have hjq : (1 : ℚ) ≤ (j : ℚ) := by exact_mod_cast hj
  have hps : (0 : ℚ) < (2 : ℚ) ^ s := pow_pos (by norm_num) s
  -- the exponent s is small
  have hs31 : s < 31 := by
    by_contra hc
    have h1 : 2 ^ 31 ≤ 2 ^ s := Nat.pow_le_pow_right (by norm_num) (by omega)
    have h3 : 2 ^ s ≤ j * 2 ^ s := Nat.le_mul_of_pos_left _ hj
    omega
  -- the binade of x
  have hxlo : (2 : ℚ) ^ (-(s : Int)) ≤ x := by
    rw [hx, zpow_neg, zpow_natCast, inv_eq_one_div, div_le_div_iff₀ hps hHq]
    have : ((H : Nat) : ℚ) ≤ ((j * 2 ^ s : Nat) : ℚ) := by exact_mod_cast hs1
    push_cast at this
    linarith
  have hxhi : x < (2 : ℚ) ^ (1 - (s : Int)) := by
    rw [hx, zpow_sub₀ h20, zpow_one, zpow_natCast, div_lt_div_iff₀ hHq hps]
    have : ((j * 2 ^ s : Nat) : ℚ) < ((2 * H : Nat) : ℚ) := by exact_mod_cast hs2
    push_cast at this
    linarith
  have hu1a : -(s : Int) < u1 + 53 :=
    (zpow_lt_zpow_iff_right₀ h2).mp (lt_of_le_of_lt hxlo h1lt)
  have hu1ne : u1 ≠ -1074 := by omega
  have hu1b : u1 + 52 < 1 - (s : Int) :=
    (zpow_lt_zpow_iff_right₀ h2).mp (lt_of_le_of_lt (h1norm hu1ne) hxhi)
  have hu1 : u1 = -(((s + 52 : Nat) : Int)) := by
    push_cast
    omega
  -- the first rounded value as a fraction
  set P : Nat := 2 ^ (s + 52) with hP
  have hPpos : (0 : ℚ) < (P : ℚ) := by
    rw [hP]
    push_cast
    positivity
  have hpu1 : (2 : ℚ) ^ u1 = 1 / (P : ℚ) := by
    rw [hu1, zpow_neg, zpow_natCast, hP]
    push_cast
    rw [inv_eq_one_div]
  rw [hpu1] at h1err hz
  have hN1 : 2 * N1 * H ≤ 2 * j * P + H := by
    have h3 := (abs_le.mp h1err).2
    rw [hx] at h3
    have h4 : (N1 : ℚ) * (1 / (P : ℚ)) ≤ (j : ℚ) / (H : ℚ) + 1 / (P : ℚ) / 2 := by linarith
    have h5 : (2 : ℚ) * (N1 : ℚ) * (H : ℚ) ≤ 2 * (j : ℚ) * (P : ℚ) + (H : ℚ) := by
      have h6 := mul_le_mul_of_nonneg_right h4
        (le_of_lt (mul_pos (mul_pos (by norm_num : (0 : ℚ) < 2) hPpos) hHq))
      have e1 : (N1 : ℚ) * (1 / (P : ℚ)) * (2 * (P : ℚ) * (H : ℚ)) =
          2 * (N1 : ℚ) * (H : ℚ) := by
        field_simp
        ring
      have e2 : ((j : ℚ) / (H : ℚ) + 1 / (P : ℚ) / 2) * (2 * (P : ℚ) * (H : ℚ)) =
          2 * (j : ℚ) * (P : ℚ) + (H : ℚ) := by
        field_simp
        ring
      rw [e1, e2] at h6
      exact h6
    exact_mod_cast h5
  have hR : N1 ≤ (2 * j * P + H) / (2 * H) := by
    rw [Nat.le_div_iff_mul_le (by omega)]
    calc N1 * (2 * H) = 2 * N1 * H := by ring
      _ ≤ 2 * j * P + H := hN1
  have hN1C : 2 * N1 * H < 2 * j * P + 2 ^ (a + s) := by
    have h3 : 2 * N1 * H ≤ 2 * ((2 * j * P + H) / (2 * H)) * H := by
      have := Nat.mul_le_mul_left 2 hR
      exact Nat.mul_le_mul_right H this
    omega
  -- the product is less than a half spacing above j
  have hzj : z < (j : ℚ) + (2 : ℚ) ^ ((a : Int) - 53) := by
    have h3 : ((2 * N1 * H : Nat) : ℚ) < ((2 * j * P + 2 ^ (a + s) : Nat) : ℚ) := by
      exact_mod_cast hN1C
    push_cast at h3
    have e3 : (2 : ℚ) ^ ((a : Int) - 53) = (2 : ℚ) ^ (a + s) / (2 * (P : ℚ)) := by
      rw [hP]
      push_cast
      rw [zpow_sub₀ h20, zpow_natCast, pow_add, pow_add]
      norm_num
      field_simp
      ring
    rw [hz, e3]
    have e4 : (N1 : ℚ) * (1 / (P : ℚ)) * (H : ℚ) = (2 * (N1 : ℚ) * (H : ℚ)) / (2 * (P : ℚ)) := by
      field_simp
      ring
    have e5 : (j : ℚ) + (2 : ℚ) ^ (a + s) / (2 * (P : ℚ)) =
        (2 * (j : ℚ) * (P : ℚ) + (2 : ℚ) ^ (a + s)) / (2 * (P : ℚ)) := by
      field_simp
      ring
    rw [e4, e5]
    exact div_lt_div_of_pos_right h3 (by positivity)
  -- the spacing of the second rounding
  have haq : (2 : ℚ) ^ (a : Int) ≤ (j : ℚ) := by
    rw [zpow_natCast]
    exact_mod_cast ha
  have hu2a : (a : Int) < u2 + 53 :=
    (zpow_lt_zpow_iff_right₀ h2).mp (lt_of_le_of_lt haq (lt_trans hjz h2lt))
  have ha30 : a < 30 := by
    by_contra hc
    have h1 : 2 ^ 30 ≤ 2 ^ a := Nat.pow_le_pow_right (by norm_num) (by omega)
    omega
  have hsmall : (2 : ℚ) ^ ((a : Int) - 53) ≤ 1 := by
    have := zpow_le_zpow_right₀ (le_of_lt h2) (by omega : (a : Int) - 53 ≤ 0)
    simpa using this
  have hu2neg : u2 ≤ 0 := by
    by_cases hne : u2 = -1074
    · omega
    · have h3 := h2norm hne
      have hH30q : (H : ℚ) < (2 : ℚ) ^ (30 : Int) := by
        have : ((H : Nat) : ℚ) < ((2 ^ 30 : Nat) : ℚ) := by exact_mod_cast hH30
        push_cast at this
        exact_mod_cast this
      have hjHq : (j : ℚ) + 1 ≤ (H : ℚ) := by exact_mod_cast hjH
      have h4 : (2 : ℚ) ^ (u2 + 52) < (2 : ℚ) ^ (30 : Int) := by linarith
      have := (zpow_lt_zpow_iff_right₀ h2).mp h4
      omega
  set k : Nat := (-u2).toNat with hk
  have hkZ : (k : Int) = -u2 := Int.toNat_of_nonneg (by omega)
  have hpu2 : (2 : ℚ) ^ u2 = 1 / (2 : ℚ) ^ k := by
    have : u2 = -(k : Int) := by omega
    rw [this, zpow_neg, zpow_natCast, inv_eq_one_div]
  have hhalf : (2 : ℚ) ^ ((a : Int) - 53) ≤ (2 : ℚ) ^ u2 / 2 := by
    have e6 : (2 : ℚ) ^ u2 / 2 = (2 : ℚ) ^ (u2 - 1) := by
      rw [zpow_sub₀ h20, zpow_one]
    rw [e6]
    exact zpow_le_zpow_right₀ (le_of_lt h2) (by omega)
  have h5 := (abs_le.mp h2err).2
  have h6 : (N2 : ℚ) * (2 : ℚ) ^ u2 < (j : ℚ) + (2 : ℚ) ^ u2 := by linarith
  have hpk : (0 : ℚ) < (2 : ℚ) ^ k := pow_pos (by norm_num) k
  rw [hpu2] at h6 ⊢
  have h7 : (N2 : ℚ) < (j : ℚ) * (2 : ℚ) ^ k + 1 := by
    have := mul_lt_mul_of_pos_right h6 hpk
    have e7 : (N2 : ℚ) * (1 / (2 : ℚ) ^ k) * (2 : ℚ) ^ k = (N2 : ℚ) := by field_simp
    have e8 : ((j : ℚ) + 1 / (2 : ℚ) ^ k) * (2 : ℚ) ^ k = (j : ℚ) * (2 : ℚ) ^ k + 1 := by
      field_simp
    rw [e7, e8] at this
    exact this
  have h8 : N2 < j * 2 ^ k + 1 := by exact_mod_cast h7
  have h9 : N2 ≤ j * 2 ^ k := by omega
  have h10 : (N2 : ℚ) ≤ (j : ℚ) * (2 : ℚ) ^ k := by exact_mod_cast h9
  rw [mul_one_div, div_le_iff₀ hpk]
  exact h10

/-- The value of a finite double with a positive value has a positive mantissa, and one
with a value that is not negative has a mantissa that is not negative. -/
theorem mantissa_sign (m e : Int) :
    (0 < (m : ℚ) * (2 : ℚ) ^ e → 0 < m) ∧ (0 ≤ (m : ℚ) * (2 : ℚ) ^ e → 0 ≤ m) := by
  have hp : (0 : ℚ) < (2 : ℚ) ^ e := zpow_pos (by norm_num) e
  constructor
  · intro h
    have : (0 : ℚ) < (m : ℚ) := pos_of_mul_pos_left h (le_of_lt hp)
    exact_mod_cast this
  · intro h
    have : (0 : ℚ) ≤ (m : ℚ) := nonneg_of_mul_nonneg_left h hp
    exact_mod_cast this

/-- A finite result of a rounding has the mantissa and exponent that `round_spec` names. -/
theorem round_finite_eq (N : Nat) (u m e : Int)
    (h : (if (bitLength N : Int) + u > 1024 then Double.inf false
      else Double.finite (if false = true then -(N : Int) else (N : Int)) u) =
      Double.finite m e) :
    m = (N : Int) ∧ e = u := by
  simp only [Bool.false_eq_true, if_false] at h
  split_ifs at h with h1
  injection h with h2 h3
  exact ⟨h2.symm, h3.symm⟩

/-- The quotient `l / p`, equal to `j / H` for an integer `j` below `H`, scaled by `H` in
double arithmetic does not end above `j`, when every such `j` passes the integer test of
`two_roundings_le`. -/
theorem scaled_le_exact (l : Int) (p H j : Nat) (hl : 0 ≤ l) (hp : 0 < p) (hp2 : p < 2 ^ 32)
    (hH30 : H < 2 ^ 30) (hj : j < H) (hx : l * (H : Int) = (j : Int) * (p : Int))
    (htab : 1 ≤ j → ∃ s a : Nat, H ≤ j * 2 ^ s ∧ j * 2 ^ s < 2 * H ∧ 2 ^ a ≤ j ∧
      2 * ((2 * j * 2 ^ (s + 52) + H) / (2 * H)) * H < 2 * j * 2 ^ (s + 52) + 2 ^ (a + s)) :
    ∃ m e, Double.mul (Double.div (Double.ofInt l) (Double.ofInt p)) (Double.ofInt H) =
        Double.finite m e ∧ (m : ℚ) * (2 : ℚ) ^ e ≤ (j : ℚ) := by
  have h20 : (2 : ℚ) ≠ 0 := two_ne_zero
  have hH : 0 < H := by omega
  have hlp : l ≤ (p : Int) := by
    by_contra hc
    have h1 : (p : Int) < l := not_le.mp hc
    have h2 : (j : Int) * (p : Int) < (H : Int) * (p : Int) :=
      mul_lt_mul_of_pos_right (by exact_mod_cast hj) (by exact_mod_cast hp)
    have h3 : (p : Int) * (H : Int) ≤ l * (H : Int) :=
      mul_le_mul_of_nonneg_right (le_of_lt h1) (by omega)
    nlinarith
  have hl2 : |l| ≤ 2 ^ 52 := by
    rw [abs_le]
    constructor <;> omega
  obtain ⟨m1, e1, a1, v1⟩ := ofInt_exact l hl2
  obtain ⟨m2, e2, a2, v2⟩ := ofInt_natCast_exact p hp2
  obtain ⟨m3, e3, a3, v3⟩ := ofInt_natCast_exact H (by omega)
  have hpq : (0 : ℚ) < (p : ℚ) := by exact_mod_cast hp
  have hHq : (0 : ℚ) < (H : ℚ) := by exact_mod_cast hH
  have hlq : (0 : ℚ) ≤ (l : ℚ) := by exact_mod_cast hl
  have hlpq : (l : ℚ) ≤ (p : ℚ) := by exact_mod_cast hlp
  have hm2 : 0 < m2 := (mantissa_sign m2 e2).1 (by rw [v2]; exact hpq)
  have hm3 : 0 < m3 := (mantissa_sign m3 e3).1 (by rw [v3]; exact hHq)
  have hm1 : 0 ≤ m1 := (mantissa_sign m1 e1).2 (by rw [v1]; exact hlq)
  have hxq : (l : ℚ) / (p : ℚ) = (j : ℚ) / (H : ℚ) := by
    rw [div_eq_div_iff (ne_of_gt hpq) (ne_of_gt hHq)]
    exact_mod_cast hx
  have hx0 : (0 : ℚ) ≤ (l : ℚ) / (p : ℚ) := div_nonneg hlq (le_of_lt hpq)
  have hx1 : (l : ℚ) / (p : ℚ) ≤ 1 := (div_le_one hpq).mpr hlpq
  -- the quotient
  have d1 := div_isRounding m1 e1 m2 e2 (ne_of_gt hm2)
  rw [v1, v2] at d1
  obtain ⟨m4, e4, a4, lo4, hi4, -⟩ := rounding_step _ _ 0 1 1 d1 (by norm_num) (by norm_num)
    (by simpa using hx0) (by simpa using hx1) (by rw [abs_of_nonneg hx0]; exact hx1) le_rfl
  simp only [Int.cast_zero, Int.cast_one] at lo4 hi4
  -- the product
  have d2 := mul_isRounding m4 e4 m3 e3
  rw [v3] at d2
  have hrabs : |(H : Int)| ≤ 2 ^ 52 := by
    rw [abs_le]
    constructor <;> omega
  have hz0 : (0 : ℚ) ≤ (m4 : ℚ) * (2 : ℚ) ^ e4 * (H : ℚ) := mul_nonneg lo4 (le_of_lt hHq)
  have hz1 : (m4 : ℚ) * (2 : ℚ) ^ e4 * (H : ℚ) ≤ (H : ℚ) := by nlinarith
  obtain ⟨m5, e5, a5, lo5, hi5, -⟩ := rounding_step _ _ 0 (H : Int) ((H : ℚ) + 1) d2
    (by norm_num) hrabs (by simpa using hz0) (by simpa using hz1)
    (by rw [abs_of_nonneg hz0]; linarith) (by linarith)
  have hjabs : |(j : Int)| ≤ 2 ^ 52 := by
    rw [abs_le]
    constructor <;> omega
  refine ⟨m5, e5, by rw [a1, a2, a3, a4, a5], ?_⟩
  by_cases hzj : (m4 : ℚ) * (2 : ℚ) ^ e4 * (H : ℚ) ≤ (j : ℚ)
  · have := (d2.1 m5 e5 a5).2.1 (j : Int) hjabs (by simpa using hzj)
    simpa using this
  · have hjz : (j : ℚ) < (m4 : ℚ) * (2 : ℚ) ^ e4 * (H : ℚ) := not_le.mp hzj
    have hj1 : 1 ≤ j := by
      by_contra hc
      have hj0 : j = 0 := by omega
      have hl0 : l = 0 := by
        rw [hj0] at hx
        simp only [Nat.cast_zero, zero_mul] at hx
        rcases mul_eq_zero.mp hx with h | h
        · exact h
        · omega
      have hle := (d1.1 m4 e4 a4).2.1 0 (by norm_num) (by rw [hl0]; simp)
      simp only [Int.cast_zero] at hle
      have : (m4 : ℚ) * (2 : ℚ) ^ e4 * (H : ℚ) ≤ 0 :=
        mul_nonpos_of_nonpos_of_nonneg hle (le_of_lt hHq)
      rw [hj0] at hjz
      simp only [Nat.cast_zero] at hjz
      linarith
    obtain ⟨s, a, hs1, hs2, ha, hC⟩ := htab hj1
    have hjq : (1 : ℚ) ≤ (j : ℚ) := by exact_mod_cast hj1
    -- the first rounding in detail
    have hl1 : 0 < l := by
      rcases lt_or_eq_of_le hl with h | h
      · exact h
      · rw [← h] at hx
        simp only [zero_mul] at hx
        have : 0 < (j : Int) * (p : Int) := mul_pos (by omega) (by omega)
        omega
    have hm1p : 0 < m1 := (mantissa_sign m1 e1).1 (by rw [v1]; exact_mod_cast hl1)
    have hs1f : decide (m1 * m2 < 0) = false := by
      simpa using le_of_lt (mul_pos hm1p hm2)
    have hdiv : Double.div (Double.finite m1 e1) (Double.finite m2 e2) =
        Double.round false m1.natAbs m2.natAbs (e1 - e2) := by
      simp only [Double.div, ne_of_gt hm2, if_false, hs1f]
    obtain ⟨N1, u1, r1, -, -, err1, lt1, -, norm1⟩ :=
      round_spec false m1.natAbs m2.natAbs (e1 - e2) (Int.natAbs_pos.mpr (ne_of_gt hm1p))
        (Int.natAbs_pos.mpr (ne_of_gt hm2))
    have hc1 : ((m1.natAbs : Nat) : ℚ) = (m1 : ℚ) := by
      rw [Nat.cast_natAbs, abs_of_nonneg hm1]
    have hc2 : ((m2.natAbs : Nat) : ℚ) = (m2 : ℚ) := by
      rw [Nat.cast_natAbs, abs_of_nonneg (le_of_lt hm2)]
    have hval1 : ((m1.natAbs : Nat) : ℚ) / ((m2.natAbs : Nat) : ℚ) * (2 : ℚ) ^ (e1 - e2) =
        (j : ℚ) / (H : ℚ) := by
      rw [hc1, hc2, ← hxq, ← v1, ← v2, zpow_sub₀ h20]
      have : (m2 : ℚ) ≠ 0 := by exact_mod_cast (ne_of_gt hm2)
      field_simp
    rw [hval1] at err1 lt1 norm1
    rw [hdiv, r1] at a4
    obtain ⟨hm4, he4⟩ := round_finite_eq N1 u1 m4 e4 a4
    -- the second rounding in detail
    have hm4q : (m4 : ℚ) = (N1 : ℚ) := by
      rw [hm4]
      exact Int.cast_natCast N1
    have hm4p : 0 < m4 := by
      have : (0 : ℚ) < (m4 : ℚ) * (2 : ℚ) ^ e4 := by
        by_contra hc
        have : (m4 : ℚ) * (2 : ℚ) ^ e4 * (H : ℚ) ≤ 0 :=
          mul_nonpos_of_nonpos_of_nonneg (not_lt.mp hc) (le_of_lt hHq)
        linarith
      exact (mantissa_sign m4 e4).1 this
    have hs2f : decide (m4 * m3 < 0) = false := by
      simpa using le_of_lt (mul_pos hm4p hm3)
    have hmul : Double.mul (Double.finite m4 e4) (Double.finite m3 e3) =
        Double.round false (m4 * m3).natAbs 1 (e4 + e3) := by
      simp only [Double.mul, hs2f]
    obtain ⟨N2, u2, r2, -, -, err2, lt2, -, norm2⟩ :=
      round_spec false (m4 * m3).natAbs 1 (e4 + e3)
        (Int.natAbs_pos.mpr (ne_of_gt (mul_pos hm4p hm3))) (by norm_num)
    have hc3 : (((m4 * m3).natAbs : Nat) : ℚ) = (m4 : ℚ) * (m3 : ℚ) := by
      rw [Nat.cast_natAbs, abs_of_nonneg (le_of_lt (mul_pos hm4p hm3)), Int.cast_mul]
    have hval2 : (((m4 * m3).natAbs : Nat) : ℚ) / ((1 : Nat) : ℚ) * (2 : ℚ) ^ (e4 + e3) =
        (N1 : ℚ) * (2 : ℚ) ^ u1 * (H : ℚ) := by
      rw [hc3, ← v3, zpow_add₀ h20, hm4q, he4]
      simp only [Nat.cast_one, div_one]
      ring
    rw [hval2] at err2 lt2 norm2
    rw [hmul, r2] at a5
    obtain ⟨hm5, he5⟩ := round_finite_eq N2 u2 m5 e5 a5
    have hm5q : (m5 : ℚ) = (N2 : ℚ) := by
      rw [hm5]
      exact Int.cast_natCast N2
    rw [hm5q, he5]
    rw [hm4q, he4] at hjz
    exact two_roundings_le j s a H N1 N2 u1 u2 _ _ hH hH30 hj1 hj hs1 hs2 ha hC rfl
      err1 lt1 norm1 rfl hjz err2 lt2 norm2

/-- A `j` that passes the test has the shift and the leading bit that `two_roundings_le`
asks for. -/
theorem exactTest_spec (H j : Nat) (h : exactTest H j = true) :
    ∃ s a : Nat, H ≤ j * 2 ^ s ∧ j * 2 ^ s < 2 * H ∧ 2 ^ a ≤ j ∧
      2 * ((2 * j * 2 ^ (s + 52) + H) / (2 * H)) * H < 2 * j * 2 ^ (s + 52) + 2 ^ (a + s) := by
  unfold exactTest at h
  simp only [decide_eq_true_eq] at h
  exact ⟨_, _, h⟩

/-- Every `j` from 1 to `n` passes the test when `exactTestUpTo` says so. -/
theorem exactTestUpTo_spec (H n : Nat) (h : exactTestUpTo H n = true) (j : Nat) (h1 : 1 ≤ j)
    (h2 : j ≤ n) : exactTest H j = true := by
  induction n with
  | zero => omega
  | succ k ih =>
    simp only [exactTestUpTo, Bool.and_eq_true] at h
    rcases Nat.lt_or_ge j (k + 1) with hlt | hge
    · exact ih h.2 (by omega)
    · have : j = k + 1 := by omega
      rw [this]
      exact h.1

set_option maxRecDepth 100000 in
/-- Every `j` from 1 to 999 passes the test for the range 2000 of `CameraHal.h`. -/
theorem exactTest_2000 : exactTestUpTo 2000 999 = true := by
  decide

/-- The near edge does not go above the least integer that is not below its exact value
`l / p * H - H / 2`, written as `c = -((-A) / p)` with `A = l * H - H / 2 * p`: the
rounding errors are smaller than the distance between the exact value and the next
integer, and where the exact value is itself a negative integer the double computation
gives it without error. -/
theorem normDouble_le_ceil (l : Int) (p H : Nat) (hl : 0 ≤ l) (hlp : l ≤ (p : Int))
    (hp : 0 < p) (hp2 : p < 2 ^ 32) (hH : H < 2 ^ 18)
    (htab : ∀ j : Nat, 1 ≤ j → j < H / 2 → exactTest H j = true) :
    (normDouble l p H).toInt32 ≤
      -((-(l * (H : Int) - ((H / 2 : Nat) : Int) * (p : Int))) / (p : Int)) := by
  obtain ⟨m, e, a, lo, hi, er⟩ := normDouble_spec l p H hl hlp hp hp2 (by omega)
  have n1 := truncToInt_ge _ _ lo
  have n2 := truncToInt_le _ _ hi
  have hnear : (normDouble l p H).toInt32 = truncToInt ((m : ℚ) * (2 : ℚ) ^ e) := by
    rw [a]
    apply toInt32_finite
    unfold INT32_MIN
    constructor <;> omega
  rw [hnear]
  set h : Nat := H / 2 with hh
  set A : Int := l * (H : Int) - (h : Int) * (p : Int) with hA
  set c : Int := -((-A) / (p : Int)) with hc
  set r : Int := (-A) % (p : Int) with hr
  have hpZ : (0 : Int) < (p : Int) := by exact_mod_cast hp
  have hr0 : 0 ≤ r := Int.emod_nonneg _ (ne_of_gt hpZ)
  have hrp : r < (p : Int) := Int.emod_lt_of_pos _ hpZ
  have hdm : (p : Int) * ((-A) / (p : Int)) + r = -A := Int.ediv_add_emod (-A) (p : Int)
  have hcp : c * (p : Int) = A + r := by
    rw [hc]
    linarith
  have hpq : (0 : ℚ) < (p : ℚ) := by exact_mod_cast hp
  have hpq2 : (p : ℚ) < 2 ^ 32 := by exact_mod_cast hp2
  have hHq : (H : ℚ) + 1 ≤ 2 ^ 18 := by exact_mod_cast hH
  have hH0 : (0 : ℚ) ≤ (H : ℚ) := Nat.cast_nonneg H
  -- the exact value
  have hv : (l : ℚ) / (p : ℚ) * (H : ℚ) - (h : ℚ) = ((c : ℚ) * (p : ℚ) - (r : ℚ)) / (p : ℚ) := by
    have h1 : ((c * (p : Int) : Int) : ℚ) = ((A + r : Int) : ℚ) := by rw [hcp]
    rw [hA] at h1
    push_cast at h1
    field_simp
    linarith
  have hv2 : (l : ℚ) / (p : ℚ) * (H : ℚ) - (h : ℚ) = (c : ℚ) - (r : ℚ) / (p : ℚ) := by
    rw [hv]
    field_simp
  have b1 := (abs_le.mp er).2
  rw [hv2] at b1
  have heps : 3 * ((H : ℚ) + 1) / 2 ^ 53 * (p : ℚ) < 1 := by
    have h3 : 3 * ((H : ℚ) + 1) / 2 ^ 53 ≤ 3 * 2 ^ 18 / 2 ^ 53 := by
      apply div_le_div_of_nonneg_right _ (by positivity)
      linarith
    have h4 : 3 * ((H : ℚ) + 1) / 2 ^ 53 * (p : ℚ) ≤ 3 * 2 ^ 18 / 2 ^ 53 * 2 ^ 32 :=
      mul_le_mul h3 (le_of_lt hpq2) (le_of_lt hpq) (by positivity)
    have h5 : (3 : ℚ) * 2 ^ 18 / 2 ^ 53 * 2 ^ 32 < 1 := by norm_num
    linarith
  have heps1 : 3 * ((H : ℚ) + 1) / 2 ^ 53 < 1 / (p : ℚ) := by
    rw [lt_div_iff₀ hpq]
    exact heps
  have heps2 : 3 * ((H : ℚ) + 1) / 2 ^ 53 < 1 := by
    have h3 : 3 * ((H : ℚ) + 1) / 2 ^ 53 ≤ 3 * 2 ^ 18 / 2 ^ 53 := by
      apply div_le_div_of_nonneg_right _ (by positivity)
      linarith
    have h5 : (3 : ℚ) * 2 ^ 18 / 2 ^ 53 < 1 := by norm_num
    linarith
  by_cases hr1 : 1 ≤ r
  · -- the exact value is at least 1 / p below c
    apply truncToInt_le
    have h3 : (1 : ℚ) / (p : ℚ) ≤ (r : ℚ) / (p : ℚ) := by
      apply div_le_div_of_nonneg_right _ (le_of_lt hpq)
      exact_mod_cast hr1
    linarith
  · have hr00 : r = 0 := by omega
    rw [hr00] at b1 hcp
    simp only [Int.cast_zero, zero_div, sub_zero, add_zero] at b1 hcp
    by_cases hc0 : 0 ≤ c
    · apply truncToInt_le_of_lt _ _ hc0
      linarith
    · -- the exact value is the negative integer c
      have hcneg : c < 0 := not_le.mp hc0
      have hch : 0 ≤ c + (h : Int) := by
        have h3 : 0 ≤ (c + (h : Int)) * (p : Int) := by
          have : (c + (h : Int)) * (p : Int) = l * (H : Int) := by
            rw [add_mul, hcp, hA]
            ring
          rw [this]
          exact mul_nonneg hl (by omega)
        exact nonneg_of_mul_nonneg_left h3 hpZ
      set j : Nat := (c + (h : Int)).toNat with hj
      have hjZ : (j : Int) = c + (h : Int) := Int.toNat_of_nonneg hch
      have hjh : j < h := by omega
      have hjH : j < H := by omega
      have hx : l * (H : Int) = (j : Int) * (p : Int) := by
        rw [hjZ, add_mul, hcp, hA]
        ring
      obtain ⟨m5, e5, a5, le5⟩ := scaled_le_exact l p H j hl hp hp2 (by omega) hjH hx
        (fun hj1 => exactTest_spec H j (htab j hj1 hjh))
      obtain ⟨m6, e6, a6, v6⟩ := ofInt_natCast_exact h (by omega)
      have d := sub_isRounding m5 e5 m6 e6
      rw [v6, ← a5, ← a6] at d
      have hnd : normDouble l p H =
          Double.sub (Double.mul (Double.div (Double.ofInt l) (Double.ofInt p)) (Double.ofInt H))
            (Double.ofInt ((H / 2 : Nat) : Int)) := rfl
      rw [← hnd, a] at d
      have hcabs : |c| ≤ 2 ^ 52 := by
        rw [abs_le]
        constructor <;> omega
      have hle := (d.1 m e rfl).2.1 c hcabs (by
        have : (c : ℚ) = (j : ℚ) - (h : ℚ) := by
          have : ((j : Int) : ℚ) = ((c + (h : Int) : Int) : ℚ) := by rw [hjZ]
          push_cast at this
          linarith
        rw [this]
        linarith)
      exact truncToInt_le _ _ hle

/-- The far edge at an orientation other than 180 stays within the space, for an input
inside the preview and a range every `j` below whose half passes `exactTest`: the far
edge is at most `range - range / 2`. -/
theorem far_le_exact (l w : Int) (p H : Nat) (hl : 0 ≤ l) (hw : 0 ≤ w)
    (hlw : l + w ≤ (p : Int)) (hp : 0 < p) (hp2 : p < 2 ^ 32) (hH : H < 2 ^ 18)
    (htab : ∀ j : Nat, 1 ≤ j → j < H / 2 → exactTest H j = true) :
    (farDouble (normDouble l p H).toInt32 w p H 1).toInt32 ≤
      (H : Int) - ((H / 2 : Nat) : Int) := by
  have hceil := normDouble_le_ceil l p H hl (by omega) hp hp2 hH htab
  obtain ⟨x1, x2, -, -⟩ := edges_upright l w p H hl hw hlw hp hp2 (by omega)
  obtain ⟨m1, e1, a1, lo1, hi1, er1⟩ :=
    extentDouble_spec w p H 1 (Or.inl rfl) hw (by omega) hp hp2 (by omega)
  simp only [Int.cast_one, one_mul] at lo1 hi1 er1
  set n : Int := (normDouble l p H).toInt32 with hn
  set h : Nat := H / 2 with hh
  set A : Int := l * (H : Int) - (h : Int) * (p : Int) with hA
  set c : Int := -((-A) / (p : Int)) with hc
  set r : Int := (-A) % (p : Int) with hr
  have hpZ : (0 : Int) < (p : Int) := by exact_mod_cast hp
  have hrp : r < (p : Int) := Int.emod_lt_of_pos _ hpZ
  have hdm : (p : Int) * ((-A) / (p : Int)) + r = -A := Int.ediv_add_emod (-A) (p : Int)
  have hcp : c * (p : Int) = A + r := by
    rw [hc]
    linarith
  have hpq : (0 : ℚ) < (p : ℚ) := by exact_mod_cast hp
  have hpq2 : (p : ℚ) < 2 ^ 32 := by exact_mod_cast hp2
  have hHq : (H : ℚ) + 1 ≤ 2 ^ 18 := by exact_mod_cast hH
  have hH0 : (0 : ℚ) ≤ (H : ℚ) := Nat.cast_nonneg H
  have hnabs : |n| ≤ 2 ^ 52 := by
    rw [abs_le]
    constructor <;> omega
  obtain ⟨m2, e2, a2, v2⟩ := ofInt_exact n hnabs
  have d := add_isRounding m2 e2 m1 e1
  rw [v2, ← a2, ← a1] at d
  have hnlo : -(H : ℚ) ≤ (n : ℚ) := by
    have : -(H : Int) ≤ n := by omega
    exact_mod_cast this
  have hnhi : (n : ℚ) ≤ (H : ℚ) := by
    have : n ≤ (H : Int) := by omega
    exact_mod_cast this
  obtain ⟨m3, e3, a3, lo3, hi3, er3⟩ := rounding_step _ _ n (n + (H : Int))
    (4 * ((H : ℚ) + 1)) d hnabs
    (by rw [abs_le]; constructor <;> omega) (by linarith) (by push_cast; linarith)
    (by rw [abs_le]; constructor <;> linarith) (by linarith)
  have f1 := truncToInt_ge _ _ lo3
  have f2 := truncToInt_le _ _ hi3
  have hfar : (farDouble n w p H 1).toInt32 = truncToInt ((m3 : ℚ) * (2 : ℚ) ^ e3) := by
    have : farDouble n w p H 1 = Double.finite m3 e3 := a3
    rw [this]
    apply toInt32_finite
    unfold INT32_MIN
    constructor <;> omega
  rw [hfar]
  apply truncToInt_le_of_lt _ _ (by omega)
  -- the exact sum is at least 1 / p below the next integer
  have hcq : (c : ℚ) * (p : ℚ) = (l : ℚ) * (H : ℚ) - (h : ℚ) * (p : ℚ) + (r : ℚ) := by
    have h1 : ((c * (p : Int) : Int) : ℚ) = ((A + r : Int) : ℚ) := by rw [hcp]
    rw [hA] at h1
    push_cast at h1
    exact h1
  have hrq : (r : ℚ) + 1 ≤ (p : ℚ) := by
    have : r + 1 ≤ (p : Int) := by omega
    exact_mod_cast this
  have hlwq : (l : ℚ) + (w : ℚ) ≤ (p : ℚ) := by exact_mod_cast hlw
  have hnc : (n : ℚ) ≤ (c : ℚ) := by exact_mod_cast hceil
  have hkey : ((c : ℚ) + (w : ℚ) / (p : ℚ) * (H : ℚ)) * (p : ℚ) ≤
      ((H : ℚ) - (h : ℚ) + 1) * (p : ℚ) - 1 := by
    have e1 : ((c : ℚ) + (w : ℚ) / (p : ℚ) * (H : ℚ)) * (p : ℚ) =
        (c : ℚ) * (p : ℚ) + (w : ℚ) * (H : ℚ) := by
      field_simp
    rw [e1, hcq]
    nlinarith
  have hkey2 : (c : ℚ) + (w : ℚ) / (p : ℚ) * (H : ℚ) ≤ (H : ℚ) - (h : ℚ) + 1 - 1 / (p : ℚ) := by
    have e4 : ((H : ℚ) - (h : ℚ) + 1 - 1 / (p : ℚ)) * (p : ℚ) =
        ((H : ℚ) - (h : ℚ) + 1) * (p : ℚ) - 1 := by
      field_simp
    rw [← e4] at hkey
    exact le_of_mul_le_mul_right hkey hpq
  have heps : 7 * ((H : ℚ) + 1) / 2 ^ 53 < 1 / (p : ℚ) := by
    rw [lt_div_iff₀ hpq]
    have h3 : 7 * ((H : ℚ) + 1) / 2 ^ 53 ≤ 7 * 2 ^ 18 / 2 ^ 53 := by
      apply div_le_div_of_nonneg_right _ (by positivity)
      linarith
    have h4 : 7 * ((H : ℚ) + 1) / 2 ^ 53 * (p : ℚ) ≤ 7 * 2 ^ 18 / 2 ^ 53 * 2 ^ 32 :=
      mul_le_mul h3 (le_of_lt hpq2) (le_of_lt hpq) (by positivity)
    have h5 : (7 : ℚ) * 2 ^ 18 / 2 ^ 53 * 2 ^ 32 < 1 := by norm_num
    linarith
  have b2 := (abs_le.mp er1).2
  have b3 := (abs_le.mp er3).2
  have esum : 3 * ((H : ℚ) + 1) / 2 ^ 53 + 4 * ((H : ℚ) + 1) / 2 ^ 53 =
      7 * ((H : ℚ) + 1) / 2 ^ 53 := by ring
  have c2 : ((((H : Int) - ((h : Nat) : Int) : Int)) : ℚ) = (H : ℚ) - (h : ℚ) := by
    rw [Int.cast_sub, Int.cast_natCast, Int.cast_natCast]
  rw [c2]
  linarith

/-- Truncations of two rationals less than one apart are at most one apart. -/
theorem truncToInt_close (a b : ℚ) (h : |a - b| < 1) :
    |truncToInt a - truncToInt b| ≤ 1 := by
  obtain ⟨h1, h2⟩ := abs_lt.mp h
  have fa := Int.floor_le a
  have fa2 := Int.lt_floor_add_one a
  have fb := Int.floor_le b
  have fb2 := Int.lt_floor_add_one b
  have ca := Int.le_ceil a
  have ca2 := Int.ceil_lt_add_one a
  have cb := Int.le_ceil b
  have cb2 := Int.ceil_lt_add_one b
  rw [abs_le]
  unfold truncToInt
  split_ifs with ha hb hb
  · have k1 : ((⌊a⌋ : Int) : ℚ) < ((⌊b⌋ : Int) : ℚ) + 2 := by linarith
    have k2 : ((⌊b⌋ : Int) : ℚ) < ((⌊a⌋ : Int) : ℚ) + 2 := by linarith
    have k3 : ⌊a⌋ < ⌊b⌋ + 2 := by exact_mod_cast k1
    have k4 : ⌊b⌋ < ⌊a⌋ + 2 := by exact_mod_cast k2
    constructor <;> omega
  · have hb0 : b < 0 := not_le.mp hb
    have k1 : ((⌊a⌋ : Int) : ℚ) < 1 := by linarith
    have k2 : (-1 : ℚ) < ((⌈b⌉ : Int) : ℚ) := by linarith
    have k3 : ⌊a⌋ < 1 := by exact_mod_cast k1
    have k4 : -1 < ⌈b⌉ := by exact_mod_cast k2
    have k5 : 0 ≤ ⌊a⌋ := Int.floor_nonneg.mpr ha
    have k6 : ⌈b⌉ ≤ 0 := Int.ceil_le.mpr (by exact_mod_cast le_of_lt hb0)
    constructor <;> omega
  · have ha0 : a < 0 := not_le.mp ha
    have k1 : ((⌊b⌋ : Int) : ℚ) < 1 := by linarith
    have k2 : (-1 : ℚ) < ((⌈a⌉ : Int) : ℚ) := by linarith
    have k3 : ⌊b⌋ < 1 := by exact_mod_cast k1
    have k4 : -1 < ⌈a⌉ := by exact_mod_cast k2
    have k5 : 0 ≤ ⌊b⌋ := Int.floor_nonneg.mpr hb
    have k6 : ⌈a⌉ ≤ 0 := Int.ceil_le.mpr (by exact_mod_cast le_of_lt ha0)
    constructor <;> omega
  · have k1 : ((⌈a⌉ : Int) : ℚ) < ((⌈b⌉ : Int) : ℚ) + 2 := by linarith
    have k2 : ((⌈b⌉ : Int) : ℚ) < ((⌈a⌉ : Int) : ℚ) + 2 := by linarith
    have k3 : ⌈a⌉ < ⌈b⌉ + 2 := by exact_mod_cast k1
    have k4 : ⌈b⌉ < ⌈a⌉ + 2 := by exact_mod_cast k2
    constructor <;> omega

/-- The left or top edge in double arithmetic is at most one away from the edge of exact
arithmetic, for a raw value between zero and the preview dimension. -/
theorem normDouble_close (l : Int) (p r : Nat) (hl : 0 ≤ l) (hlp : l ≤ (p : Int)) (hp : 0 < p)
    (hp2 : p < 2 ^ 32) (hr : r < 2 ^ 30) :
    |(normDouble l p r).toInt32 -
      truncToInt ((l : ℚ) / (p : ℚ) * (r : ℚ) - ((r / 2 : Nat) : ℚ))| ≤ 1 := by
  obtain ⟨m, e, a, lo, hi, er⟩ := normDouble_spec l p r hl hlp hp hp2 (by omega)
  have n1 := truncToInt_ge _ _ lo
  have n2 := truncToInt_le _ _ hi
  have hnear : (normDouble l p r).toInt32 = truncToInt ((m : ℚ) * (2 : ℚ) ^ e) := by
    rw [a]
    apply toInt32_finite
    unfold INT32_MIN
    constructor <;> omega
  rw [hnear]
  apply truncToInt_close
  have hrq : (r : ℚ) + 1 ≤ 2 ^ 30 := by exact_mod_cast hr
  have k1 : 3 * ((r : ℚ) + 1) / 2 ^ 53 < 1 := by
    rw [div_lt_iff₀ (by positivity)]
    norm_num
    linarith
  linarith

/-- The edge computed from an `int` edge `n` within the space and the scaled extent, in
double arithmetic, is at most one away from the edge of exact arithmetic, for a width or
height between zero and the preview dimension and a multiplier `s` of 1 or -1. -/
theorem farDouble_close (n w : Int) (p r : Nat) (s : Int) (hs : s = 1 ∨ s = -1)
    (hn : -(r : Int) ≤ n ∧ n ≤ (r : Int)) (hw : 0 ≤ w) (hwp : w ≤ (p : Int)) (hp : 0 < p)
    (hp2 : p < 2 ^ 32) (hr : r < 2 ^ 30) :
    |(farDouble n w p r s).toInt32 -
      truncToInt ((n : ℚ) + (s : ℚ) * ((w : ℚ) / (p : ℚ) * (r : ℚ)))| ≤ 1 := by
  obtain ⟨m1, e1, a1, lo1, hi1, er1⟩ := extentDouble_spec w p r s hs hw hwp hp hp2 (by omega)
  have hnabs : |n| ≤ 2 ^ 52 := by
    rw [abs_le]
    constructor <;> omega
  obtain ⟨m2, e2, a2, v2⟩ := ofInt_exact n hnabs
  have d := add_isRounding m2 e2 m1 e1
  rw [v2, ← a2, ← a1] at d
  have hrq : (r : ℚ) + 1 ≤ 2 ^ 30 := by exact_mod_cast hr
  have hr0 : (0 : ℚ) ≤ (r : ℚ) := Nat.cast_nonneg r
  have hnlo : -(r : ℚ) ≤ (n : ℚ) := by
    have := hn.1
    exact_mod_cast this
  have hnhi : (n : ℚ) ≤ (r : ℚ) := by
    have := hn.2
    exact_mod_cast this
  have hv : -(r : ℚ) ≤ (m1 : ℚ) * (2 : ℚ) ^ e1 ∧ (m1 : ℚ) * (2 : ℚ) ^ e1 ≤ (r : ℚ) := by
    rcases hs with h | h <;> rw [h] at lo1 hi1 <;> push_cast at lo1 hi1 <;>
      constructor <;> linarith
  obtain ⟨m3, e3, a3, lo3, hi3, er3⟩ := rounding_step _ _ (n - (r : Int)) (n + (r : Int))
    (2 ^ 32) d (by rw [abs_le]; constructor <;> omega) (by rw [abs_le]; constructor <;> omega)
    (by push_cast; linarith [hv.1]) (by push_cast; linarith [hv.2])
    (by rw [abs_le]; constructor <;> linarith [hv.1, hv.2]) (by norm_num)
  have f1 := truncToInt_ge _ _ lo3
  have f2 := truncToInt_le _ _ hi3
  have hfar : (farDouble n w p r s).toInt32 = truncToInt ((m3 : ℚ) * (2 : ℚ) ^ e3) := by
    have : farDouble n w p r s = Double.finite m3 e3 := a3
    rw [this]
    apply toInt32_finite
    unfold INT32_MIN
    constructor <;> omega
  rw [hfar]
  apply truncToInt_close
  have k1 : 3 * ((r : ℚ) + 1) / 2 ^ 53 ≤ 1 / 4 := by
    rw [div_le_iff₀ (by positivity)]
    norm_num
    linarith
  have k2 : (2 : ℚ) ^ 32 / 2 ^ 53 ≤ 1 / 4 := by norm_num
  have tri := abs_sub_le ((m3 : ℚ) * (2 : ℚ) ^ e3) ((n : ℚ) + (m1 : ℚ) * (2 : ℚ) ^ e1)
    ((n : ℚ) + (s : ℚ) * ((w : ℚ) / (p : ℚ) * (r : ℚ)))
  have e4 : (n : ℚ) + (m1 : ℚ) * (2 : ℚ) ^ e1 -
      ((n : ℚ) + (s : ℚ) * ((w : ℚ) / (p : ℚ) * (r : ℚ))) =
      (m1 : ℚ) * (2 : ℚ) ^ e1 - (s : ℚ) * ((w : ℚ) / (p : ℚ) * (r : ℚ)) := by ring
  rw [e4] at tri
  linarith

/-! ## Face-detection result transformer: the loop body -/

/-- With both allocations succeeding, entry `i` of the output is the loop body applied to
entry `i` of the input, for every `i` below the face count. -/
theorem encodeFaceCoordinates_face (c : FaceSpace) (o : Int) (heap : Allocator)
    (fd : OMX_FACEDETECTIONTYPE) (pw ph i : Nat)
    (hheap : heap.faceResultOk = true ∧ heap.facesOk = true) (hi : i < fd.ulFaceCount) :
    (encodeFaceCoordinates c o heap (some fd) pw ph).ret = NO_ERROR ∧
    (encodeFaceCoordinates c o heap (some fd) pw ph).face i =
      some (encodeFace c o pw ph (fd.tFacePosition i)) := by
  have hpos : 0 < fd.ulFaceCount := by omega
  simp [encodeFaceCoordinates, EncodeResult.face, hheap.1, hheap.2, hpos, hi]

/-- A range that fits a `size_t` is stored unchanged, and its half is the integer half. -/
theorem toSizeT_range (lo hi : Int) (h : lo ≤ hi ∧ hi - lo < 2 ^ 32) :
    ((toSizeT (hi - lo) : Nat) : Int) = hi - lo ∧
    ((toSizeT (hi - lo) / 2 : Nat) : Int) = (hi - lo) / 2 := by
  unfold toSizeT
  have h1 := h.1
  have h2 := h.2
  have hmod : (hi - lo) % 2 ^ 32 = hi - lo := Int.emod_eq_of_lt (by omega) h2
  rw [hmod]
  constructor <;> omega

/-- The four stores of the loop body at an orientation other than 180: the left and top
edges are the formula of the specification in double arithmetic, and the right and
bottom edges are the stored left and top plus the scaled width and height. -/
theorem encodeFace_rect_upright (c : FaceSpace) (o : Int) (pw ph : Nat) (f : OMX_TI_FACERESULT)
    (ho : o ≠ 180) :
    (encodeFace c o pw ph f).rect =
      [ (normDouble f.nLeft pw (hRange c)).toInt32,
        (normDouble f.nTop ph (vRange c)).toInt32,
        (farDouble (normDouble f.nLeft pw (hRange c)).toInt32 f.nWidth pw (hRange c) 1).toInt32,
        (farDouble (normDouble f.nTop ph (vRange c)).toInt32 f.nHeight ph (vRange c) 1).toInt32 ] := by
  simp [encodeFace, ho, normDouble, farDouble, extentDouble]

/-- The four stores of the loop body at orientation 180: the formula of the specification
is stored as the right and bottom edges, and the left and top edges are these minus the
scaled width and height. -/
theorem encodeFace_rect_180 (c : FaceSpace) (pw ph : Nat) (f : OMX_TI_FACERESULT) :
    (encodeFace c 180 pw ph f).rect =
      [ (farDouble (normDouble f.nLeft pw (hRange c)).toInt32 f.nWidth pw (hRange c)
          (-1)).toInt32,
        (farDouble (normDouble f.nTop ph (vRange c)).toInt32 f.nHeight ph (vRange c)
          (-1)).toInt32,
        (normDouble f.nLeft pw (hRange c)).toInt32,
        (normDouble f.nTop ph (vRange c)).toInt32 ] := by
  simp [encodeFace, normDouble, farDouble, extentDouble]

/-! ## Face-detection result transformer: claims -/

set_option maxRecDepth 100000 in
/-- Claim C5 as stated fails: the code computes in `double`, and a rounded quotient can
move a store across an integer. With the constants of `CameraHal.h` and an 800 x 480
preview at orientation 0, the face with `nLeft = 402` gets `rect[0] = 4`, where the exact
formula `trunc(nLeft / previewWidth * hRange - hRange / 2)` of the claim gives 5:
402 / 800 rounds to a double below 0.5025, its product with 2000 rounds to a double
below 1005, and the difference 4.99999999999989 is truncated to 4. -/
theorem encodeFaceCoordinates_upright_inexact :
    (encodeFaceCoordinates cameraHalFaceSpace 0 ⟨true, true⟩ (some offCentreFaceData)
      800 480).face 0 =
      some { rect := [4, -500, 504, 0], score := 60, id := 0,
             left_eye := [-2000, -2000], right_eye := [-2000, -2000],
             mouth := [-2000, -2000] } ∧
    truncToInt ((offCentreFace.nLeft : ℚ) / ((800 : Nat) : ℚ) *
      (hRange cameraHalFaceSpace : ℚ) - ((hRange cameraHalFaceSpace / 2 : Nat) : ℚ)) = 5 := by
  constructor
  · decide
  · have hH : hRange cameraHalFaceSpace = 2000 := by decide
    have t5 : truncToInt (5 : ℚ) = 5 := by
      have := truncToInt_intCast 5
      norm_num at this
      exact this
    rw [hH]
    norm_num [offCentreFace, t5]

/-- Claim C5, amended (face transform at an orientation other than 180, so also at 0, 90
and 270). For positive preview dimensions, constants that fit a `size_t` (so that
`hRange = RIGHT - LEFT` and `vRange = BOTTOM - TOP`), both allocations succeeding and
every face `i` below the face count, `encodeFaceCoordinates` stores the formulas of the
specification evaluated in double arithmetic, every operation rounded to the nearest
double, with truncation toward zero on each store:
`rect[0] = trunc(nLeft / previewWidth * hRange - hRange / 2)`,
`rect[1] = trunc(nTop / previewHeight * vRange - vRange / 2)`,
`rect[2] = trunc(rect[0] + nWidth / previewWidth * hRange * 1)` and
`rect[3] = trunc(rect[1] + nHeight / previewHeight * vRange * 1)`: no edge is swapped.
`hRange / 2` is the integer halving of the source. For an input inside the preview
(`0 <= nLeft`, `0 <= nWidth`, `nLeft + nWidth <= previewWidth < 2 ^ 32`, a range below
`2 ^ 30`, and the same vertically) each stored value is the value of the same formula in
exact arithmetic or differs from it by one. -/
theorem encodeFaceCoordinates_upright (c : FaceSpace) (o : Int) (heap : Allocator)
    (fd : OMX_FACEDETECTIONTYPE) (pw ph i : Nat)
    (ho : o ≠ 180) (hpw : 0 < pw) (hph : 0 < ph)
    (hc : (c.LEFT ≤ c.RIGHT ∧ c.RIGHT - c.LEFT < 2 ^ 32) ∧
      (c.TOP ≤ c.BOTTOM ∧ c.BOTTOM - c.TOP < 2 ^ 32))
    (hheap : heap.faceResultOk = true ∧ heap.facesOk = true) (hi : i < fd.ulFaceCount) :
    ((hRange c : Nat) : Int) = c.RIGHT - c.LEFT ∧
    ((vRange c : Nat) : Int) = c.BOTTOM - c.TOP ∧
    ∃ (face : camera_face_t) (r0 r1 r2 r3 : Int),
      (encodeFaceCoordinates c o heap (some fd) pw ph).face i = some face ∧
      face.rect = [r0, r1, r2, r3] ∧
      r0 = (normDouble (fd.tFacePosition i).nLeft pw (hRange c)).toInt32 ∧
      r1 = (normDouble (fd.tFacePosition i).nTop ph (vRange c)).toInt32 ∧
      r2 = (farDouble r0 (fd.tFacePosition i).nWidth pw (hRange c) 1).toInt32 ∧
      r3 = (farDouble r1 (fd.tFacePosition i).nHeight ph (vRange c) 1).toInt32 ∧
      (pw < 2 ^ 32 ∧ c.RIGHT - c.LEFT < 2 ^ 30 ∧ 0 ≤ (fd.tFacePosition i).nLeft ∧
          0 ≤ (fd.tFacePosition i).nWidth ∧
          (fd.tFacePosition i).nLeft + (fd.tFacePosition i).nWidth ≤ (pw : Int) →
        |r0 - truncToInt (((fd.tFacePosition i).nLeft : ℚ) / (pw : ℚ) * (hRange c : ℚ)
          - ((hRange c / 2 : Nat) : ℚ))| ≤ 1 ∧
        |r2 - truncToInt ((r0 : ℚ) + ((fd.tFacePosition i).nWidth : ℚ) / (pw : ℚ)
          * (hRange c : ℚ))| ≤ 1) ∧
      (ph < 2 ^ 32 ∧ c.BOTTOM - c.TOP < 2 ^ 30 ∧ 0 ≤ (fd.tFacePosition i).nTop ∧
          0 ≤ (fd.tFacePosition i).nHeight ∧
          (fd.tFacePosition i).nTop + (fd.tFacePosition i).nHeight ≤ (ph : Int) →
        |r1 - truncToInt (((fd.tFacePosition i).nTop : ℚ) / (ph : ℚ) * (vRange c : ℚ)
          - ((vRange c / 2 : Nat) : ℚ))| ≤ 1 ∧
        |r3 - truncToInt ((r1 : ℚ) + ((fd.tFacePosition i).nHeight : ℚ) / (ph : ℚ)
          * (vRange c : ℚ))| ≤ 1) := by
  have hH : ((hRange c : Nat) : Int) = c.RIGHT - c.LEFT :=
    (toSizeT_range c.LEFT c.RIGHT hc.1).1
  have hV : ((vRange c : Nat) : Int) = c.BOTTOM - c.TOP :=
    (toSizeT_range c.TOP c.BOTTOM hc.2).1
  refine ⟨hH, hV, ?_⟩
  have close : ∀ (l w : Int) (p r : Nat), 0 < p → p < 2 ^ 32 → r < 2 ^ 30 → 0 ≤ l → 0 ≤ w →
      l + w ≤ (p : Int) →
      |(normDouble l p r).toInt32 -
        truncToInt ((l : ℚ) / (p : ℚ) * (r : ℚ) - ((r / 2 : Nat) : ℚ))| ≤ 1 ∧
      |(farDouble (normDouble l p r).toInt32 w p r 1).toInt32 -
        truncToInt ((((normDouble l p r).toInt32 : Int) : ℚ) + (w : ℚ) / (p : ℚ) * (r : ℚ))| ≤
        1 := by
    intro l w p r hp hp2 hr hl hw hlw
    obtain ⟨x1, x2, -, -⟩ := edges_upright l w p r hl hw hlw hp hp2 hr
    refine ⟨normDouble_close l p r hl (by omega) hp hp2 hr, ?_⟩
    have := farDouble_close (normDouble l p r).toInt32 w p r 1 (Or.inl rfl) ⟨by omega, by omega⟩
      hw (by omega) hp hp2 hr
    simpa using this
  refine ⟨encodeFace c o pw ph (fd.tFacePosition i), _, _, _, _,
    (encodeFaceCoordinates_face c o heap fd pw ph i hheap hi).2,
    encodeFace_rect_upright c o pw ph (fd.tFacePosition i) ho, rfl, rfl, rfl, rfl, ?_, ?_⟩
  · intro hb
    exact close _ _ pw (hRange c) hpw hb.1 (by omega) hb.2.2.1 hb.2.2.2.1 hb.2.2.2.2
  · intro hb
    exact close _ _ ph (vRange c) hph hb.1 (by omega) hb.2.2.1 hb.2.2.2.1 hb.2.2.2.2

set_option maxRecDepth 100000 in
/-- An instance of amended claim C5: an 800 x 480 preview held at 90 degrees, with the
constants of `CameraHal.h`; the face 402 pixels from the left is mapped to
`[4, -500, 504, 0]`. -/
theorem encodeFaceCoordinates_upright_witness :
    ((hRange cameraHalFaceSpace : Nat) : Int) = 2000 ∧
    ∃ face : camera_face_t,
      (encodeFaceCoordinates cameraHalFaceSpace 90 ⟨true, true⟩ (some offCentreFaceData)
        800 480).face 0 = some face ∧
      face.rect = [4, -500, 504, 0] := by
  obtain ⟨hR, -, face, r0, r1, r2, r3, hf, hr, e0, e1, e2, e3, -, -⟩ :=
    encodeFaceCoordinates_upright cameraHalFaceSpace 90 ⟨true, true⟩ offCentreFaceData 800 480 0
      (by decide) (by decide) (by decide) (by decide) (by decide) (by decide)
  have v0 : r0 = 4 := by
    rw [e0]
    decide
  have v1 : r1 = -500 := by
    rw [e1]
    decide
  have v2 : r2 = 504 := by
    rw [e2, v0]
    decide
  have v3 : r3 = 0 := by
    rw [e3, v1]
    decide
  refine ⟨by decide, face, hf, ?_⟩
  rw [hr, v0, v1, v2, v3]

set_option maxRecDepth 100000 in
/-- Claim C6 as stated fails in its second half, for the same reason as claim C5: the
scaled width is computed in `double`. With the constants of `CameraHal.h` and an
800 x 480 preview at orientation 180, the face with `nLeft = 398`, `nWidth = 402` gets
`rect[2] = -5` and `rect[0] = -1009`, where the exact formula
`trunc(rect[2] - nWidth / previewWidth * hRange)` of the claim gives -1010: 402 / 800
rounds to a double below 0.5025, and its product with 2000 to 1004.9999999999999. -/
theorem encodeFaceCoordinates_180_inexact :
    (encodeFaceCoordinates cameraHalFaceSpace 180 ⟨true, true⟩ (some wideFaceData)
      800 480).face 0 =
      some { rect := [-1009, -2000, -5, -1000], score := 70, id := 0,
             left_eye := [-2000, -2000], right_eye := [-2000, -2000],
             mouth := [-2000, -2000] } ∧
    truncToInt (((-5 : Int) : ℚ) - (wideFace.nWidth : ℚ) / ((800 : Nat) : ℚ) *
      (hRange cameraHalFaceSpace : ℚ)) = -1010 := by
  constructor
  · decide
  · have hH : hRange cameraHalFaceSpace = 2000 := by decide
    have t : truncToInt (-1010 : ℚ) = -1010 := by
      have := truncToInt_intCast (-1010)
      norm_num at this
      exact this
    rw [hH]
    norm_num [wideFace, t]

/-- Claim C6, amended (face transform at orientation 180). For positive preview
dimensions, both allocations succeeding and every face `i` below the face count: the
right edge `rect[2]` is the left edge `rect[0]` that orientation 0 stores for the same
input, the bottom edge `rect[3]` is the top edge `rect[1]` that orientation 0 stores, and
the scaled extents are applied with the multiplier -1, in double arithmetic with every
operation rounded to the nearest double and truncation toward zero on the store:
`rect[0] = trunc(rect[2] + nWidth / previewWidth * hRange * (-1))` and
`rect[1] = trunc(rect[3] + nHeight / previewHeight * vRange * (-1))`. For an input inside
the preview (`0 <= nLeft`, `0 <= nWidth`, `nLeft + nWidth <= previewWidth < 2 ^ 32`, a
range below `2 ^ 30`, and the same vertically) `rect[0]` and `rect[1]` are the values of
`trunc(rect[2] - nWidth / previewWidth * hRange)` and
`trunc(rect[3] - nHeight / previewHeight * vRange)` in exact arithmetic or differ from
them by one. -/
theorem encodeFaceCoordinates_180 (c : FaceSpace) (heap : Allocator)
    (fd : OMX_FACEDETECTIONTYPE) (pw ph i : Nat) (hpw : 0 < pw) (hph : 0 < ph)
    (hheap : heap.faceResultOk = true ∧ heap.facesOk = true) (hi : i < fd.ulFaceCount) :
    ∃ (face180 face0 : camera_face_t) (r0 r1 r2 r3 s0 s1 s2 s3 : Int),
      (encodeFaceCoordinates c 180 heap (some fd) pw ph).face i = some face180 ∧
      (encodeFaceCoordinates c 0 heap (some fd) pw ph).face i = some face0 ∧
      face180.rect = [r0, r1, r2, r3] ∧
      face0.rect = [s0, s1, s2, s3] ∧
      r2 = s0 ∧
      r3 = s1 ∧
      r0 = (farDouble r2 (fd.tFacePosition i).nWidth pw (hRange c) (-1)).toInt32 ∧
      r1 = (farDouble r3 (fd.tFacePosition i).nHeight ph (vRange c) (-1)).toInt32 ∧
      (pw < 2 ^ 32 ∧ hRange c < 2 ^ 30 ∧ 0 ≤ (fd.tFacePosition i).nLeft ∧
          0 ≤ (fd.tFacePosition i).nWidth ∧
          (fd.tFacePosition i).nLeft + (fd.tFacePosition i).nWidth ≤ (pw : Int) →
        |r0 - truncToInt ((r2 : ℚ) - ((fd.tFacePosition i).nWidth : ℚ) / (pw : ℚ)
          * (hRange c : ℚ))| ≤ 1) ∧
      (ph < 2 ^ 32 ∧ vRange c < 2 ^ 30 ∧ 0 ≤ (fd.tFacePosition i).nTop ∧
          0 ≤ (fd.tFacePosition i).nHeight ∧
          (fd.tFacePosition i).nTop + (fd.tFacePosition i).nHeight ≤ (ph : Int) →
        |r1 - truncToInt ((r3 : ℚ) - ((fd.tFacePosition i).nHeight : ℚ) / (ph : ℚ)
          * (vRange c : ℚ))| ≤ 1) := by
  have close : ∀ (l w : Int) (p r : Nat), 0 < p → p < 2 ^ 32 → r < 2 ^ 30 → 0 ≤ l → 0 ≤ w →
      l + w ≤ (p : Int) →
      |(farDouble (normDouble l p r).toInt32 w p r (-1)).toInt32 -
        truncToInt ((((normDouble l p r).toInt32 : Int) : ℚ) - (w : ℚ) / (p : ℚ) * (r : ℚ))| ≤
        1 := by
    intro l w p r hp hp2 hr hl hw hlw
    obtain ⟨x1, x2, -, -⟩ := edges_180 l w p r hl hw hlw hp hp2 hr
    have := farDouble_close (normDouble l p r).toInt32 w p r (-1) (Or.inr rfl)
      ⟨by omega, by omega⟩ hw (by omega) hp hp2 hr
    simpa [sub_eq_add_neg] using this
  refine ⟨encodeFace c 180 pw ph (fd.tFacePosition i), encodeFace c 0 pw ph (fd.tFacePosition i),
    _, _, _, _, _, _, _, _,
    (encodeFaceCoordinates_face c 180 heap fd pw ph i hheap hi).2,
    (encodeFaceCoordinates_face c 0 heap fd pw ph i hheap hi).2,
    encodeFace_rect_180 c pw ph (fd.tFacePosition i),
    encodeFace_rect_upright c 0 pw ph (fd.tFacePosition i) (by decide),
    rfl, rfl, rfl, rfl, ?_, ?_⟩
  · intro hb
    exact close _ _ pw (hRange c) hpw hb.1 hb.2.1 hb.2.2.1 hb.2.2.2.1 hb.2.2.2.2
  · intro hb
    exact close _ _ ph (vRange c) hph hb.1 hb.2.1 hb.2.2.1 hb.2.2.2.1 hb.2.2.2.2

set_option maxRecDepth 100000 in
/-- An instance of amended claim C6: the face `wideFace` in an 800 x 480 preview, with the
constants of `CameraHal.h`: `rect[0] = -1009` is one away from the exact -1010. -/
theorem encodeFaceCoordinates_180_witness :
    ∃ (face180 face0 : camera_face_t) (r0 r1 r2 r3 s0 s1 s2 s3 : Int),
      (encodeFaceCoordinates cameraHalFaceSpace 180 ⟨true, true⟩ (some wideFaceData)
        800 480).face 0 = some face180 ∧
      (encodeFaceCoordinates cameraHalFaceSpace 0 ⟨true, true⟩ (some wideFaceData)
        800 480).face 0 = some face0 ∧
      face180.rect = [r0, r1, r2, r3] ∧
      face0.rect = [s0, s1, s2, s3] ∧
      r2 = s0 ∧
      r3 = s1 ∧
      r0 = (farDouble r2 (wideFaceData.tFacePosition 0).nWidth 800
        (hRange cameraHalFaceSpace) (-1)).toInt32 ∧
      r1 = (farDouble r3 (wideFaceData.tFacePosition 0).nHeight 480
        (vRange cameraHalFaceSpace) (-1)).toInt32 ∧
      |r0 - truncToInt ((r2 : ℚ) - ((wideFaceData.tFacePosition 0).nWidth : ℚ) /
        ((800 : Nat) : ℚ) * (hRange cameraHalFaceSpace : ℚ))| ≤ 1 := by
  obtain ⟨f180, f0, r0, r1, r2, r3, s0, s1, s2, s3, h1, h2, h3, h4, h5, h6, h7, h8, h9, -⟩ :=
    encodeFaceCoordinates_180 cameraHalFaceSpace ⟨true, true⟩ wideFaceData 800 480 0
      (by decide) (by decide) (by decide) (by decide)
  exact ⟨f180, f0, r0, r1, r2, r3, s0, s1, s2, s3, h1, h2, h3, h4, h5, h6, h7, h8,
    h9 (by decide)⟩

set_option maxRecDepth 100000 in
/-- Claim C7 as stated fails in two ways. At orientation 180, with the constants of
`CameraHal.h` and a 640 x 480 preview, the face with `nLeft = 0`, `nTop = 0`,
`nWidth = 320`, `nHeight = 240` lies inside the preview buffer, and
`encodeFaceCoordinates` stores `rect = [-2000, -2000, -1000, -1000]`: `rect[0]` and
`rect[1]` are below `LEFT = -1000` and `TOP = -1000`. At orientation 0, in a space from
(-50, -50) to (50, 50) and a 100 x 100 preview, the face with `nLeft = 28`, `nWidth = 72`
reaches the right border of the preview and gets `rect[0] = -21` (28 / 100 * 100 is
28.000000000000004 in double, so the store truncates -21.999999999999996) and
`rect[2] = -21 + 72 = 51`, above `RIGHT = 50`. -/
theorem encodeFaceCoordinates_leaves_space :
    ((quarterFace.nLeft + quarterFace.nWidth ≤ 640 ∧
        quarterFace.nTop + quarterFace.nHeight ≤ 480) ∧
      (encodeFaceCoordinates cameraHalFaceSpace 180 ⟨true, true⟩ (some quarterFaceData)
        640 480).face 0 =
        some { rect := [-2000, -2000, -1000, -1000], score := 50, id := 0,
               left_eye := [-2000, -2000], right_eye := [-2000, -2000],
               mouth := [-2000, -2000] } ∧
      ¬ (cameraHalFaceSpace.LEFT ≤ (-2000 : Int)) ∧
      ¬ (cameraHalFaceSpace.TOP ≤ (-2000 : Int))) ∧
    ((0 ≤ borderFace.nLeft ∧ 0 ≤ borderFace.nWidth ∧
        borderFace.nLeft + borderFace.nWidth ≤ 100 ∧
        0 ≤ borderFace.nTop ∧ 0 ≤ borderFace.nHeight ∧
        borderFace.nTop + borderFace.nHeight ≤ 100) ∧
      (encodeFaceCoordinates smallFaceSpace 0 ⟨true, true⟩ (some borderFaceData)
        100 100).face 0 =
        some { rect := [-21, -50, 51, 0], score := 10, id := 0,
               left_eye := [-2000, -2000], right_eye := [-2000, -2000],
               mouth := [-2000, -2000] } ∧
      ¬ ((51 : Int) ≤ smallFaceSpace.RIGHT)) := by
  refine ⟨⟨by decide, by decide, by decide, by decide⟩, by decide, by decide, by decide⟩

/-- Claim C7, amended. For every device orientation, an output space centred at zero
(`LEFT = -RIGHT`, `TOP = -BOTTOM`, ranges below `2 ^ 30`), positive preview dimensions
that fit a `size_t`, both allocations succeeding, and every input face `i` contained in
the preview buffer (`0 <= nLeft`, `0 <= nWidth`, `nLeft + nWidth <= previewWidth`, and the
same vertically):
at an orientation other than 180, `LEFT <= rect[0] <= RIGHT`,
`LEFT <= rect[0] <= rect[2] <= RIGHT + 1`, `TOP <= rect[1] <= BOTTOM` and
`TOP <= rect[1] <= rect[3] <= BOTTOM + 1`, and with the constants of `CameraHal.h`
(`RIGHT = 1000`, `BOTTOM = 1000`) `rect[2] <= RIGHT` and `rect[3] <= BOTTOM`: every
coordinate lies in the space;
at orientation 180, `LEFT <= rect[2] <= RIGHT`, `TOP <= rect[3] <= BOTTOM`, and
`LEFT - hRange <= rect[0] <= rect[2]`, `TOP - vRange <= rect[1] <= rect[3]`, so that
`rect[0] <= RIGHT` and `rect[1] <= BOTTOM`. -/
theorem encodeFaceCoordinates_in_space (c : FaceSpace) (o : Int) (heap : Allocator)
    (fd : OMX_FACEDETECTIONTYPE) (pw ph i : Nat)
    (hcx : c.LEFT = -c.RIGHT ∧ 0 ≤ c.RIGHT ∧ 2 * c.RIGHT < 2 ^ 30)
    (hcy : c.TOP = -c.BOTTOM ∧ 0 ≤ c.BOTTOM ∧ 2 * c.BOTTOM < 2 ^ 30)
    (hpw : 0 < pw ∧ pw < 2 ^ 32) (hph : 0 < ph ∧ ph < 2 ^ 32)
    (hheap : heap.faceResultOk = true ∧ heap.facesOk = true) (hi : i < fd.ulFaceCount)
    (hx : 0 ≤ (fd.tFacePosition i).nLeft ∧ 0 ≤ (fd.tFacePosition i).nWidth ∧
      (fd.tFacePosition i).nLeft + (fd.tFacePosition i).nWidth ≤ (pw : Int))
    (hy : 0 ≤ (fd.tFacePosition i).nTop ∧ 0 ≤ (fd.tFacePosition i).nHeight ∧
      (fd.tFacePosition i).nTop + (fd.tFacePosition i).nHeight ≤ (ph : Int)) :
    ∃ (face : camera_face_t) (r0 r1 r2 r3 : Int),
      (encodeFaceCoordinates c o heap (some fd) pw ph).face i = some face ∧
      face.rect = [r0, r1, r2, r3] ∧
      (o ≠ 180 →
        (c.LEFT ≤ r0 ∧ r0 ≤ c.RIGHT ∧ r0 ≤ r2 ∧ r2 ≤ c.RIGHT + 1) ∧
        (c.TOP ≤ r1 ∧ r1 ≤ c.BOTTOM ∧ r1 ≤ r3 ∧ r3 ≤ c.BOTTOM + 1) ∧
        (c.RIGHT = 1000 → r2 ≤ c.RIGHT) ∧
        (c.BOTTOM = 1000 → r3 ≤ c.BOTTOM)) ∧
      (o = 180 →
        (c.LEFT ≤ r2 ∧ r2 ≤ c.RIGHT ∧ c.LEFT - (c.RIGHT - c.LEFT) ≤ r0 ∧ r0 ≤ r2) ∧
        (c.TOP ≤ r3 ∧ r3 ≤ c.BOTTOM ∧ c.TOP - (c.BOTTOM - c.TOP) ≤ r1 ∧ r1 ≤ r3)) := by
  obtain ⟨hL, hR0, hR1⟩ := hcx
  obtain ⟨hT, hB0, hB1⟩ := hcy
  have hHi := toSizeT_range c.LEFT c.RIGHT ⟨by omega, by omega⟩
  have hVi := toSizeT_range c.TOP c.BOTTOM ⟨by omega, by omega⟩
  have hH : ((hRange c : Nat) : Int) = 2 * c.RIGHT := by
    have := hHi.1
    unfold hRange
    omega
  have hH2 : ((hRange c / 2 : Nat) : Int) = c.RIGHT := by
    have := hHi.2
    unfold hRange
    omega
  have hV : ((vRange c : Nat) : Int) = 2 * c.BOTTOM := by
    have := hVi.1
    unfold vRange
    omega
  have hV2 : ((vRange c / 2 : Nat) : Int) = c.BOTTOM := by
    have := hVi.2
    unfold vRange
    omega
  have hHlt : hRange c < 2 ^ 30 := by omega
  have hVlt : vRange c < 2 ^ 30 := by omega
  have htab : ∀ j : Nat, 1 ≤ j → j < 2000 / 2 → exactTest 2000 j = true :=
    fun j h1 h2 => exactTestUpTo_spec 2000 999 exactTest_2000 j h1 (by omega)
  obtain ⟨-, hf⟩ := encodeFaceCoordinates_face c o heap fd pw ph i hheap hi
  by_cases ho : o = 180
  · subst ho
    obtain ⟨x1, x2, x3, x4⟩ := edges_180 (fd.tFacePosition i).nLeft
      (fd.tFacePosition i).nWidth pw (hRange c) hx.1 hx.2.1 hx.2.2 hpw.1 hpw.2 hHlt
    obtain ⟨y1, y2, y3, y4⟩ := edges_180 (fd.tFacePosition i).nTop
      (fd.tFacePosition i).nHeight ph (vRange c) hy.1 hy.2.1 hy.2.2 hph.1 hph.2 hVlt
    rw [hH, hH2] at x2 x3
    rw [hH2] at x1
    rw [hV, hV2] at y2 y3
    rw [hV2] at y1
    refine ⟨_, _, _, _, _, hf, encodeFace_rect_180 c pw ph (fd.tFacePosition i), ?_, ?_⟩
    · intro h
      exact absurd rfl h
    · intro _
      exact ⟨⟨by omega, by omega, by omega, x4⟩, ⟨by omega, by omega, by omega, y4⟩⟩
  · obtain ⟨x1, x2, x3, x4⟩ := edges_upright (fd.tFacePosition i).nLeft
      (fd.tFacePosition i).nWidth pw (hRange c) hx.1 hx.2.1 hx.2.2 hpw.1 hpw.2 hHlt
    obtain ⟨y1, y2, y3, y4⟩ := edges_upright (fd.tFacePosition i).nTop
      (fd.tFacePosition i).nHeight ph (vRange c) hy.1 hy.2.1 hy.2.2 hph.1 hph.2 hVlt
    rw [hH, hH2] at x2 x4
    rw [hH2] at x1
    rw [hV, hV2] at y2 y4
    rw [hV2] at y1
    refine ⟨_, _, _, _, _, hf, encodeFace_rect_upright c o pw ph (fd.tFacePosition i) ho, ?_, ?_⟩
    · intro _
      refine ⟨⟨by omega, by omega, x3, by omega⟩, ⟨by omega, by omega, y3, by omega⟩, ?_, ?_⟩
      · intro hR
        have hH2000 : hRange c = 2000 := by omega
        have := far_le_exact (fd.tFacePosition i).nLeft (fd.tFacePosition i).nWidth pw
          (hRange c) hx.1 hx.2.1 hx.2.2 hpw.1 hpw.2 (by omega) (by rw [hH2000]; exact htab)
        rw [hH, hH2] at this
        omega
      · intro hB
        have hV2000 : vRange c = 2000 := by omega
        have := far_le_exact (fd.tFacePosition i).nTop (fd.tFacePosition i).nHeight ph
          (vRange c) hy.1 hy.2.1 hy.2.2 hph.1 hph.2 (by omega) (by rw [hV2000]; exact htab)
        rw [hV, hV2] at this
        omega
    · intro h
      exact absurd h ho

/-- An instance of amended claim C7: the face `wideFace`, which reaches the right border
of an 800 x 480 preview, at orientation 0 with the constants of `CameraHal.h`: every
coordinate lies in the space. -/
theorem encodeFaceCoordinates_in_space_witness :
    ∃ (face : camera_face_t) (r0 r1 r2 r3 : Int),
      (encodeFaceCoordinates cameraHalFaceSpace 0 ⟨true, true⟩ (some wideFaceData)
        800 480).face 0 = some face ∧
      face.rect = [r0, r1, r2, r3] ∧
      (cameraHalFaceSpace.LEFT ≤ r0 ∧ r0 ≤ cameraHalFaceSpace.RIGHT) ∧
      (cameraHalFaceSpace.LEFT ≤ r2 ∧ r2 ≤ cameraHalFaceSpace.RIGHT) ∧
      (cameraHalFaceSpace.TOP ≤ r1 ∧ r1 ≤ cameraHalFaceSpace.BOTTOM) ∧
      (cameraHalFaceSpace.TOP ≤ r3 ∧ r3 ≤ cameraHalFaceSpace.BOTTOM) := by
  obtain ⟨face, r0, r1, r2, r3, hf, hr, hup, -⟩ :=
    encodeFaceCoordinates_in_space cameraHalFaceSpace 0 ⟨true, true⟩ wideFaceData 800 480 0
      (by decide) (by decide) (by decide) (by decide) (by decide) (by decide) (by decide)
      (by decide)
  obtain ⟨⟨a1, a2, a3, -⟩, ⟨b1, b2, b3, -⟩, a5, b5⟩ := hup (by decide)
  exact ⟨face, r0, r1, r2, r3, hf, hr, ⟨a1, a2⟩, ⟨le_trans a1 a3, a5 (by decide)⟩,
    ⟨b1, b2⟩, ⟨le_trans b1 b3, b5 (by decide)⟩⟩

/-- Claim C8 (mismatched size of the face-detection data). Whenever the buffer reaches
down to face-detection data whose `nSize` differs from `sizeof(OMX_FACEDETECTIONTYPE)`,
`detectFaces` returns an error and leaves the caller's `result` as it was, whatever the
face count, the faces, the other fields of the buffer, the preview size, the orientation
and the allocator. With the component executing, the state in which `detectFaces` reads
the buffer at all, the error is `-EINVAL`; in any other component state the entry guard
has already returned `NO_INIT`. -/
theorem detectFaces_faceData_size_mismatch (c : FaceSpace) (lay : Layout)
    (mComponentState : OMX_STATETYPE) (o : Int) (heap : Allocator)
    (bh : OMX_BUFFERHEADERTYPE) (pp : OMX_TI_PLATFORMPRIVATE) (ed : OMX_OTHER_EXTRADATATYPE)
    (fd : OMX_FACEDETECTIONTYPE) (result : Option CameraFDResult) (pw ph : Nat)
    (hbh : bh.pPlatformPrivate = some pp) (hpp : pp.pMetaDataBuffer = some ed)
    (hed : ed.data = some fd) (hsize : lay.sizeofFaceDetection ≠ fd.nSize) :
    (detectFaces c lay mComponentState o heap (some bh) result pw ph).ret ≠ NO_ERROR ∧
    (detectFaces c lay mComponentState o heap (some bh) result pw ph).result = result ∧
    (mComponentState = OMX_STATETYPE.OMX_StateExecuting →
      (detectFaces c lay mComponentState o heap (some bh) result pw ph).ret = -EINVAL) ∧
    (mComponentState ≠ OMX_STATETYPE.OMX_StateExecuting →
      (detectFaces c lay mComponentState o heap (some bh) result pw ph).ret = NO_INIT) := by
  unfold detectFaces
  by_cases hs : OMX_STATETYPE.OMX_StateExecuting = mComponentState
  · simp only [hs, ne_eq, not_true_eq_false, if_false, hbh, hpp, hed, hsize]
    split_ifs <;> simp [NO_ERROR, EINVAL]
  · have hs2 : ¬ mComponentState = OMX_STATETYPE.OMX_StateExecuting := fun h => hs h.symm
    simp [hs, hs2, NO_INIT, NO_ERROR]

/-- An instance of claim C8: a well-formed buffer whose face-detection data declares size
96 where 100 is expected, component executing. -/
theorem detectFaces_faceData_size_mismatch_witness :
    detectFaces cameraHalFaceSpace sampleLayout OMX_STATETYPE.OMX_StateExecuting 0 ⟨true, true⟩
      (some ⟨some wrongSizePlatformPrivate⟩) none 640 480 = ⟨-EINVAL, none⟩ := by
  have h := detectFaces_faceData_size_mismatch cameraHalFaceSpace sampleLayout
    OMX_STATETYPE.OMX_StateExecuting 0 ⟨true, true⟩ ⟨some wrongSizePlatformPrivate⟩
    wrongSizePlatformPrivate ⟨some wrongSizeFaceData⟩ wrongSizeFaceData none 640 480
    rfl rfl rfl (by decide)
  have h1 := h.2.1
  have h2 := h.2.2.1 rfl
  revert h1 h2
  generalize detectFaces cameraHalFaceSpace sampleLayout OMX_STATETYPE.OMX_StateExecuting 0
    ⟨true, true⟩ (some ⟨some wrongSizePlatformPrivate⟩) none 640 480 = r
  intro h1 h2
  cases r
  simp_all

/-- Claim C9 (malformed frame metadata), evaluated where it fails. The component is
executing and the buffer is well formed except that the platform-private block declares
size 0 where 32 is expected. `detectFaces` notes the mismatch in its local status, goes
on, and returns the status of `encodeFaceCoordinates`: `NO_ERROR`, with a face result
(here with no faces) stored for the caller. -/
theorem detectFaces_platformPrivate_size_ignored :
    (sampleLayout.sizeofPlatformPrivate ≠ 0) ∧
    detectFaces cameraHalFaceSpace sampleLayout OMX_STATETYPE.OMX_StateExecuting 0
      ⟨true, true⟩ (some badPlatformPrivateBuffer) none 640 480 =
      ⟨NO_ERROR, some ⟨some { number_of_faces := 0, faces := none }⟩⟩ := by
  decide

/-- Claim C10 (no faces). For every preview width and height, every orientation and every
choice of the constants, `encodeFaceCoordinates` applied to face data with a face count of
zero returns `NO_ERROR` and stores a result with `number_of_faces = 0` and a null face
list, the allocation of the result record succeeding. -/
theorem encodeFaceCoordinates_no_faces (c : FaceSpace) (o : Int) (heap : Allocator)
    (fd : OMX_FACEDETECTIONTYPE) (pw ph : Nat)
    (hcount : fd.ulFaceCount = 0) (halloc : heap.faceResultOk = true) :
    encodeFaceCoordinates c o heap (some fd) pw ph =
      ⟨NO_ERROR, some { number_of_faces := 0, faces := none }⟩ := by
  simp [encodeFaceCoordinates, hcount, halloc]

/-- An instance of claim C10: no face in a 640 x 480 preview at orientation 180. -/
theorem encodeFaceCoordinates_no_faces_witness :
    encodeFaceCoordinates cameraHalFaceSpace 180 ⟨true, false⟩ (some noFaceData) 640 480 =
      ⟨NO_ERROR, some { number_of_faces := 0, faces := none }⟩ :=
  encodeFaceCoordinates_no_faces cameraHalFaceSpace 180 ⟨true, false⟩ noFaceData 640 480
    rfl rfl

/-! ## Autofocus controller: lemmas -/

theorem focusNotifications_append (a b : List FocusEffect) :
    focusNotifications (a ++ b) = focusNotifications a ++ focusNotifications b := by
  induction a with
  | nil => rfl
  | cons x xs ih => cases x <;> simp [focusNotifications, ih]

theorem setFocusCallback_effects (st : FocusState) (eError : Nat) (enabled : Bool) :
    (setFocusCallback st eError enabled).effects = [] ∨
    (setFocusCallback st eError enabled).effects =
      [FocusEffect.setConfigCallbackRequest enabled] := by
  unfold setFocusCallback
  cases enabled <;> simp only [] <;> split_ifs <;> simp_all

theorem updateFocusDistances_effects (st : FocusState) (env : StopFocusEnv) :
    ∀ e ∈ (updateFocusDistances st env).effects,
      e = FocusEffect.getConfigFocusDistance ∨ ∃ n o f, e = FocusEffect.setFocusDistances n o f := by
  unfold updateFocusDistances getFocusDistances addFocusDistances
  simp only []
  intro e he
  split_ifs at he <;> simp at he <;> aesop

/-- Every action of `stopAutoFocus` is one of: disarming the callback, writing focus off,
reading the focus distances, storing them in the parameters. -/
theorem stopAutoFocus_effects (conv : Nat → Int) (st : FocusState) (env : StopFocusEnv) :
    ∀ e ∈ (stopAutoFocus conv st env).effects,
      e = FocusEffect.setConfigCallbackRequest false ∨
      e = FocusEffect.setConfigFocusControl OMX_IMAGE_FOCUSCONTROLTYPE.OMX_IMAGE_FocusControlOff ∨
      e = FocusEffect.getConfigFocusDistance ∨
      ∃ n o f, e = FocusEffect.setFocusDistances n o f := by
  have hu := updateFocusDistances_effects st env
  have hc := setFocusCallback_effects st env.callbackError false
  unfold stopAutoFocus
  simp only []
  intro e he
  split_ifs at he
  · simp at he
  · simp at he
  · simp only [List.mem_append, List.mem_singleton] at he
    rcases he with he | he
    · rcases hc with hc | hc
      · rw [hc] at he; simp at he
      · rw [hc] at he; simp at he; exact Or.inl he
    · exact Or.inr (Or.inl he)
  · simp only [List.mem_append, List.mem_singleton] at he
    rcases he with (he | he) | he
    · rcases hc with hc | hc
      · rw [hc] at he; simp at he
      · rw [hc] at he; simp at he; exact Or.inl he
    · exact Or.inr (Or.inl he)
    · exact Or.inr (Or.inr (hu e he))
  · simp only [List.mem_append] at he
    rcases he with he | he
    · rcases hc with hc | hc
      · rw [hc] at he; simp at he
      · rw [hc] at he; simp at he; exact Or.inl he
    · exact Or.inr (Or.inr (hu e he))

theorem focusNotifications_eq_nil (l : List FocusEffect)
    (h : ∀ e ∈ l, ∀ b, e ≠ FocusEffect.notifyFocusSubscribers b) : focusNotifications l = [] := by
  induction l with
  | nil => rfl
  | cons x xs ih =>
    have hx := h x (List.mem_cons_self _ _)
    have hxs : ∀ e ∈ xs, ∀ b, e ≠ FocusEffect.notifyFocusSubscribers b :=
      fun e he => h e (List.mem_cons_of_mem _ he)
    cases x <;> simp_all [focusNotifications]

/-- `stopAutoFocus` notifies nobody. -/
theorem stopAutoFocus_quiet (conv : Nat → Int) (st : FocusState) (env : StopFocusEnv) :
    focusNotifications (stopAutoFocus conv st env).effects = [] := by
  apply focusNotifications_eq_nil
  intro e he b
  rcases stopAutoFocus_effects conv st env e he with h | h | h | ⟨n, o, f, h⟩ <;>
    rw [h] <;> exact FocusEffect.noConfusion

/-- No action of `stopAutoFocus` starts or runs a session. -/
theorem stopAutoFocus_steps (conv : Nat → Int) (st : FocusState) (env : StopFocusEnv) :
    ∀ e ∈ (stopAutoFocus conv st env).effects, e.isSessionStep = false := by
  intro e he
  rcases stopAutoFocus_effects conv st env e he with h | h | h | ⟨n, o, f, h⟩ <;>
    rw [h] <;> rfl

theorem cancelAutofocusState_effects (ad : AdapterEnv) :
    (cancelAutofocusState ad).2 =
      [FocusEffect.setStateCancelAutofocus, FocusEffect.commitState] ∨
    (cancelAutofocusState ad).2 =
      [FocusEffect.setStateCancelAutofocus, FocusEffect.rollbackState] := by
  unfold cancelAutofocusState
  split_ifs <;> simp

theorem cancelAutofocusState_ok (ad : AdapterEnv)
    (h : ad.setStateRet = NO_ERROR ∧ ad.commitStateRet = NO_ERROR) :
    cancelAutofocusState ad =
      (NO_ERROR, [FocusEffect.setStateCancelAutofocus, FocusEffect.commitState]) := by
  unfold cancelAutofocusState
  simp [h.1, h.2]

theorem checkFocus_ok (st : FocusState) (eError : Nat)
    (h : st.mComponentState = OMX_STATETYPE.OMX_StateExecuting ∧ eError = OMX_ErrorNone) :
    checkFocus st eError = ⟨NO_ERROR, [FocusEffect.getConfigFocusStatus]⟩ := by
  unfold checkFocus
  simp [h.1, h.2]

theorem checkFocus_not_executing (st : FocusState) (eError : Nat)
    (h : st.mComponentState ≠ OMX_STATETYPE.OMX_StateExecuting) :
    checkFocus st eError = ⟨-EINVAL, []⟩ := by
  have h2 : OMX_STATETYPE.OMX_StateExecuting ≠ st.mComponentState := fun e => h e.symm
  unfold checkFocus
  simp [h2, NO_ERROR, EINVAL]

/-- The value completion handling delivers: with autofocus active, the status query
succeeding unless the timeout was reached, and the transition succeeding, subscribers get
exactly one result. -/
theorem returnFocusStatus_delivers (conv : Nat → Int) (env : ReturnFocusEnv) (st : FocusState)
    (timeoutReached : Bool)
    (hactive : (AF_ACTIVE &&& env.adapter.state) = AF_ACTIVE)
    (hquery : timeoutReached = true ∨
      (st.mComponentState = OMX_STATETYPE.OMX_StateExecuting ∧
        env.focusStatusError = OMX_ErrorNone))
    (htrans : env.adapter.setStateRet = NO_ERROR ∧ env.adapter.commitStateRet = NO_ERROR) :
    (returnFocusStatus conv env st timeoutReached).ret = NO_ERROR ∧
    focusNotifications (returnFocusStatus conv env st timeoutReached).effects =
      [if timeoutReached = true then false
        else if st.Focus = OMX_IMAGE_FOCUSCONTROLTYPE.OMX_IMAGE_FocusControlAuto then true
        else decide (env.eFocusStatus = OMX_FOCUSSTATUSTYPE.OMX_FocusStatusReached)] := by
  have ht := cancelAutofocusState_ok env.adapter htrans
  have hs := stopAutoFocus_quiet conv st env.stop
  unfold returnFocusStatus
  simp only [hactive, ne_eq, not_true_eq_false, if_false, ht]
  cases timeoutReached with
  | true => simp [focusNotifications]
  | false =>
    have hq : st.mComponentState = OMX_STATETYPE.OMX_StateExecuting ∧
        env.focusStatusError = OMX_ErrorNone := by
      rcases hquery with h | h
      · exact absurd h (by simp)
      · exact h
    rw [checkFocus_ok st env.focusStatusError hq]
    by_cases hauto : st.Focus = OMX_IMAGE_FOCUSCONTROLTYPE.OMX_IMAGE_FocusControlAuto
    · simp [hauto, focusNotifications]
    · by_cases hr : env.eFocusStatus = OMX_FOCUSSTATUSTYPE.OMX_FocusStatusReached
      · simp [hauto, hr, focusNotifications, focusNotifications_append, hs]
      · simp [hauto, hr, focusNotifications, focusNotifications_append, hs]

/-- Completion handling with the component not executing: nothing if autofocus is not
active; otherwise the transition, a result of false if the transition succeeds, and the
end of the face-detection pause. No hardware call is made. -/
theorem returnFocusStatus_not_executing (conv : Nat → Int) (env : ReturnFocusEnv)
    (st : FocusState) (h : st.mComponentState ≠ OMX_STATETYPE.OMX_StateExecuting) :
    (returnFocusStatus conv env st false).effects =
      if (AF_ACTIVE &&& env.adapter.state) ≠ AF_ACTIVE then []
      else (cancelAutofocusState env.adapter).2 ++
        (if NO_ERROR = (cancelAutofocusState env.adapter).1
          then [FocusEffect.notifyFocusSubscribers false] else []) ++
        [FocusEffect.pauseFaceDetection false] := by
  unfold returnFocusStatus
  simp only [checkFocus_not_executing st env.focusStatusError h]
  by_cases hact : (AF_ACTIVE &&& env.adapter.state) ≠ AF_ACTIVE
  · simp [hact]
  · have hne : ¬ (NO_ERROR = -EINVAL) := by decide
    simp [hact, hne]

theorem stopAutoFocus_all (conv : Nat → Int) (st : FocusState) (env : StopFocusEnv) :
    (stopAutoFocus conv st env).effects.all (fun e => !e.isSessionStep) = true := by
  rw [List.all_eq_true]
  intro e he
  simp [stopAutoFocus_steps conv st env e he]

theorem cancelAutofocusState_all (ad : AdapterEnv) :
    (cancelAutofocusState ad).2.all (fun e => !e.isSessionStep) = true := by
  rcases cancelAutofocusState_effects ad with h | h <;> rw [h] <;> rfl

theorem checkFocus_all (st : FocusState) (eError : Nat) :
    (checkFocus st eError).effects.all (fun e => !e.isSessionStep) = true := by
  unfold checkFocus
  simp only []
  split_ifs <;> rfl

/-- Completion handling takes no step of a session. -/
theorem returnFocusStatus_steps (conv : Nat → Int) (env : ReturnFocusEnv) (st : FocusState)
    (timeoutReached : Bool) :
    ∀ e ∈ (returnFocusStatus conv env st timeoutReached).effects, e.isSessionStep = false := by
  have key : (returnFocusStatus conv env st timeoutReached).effects.all
      (fun e => !e.isSessionStep) = true := by
    have hs := stopAutoFocus_all conv st env.stop
    have ht := cancelAutofocusState_all env.adapter
    have hc := checkFocus_all st env.focusStatusError
    unfold returnFocusStatus
    simp only []
    split_ifs <;>
      simp only [List.all_append, List.all_cons, List.all_nil, Bool.and_true, Bool.true_and,
        hs, ht, hc, Bool.and_self] <;>
      rfl
  intro e he
  have := (List.all_eq_true.mp key) e he
  simpa using this

theorem setFocusCallback_executing (st : FocusState) (eError : Nat) (enabled : Bool)
    (h : st.mComponentState = OMX_STATETYPE.OMX_StateExecuting) :
    (setFocusCallback st eError enabled).effects =
      [FocusEffect.setConfigCallbackRequest enabled] := by
  unfold setFocusCallback
  cases enabled <;> simp only [] <;> split_ifs <;> simp_all

/-- No hardware call is made by completion handling when the component is not executing. -/
theorem returnFocusStatus_not_executing_soft (conv : Nat → Int) (env : ReturnFocusEnv)
    (st : FocusState) (h : st.mComponentState ≠ OMX_STATETYPE.OMX_StateExecuting) :
    ∀ e ∈ (returnFocusStatus conv env st false).effects, e.isHardwareConfig = false := by
  rw [returnFocusStatus_not_executing conv env st h]
  intro e he
  split_ifs at he with h1 h2
  · simp at he
  · rcases cancelAutofocusState_effects env.adapter with ht | ht <;> rw [ht] at he <;>
      simp at he <;> rcases he with he | he | he | he <;> rw [he] <;> rfl
  · rcases cancelAutofocusState_effects env.adapter with ht | ht <;> rw [ht] at he <;>
      simp at he <;> rcases he with he | he | he <;> rw [he] <;> rfl

/-- The run of `doAutoFocus` for a mode that waits for the completion event (any mode
other than continuous autofocus and infinity), from the executing state with no count on
the semaphore. -/
theorem doAutoFocus_waiting (conv : Nat → Int) (env : AutoFocusEnv) (st : FocusState)
    (hexec : st.mComponentState = OMX_STATETYPE.OMX_StateExecuting)
    (hcount : env.semCount = 0)
    (hmode : st.Focus ≠ OMX_IMAGE_FOCUSCONTROLTYPE.OMX_IMAGE_FocusControlAuto ∧
      st.Focus ≠ OMX_IMAGE_FOCUSCONTROLTYPE.OMX_IMAGE_FocusControlAutoInfinity) :
    doAutoFocus conv env st =
      if OMX_ErrorNone ≠ env.focusControlError then
        ⟨INVALID_OPERATION, st,
          [FocusEffect.pauseFaceDetection true, FocusEffect.registerForEvent] ++
          (if NO_ERROR = env.registerRet then [FocusEffect.setConfigCallbackRequest true]
            else []) ++
          [FocusEffect.setConfigFocusControl st.Focus]⟩
      else if env.waitRet ≠ NO_ERROR then
        ⟨env.waitRet, st,
          [FocusEffect.pauseFaceDetection true, FocusEffect.registerForEvent] ++
          (if NO_ERROR = env.registerRet then [FocusEffect.setConfigCallbackRequest true]
            else []) ++
          [FocusEffect.setConfigFocusControl st.Focus, FocusEffect.waitTimeout,
            FocusEffect.setConfigCallbackRequest false, FocusEffect.signalEvent] ++
          (returnFocusStatus conv env.completion st true).effects⟩
      else
        ⟨(returnFocusStatus conv env.completion st false).ret, st,
          [FocusEffect.pauseFaceDetection true, FocusEffect.registerForEvent] ++
          (if NO_ERROR = env.registerRet then [FocusEffect.setConfigCallbackRequest true]
            else []) ++
          [FocusEffect.setConfigFocusControl st.Focus, FocusEffect.waitTimeout,
            FocusEffect.setConfigCallbackRequest false] ++
          (returnFocusStatus conv env.completion st false).effects⟩ := by
  have ha := setFocusCallback_executing st env.armError true hexec
  have hd := setFocusCallback_executing st env.disarmError false hexec
  unfold doAutoFocus
  simp only [hexec, hcount, hmode.1, hmode.2, ha, hd, ne_eq, not_true_eq_false, if_false,
    decide_False, decide_True, false_and, and_self, not_false_eq_true, if_true,
    Bool.false_eq_true]
  by_cases hr : NO_ERROR = env.registerRet
  · simp only [if_pos hr, ha]
    by_cases hw : OMX_ErrorNone = env.focusControlError <;>
      by_cases ht : env.waitRet = NO_ERROR <;> simp [hw, ht]
  · simp only [if_neg hr]
    by_cases hw : OMX_ErrorNone = env.focusControlError <;>
      by_cases ht : env.waitRet = NO_ERROR <;> simp [hw, ht]

/-- The run of `doAutoFocus` for continuous autofocus and for infinity, from the executing
state with no count on the semaphore: no registration, no callback, no wait. -/
theorem doAutoFocus_immediate (conv : Nat → Int) (env : AutoFocusEnv) (st : FocusState)
    (hexec : st.mComponentState = OMX_STATETYPE.OMX_StateExecuting)
    (hcount : env.semCount = 0)
    (hmode : st.Focus = OMX_IMAGE_FOCUSCONTROLTYPE.OMX_IMAGE_FocusControlAuto ∨
      st.Focus = OMX_IMAGE_FOCUSCONTROLTYPE.OMX_IMAGE_FocusControlAutoInfinity) :
    doAutoFocus conv env st =
      if OMX_ErrorNone ≠ env.focusControlError then
        ⟨INVALID_OPERATION, st,
          [FocusEffect.pauseFaceDetection true, FocusEffect.setConfigFocusControl st.Focus]⟩
      else
        ⟨(returnFocusStatus conv env.completion st false).ret, st,
          [FocusEffect.pauseFaceDetection true, FocusEffect.setConfigFocusControl st.Focus] ++
          (returnFocusStatus conv env.completion st false).effects⟩ := by
  unfold doAutoFocus
  rcases hmode with hm | hm
  · simp only [hexec, hcount, hm, ne_eq, not_true_eq_false, if_false, decide_True,
      and_false, false_and, not_false_eq_true, if_true, Bool.false_eq_true, decide_False]
    by_cases hw : OMX_ErrorNone = env.focusControlError <;> simp [hw]
  · simp only [hexec, hcount, hm, ne_eq, not_true_eq_false, if_false, decide_True,
      and_false, false_and, not_false_eq_true, if_true, Bool.false_eq_true, decide_False]
    by_cases hw : OMX_ErrorNone = env.focusControlError <;> simp [hw]

/-- The run of `doAutoFocus` outside the executing state: completion handling, then
`NO_INIT`. -/
theorem doAutoFocus_not_executing (conv : Nat → Int) (env : AutoFocusEnv) (st : FocusState)
    (h : st.mComponentState ≠ OMX_STATETYPE.OMX_StateExecuting) :
    doAutoFocus conv env st =
      ⟨NO_INIT, st, (returnFocusStatus conv env.completion st false).effects⟩ := by
  have h2 : OMX_STATETYPE.OMX_StateExecuting ≠ st.mComponentState := fun e => h e.symm
  unfold doAutoFocus
  simp [h2]

/-- The run of `doAutoFocus` in the executing state with a count on the semaphore. -/
theorem doAutoFocus_awaiting (conv : Nat → Int) (env : AutoFocusEnv) (st : FocusState)
    (hexec : st.mComponentState = OMX_STATETYPE.OMX_StateExecuting)
    (hcount : env.semCount ≠ 0) :
    doAutoFocus conv env st = ⟨NO_INIT, st, []⟩ := by
  have h2 : ¬ (0 = env.semCount) := fun e => hcount e.symm
  unfold doAutoFocus
  simp [hexec, h2]

/-! ## Autofocus controller: claims -/

/-- Claim C11 (second start while a session is awaiting). Whenever the count of the
autofocus wait semaphore is nonzero, `doAutoFocus` returns `NO_INIT`, changes no member,
and performs none of: `pauseFaceDetection(true)`, `RegisterForEvent`, arming the callback
(`OMX_SetConfig` of the callback request with enable), writing a focus mode to hardware.
In the executing state it performs no action at all; outside it, the only actions are
those of the completion handling that the entry guard runs. -/
theorem doAutoFocus_rejects_while_awaiting (conv : Nat → Int) (env : AutoFocusEnv)
    (st : FocusState) (hcount : env.semCount ≠ 0) :
    (doAutoFocus conv env st).ret = NO_INIT ∧
    (doAutoFocus conv env st).st = st ∧
    FocusEffect.pauseFaceDetection true ∉ (doAutoFocus conv env st).effects ∧
    FocusEffect.registerForEvent ∉ (doAutoFocus conv env st).effects ∧
    FocusEffect.setConfigCallbackRequest true ∉ (doAutoFocus conv env st).effects ∧
    (∀ m, FocusEffect.setConfigFocusControl m ∉ (doAutoFocus conv env st).effects) ∧
    (st.mComponentState = OMX_STATETYPE.OMX_StateExecuting →
      (doAutoFocus conv env st).effects = []) := by
  by_cases hexec : st.mComponentState = OMX_STATETYPE.OMX_StateExecuting
  · rw [doAutoFocus_awaiting conv env st hexec hcount]
    simp
  · rw [doAutoFocus_not_executing conv env st hexec]
    have hs := returnFocusStatus_steps conv env.completion st false
    have hh := returnFocusStatus_not_executing_soft conv env.completion st hexec
    refine ⟨rfl, rfl, ?_, ?_, ?_, ?_, fun h => absurd h hexec⟩
    · intro hm
      exact absurd (hs _ hm) (by decide)
    · intro hm
      exact absurd (hs _ hm) (by decide)
    · intro hm
      exact absurd (hs _ hm) (by decide)
    · intro m hm
      exact absurd (hh _ hm) (by simp [FocusEffect.isHardwareConfig])

/-- An instance of claim C11: component executing, semaphore count 1. -/
theorem doAutoFocus_rejects_while_awaiting_witness :
    doAutoFocus sampleOmxToAndroidError
      { okSession OMX_FOCUSSTATUSTYPE.OMX_FocusStatusReached with semCount := 1 }
      (focusStateWith OMX_IMAGE_FOCUSCONTROLTYPE.OMX_IMAGE_FocusControlAutoLock) =
      ⟨NO_INIT, focusStateWith OMX_IMAGE_FOCUSCONTROLTYPE.OMX_IMAGE_FocusControlAutoLock, []⟩ := by
  have h := doAutoFocus_rejects_while_awaiting sampleOmxToAndroidError
    { okSession OMX_FOCUSSTATUSTYPE.OMX_FocusStatusReached with semCount := 1 }
    (focusStateWith OMX_IMAGE_FOCUSCONTROLTYPE.OMX_IMAGE_FocusControlAutoLock) (by decide)
  have h1 := h.1
  have h2 := h.2.1
  have h3 := h.2.2.2.2.2.2 rfl
  revert h1 h2 h3
  generalize doAutoFocus sampleOmxToAndroidError
    { okSession OMX_FOCUSSTATUSTYPE.OMX_FocusStatusReached with semCount := 1 }
    (focusStateWith OMX_IMAGE_FOCUSCONTROLTYPE.OMX_IMAGE_FocusControlAutoLock) = r
  intro h1 h2 h3
  cases r
  simp_all

/-- Claim C12 as stated fails. The component is in the loaded state and the adapter is in
the autofocus-active state: `doAutoFocus` returns `NO_INIT`, but before that its entry
guard runs the completion handling, which performs the cancel-autofocus state transition,
sends subscribers a focus result of false and ends the face-detection pause. -/
theorem doAutoFocus_not_executing_completes :
    loadedFocusState.mComponentState ≠ OMX_STATETYPE.OMX_StateExecuting ∧
    doAutoFocus sampleOmxToAndroidError (okSession OMX_FOCUSSTATUSTYPE.OMX_FocusStatusOff)
      loadedFocusState =
      ⟨NO_INIT, loadedFocusState,
        [FocusEffect.setStateCancelAutofocus, FocusEffect.commitState,
          FocusEffect.notifyFocusSubscribers false, FocusEffect.pauseFaceDetection false]⟩ := by
  decide

/-- Claim C12, amended. `doAutoFocus` called while the component is not in the executing
state returns `NO_INIT`, changes no member and attempts no hardware configuration read or
write. If the adapter is not autofocus-active it does nothing else. If the adapter is
autofocus-active it runs the completion handling of a failed focus: the cancel-autofocus
state transition, a focus result of false to subscribers when the transition succeeds,
and `pauseFaceDetection(false)`. -/
theorem doAutoFocus_rejects_not_executing (conv : Nat → Int) (env : AutoFocusEnv)
    (st : FocusState) (hstate : st.mComponentState ≠ OMX_STATETYPE.OMX_StateExecuting) :
    (doAutoFocus conv env st).ret = NO_INIT ∧
    (doAutoFocus conv env st).st = st ∧
    (∀ e ∈ (doAutoFocus conv env st).effects, e.isHardwareConfig = false) ∧
    ((AF_ACTIVE &&& env.completion.adapter.state) ≠ AF_ACTIVE →
      (doAutoFocus conv env st).effects = []) ∧
    ((AF_ACTIVE &&& env.completion.adapter.state) = AF_ACTIVE →
      (doAutoFocus conv env st).effects =
        (cancelAutofocusState env.completion.adapter).2 ++
        (if NO_ERROR = (cancelAutofocusState env.completion.adapter).1
          then [FocusEffect.notifyFocusSubscribers false] else []) ++
        [FocusEffect.pauseFaceDetection false]) := by
  rw [doAutoFocus_not_executing conv env st hstate]
  refine ⟨rfl, rfl, returnFocusStatus_not_executing_soft conv env.completion st hstate, ?_, ?_⟩
  · intro h
    simp only []
    rw [returnFocusStatus_not_executing conv env.completion st hstate, if_pos h]
  · intro h
    simp only []
    rw [returnFocusStatus_not_executing conv env.completion st hstate,
      if_neg (not_not.mpr h)]

/-- An instance of amended claim C12: component loaded, adapter not autofocus-active;
nothing happens. -/
theorem doAutoFocus_rejects_not_executing_witness :
    doAutoFocus sampleOmxToAndroidError
      { okSession OMX_FOCUSSTATUSTYPE.OMX_FocusStatusOff with
        completion := idleCompletion OMX_FOCUSSTATUSTYPE.OMX_FocusStatusOff }
      loadedFocusState = ⟨NO_INIT, loadedFocusState, []⟩ := by
  have h := doAutoFocus_rejects_not_executing sampleOmxToAndroidError
    { okSession OMX_FOCUSSTATUSTYPE.OMX_FocusStatusOff with
      completion := idleCompletion OMX_FOCUSSTATUSTYPE.OMX_FocusStatusOff }
    loadedFocusState (by decide)
  have h1 := h.1
  have h2 := h.2.1
  have h3 := h.2.2.2.1 (by decide)
  revert h1 h2 h3
  generalize doAutoFocus sampleOmxToAndroidError
    { okSession OMX_FOCUSSTATUSTYPE.OMX_FocusStatusOff with
      completion := idleCompletion OMX_FOCUSSTATUSTYPE.OMX_FocusStatusOff }
    loadedFocusState = r
  intro h1 h2 h3
  cases r
  simp_all

/-- `doAutoFocus` leaves every member as it was. -/
theorem doAutoFocus_members (conv : Nat → Int) (env : AutoFocusEnv) (st : FocusState) :
    (doAutoFocus conv env st).st = st := by
  by_cases hexec : st.mComponentState = OMX_STATETYPE.OMX_StateExecuting
  · by_cases hcount : env.semCount = 0
    · by_cases hmode : st.Focus = OMX_IMAGE_FOCUSCONTROLTYPE.OMX_IMAGE_FocusControlAuto ∨
          st.Focus = OMX_IMAGE_FOCUSCONTROLTYPE.OMX_IMAGE_FocusControlAutoInfinity
      · rw [doAutoFocus_immediate conv env st hexec hcount hmode]
        split_ifs <;> rfl
      · rw [doAutoFocus_waiting conv env st hexec hcount (not_or.mp hmode)]
        split_ifs <;> rfl
    · rw [doAutoFocus_awaiting conv env st hexec hcount]
  · rw [doAutoFocus_not_executing conv env st hexec]

/-- Claim C14, evaluated where it fails. Auto-lock mode, every hardware call succeeds, the
adapter is autofocus-active, the transition succeeds, and `WaitTimeout` returns -1 for a
timeout. `doAutoFocus` delivers a focus result of false and then returns the status of
`WaitTimeout`, -1, not `NO_ERROR`: the status of `returnFocusStatus(true)` is not assigned
to `ret`, as it is for `returnFocusStatus(false)` on the path where the event arrives. -/
theorem doAutoFocus_timeout_returns_error :
    doAutoFocus sampleOmxToAndroidError timedOutSession
      (focusStateWith OMX_IMAGE_FOCUSCONTROLTYPE.OMX_IMAGE_FocusControlAutoLock) =
      ⟨-1, focusStateWith OMX_IMAGE_FOCUSCONTROLTYPE.OMX_IMAGE_FocusControlAutoLock,
        [FocusEffect.pauseFaceDetection true, FocusEffect.registerForEvent,
          FocusEffect.setConfigCallbackRequest true,
          FocusEffect.setConfigFocusControl
            OMX_IMAGE_FOCUSCONTROLTYPE.OMX_IMAGE_FocusControlAutoLock,
          FocusEffect.waitTimeout, FocusEffect.setConfigCallbackRequest false,
          FocusEffect.signalEvent, FocusEffect.setStateCancelAutofocus,
          FocusEffect.commitState, FocusEffect.notifyFocusSubscribers false,
          FocusEffect.pauseFaceDetection false]⟩ ∧
    (-1 : Int) ≠ NO_ERROR ∧
    (returnFocusStatus sampleOmxToAndroidError timedOutSession.completion
      (focusStateWith OMX_IMAGE_FOCUSCONTROLTYPE.OMX_IMAGE_FocusControlAutoLock) true).ret
      = NO_ERROR := by
  decide

/-- Claim C15 (focus result mapping). When `returnFocusStatus` runs with autofocus active,
the hardware status query succeeding (it is made only when the timeout was not reached)
and the state transition succeeding, it returns `NO_ERROR` and delivers exactly one value
to subscribers: false if the timeout was reached; otherwise true if the persistent focus
mode is continuous autofocus; otherwise true if and only if the hardware focus status is
`OMX_FocusStatusReached` (off, unable-to-reach, request and every unrecognized value give
false). The result of `set3ALock(OMX_TRUE)` has no influence on what is delivered. -/
theorem returnFocusStatus_mapping (conv : Nat → Int) (env : ReturnFocusEnv) (st : FocusState)
    (timeoutReached : Bool)
    (hactive : (AF_ACTIVE &&& env.adapter.state) = AF_ACTIVE)
    (hquery : timeoutReached = true ∨
      (st.mComponentState = OMX_STATETYPE.OMX_StateExecuting ∧
        env.focusStatusError = OMX_ErrorNone))
    (htrans : env.adapter.setStateRet = NO_ERROR ∧ env.adapter.commitStateRet = NO_ERROR) :
    (returnFocusStatus conv env st timeoutReached).ret = NO_ERROR ∧
    focusNotifications (returnFocusStatus conv env st timeoutReached).effects =
      [if timeoutReached = true then false
        else if st.Focus = OMX_IMAGE_FOCUSCONTROLTYPE.OMX_IMAGE_FocusControlAuto then true
        else decide (env.eFocusStatus = OMX_FOCUSSTATUSTYPE.OMX_FocusStatusReached)] ∧
    ∀ lockRet : Int,
      returnFocusStatus conv { env with lockRet := lockRet } st timeoutReached =
        returnFocusStatus conv env st timeoutReached :=
  ⟨(returnFocusStatus_delivers conv env st timeoutReached hactive hquery htrans).1,
    (returnFocusStatus_delivers conv env st timeoutReached hactive hquery htrans).2,
    fun _ => rfl⟩

/-- An instance of claim C15: macro mode (an `other` mode), the hardware reports
unable-to-reach, no timeout; the value delivered is false. -/
theorem returnFocusStatus_mapping_witness :
    focusNotifications
      (returnFocusStatus sampleOmxToAndroidError
        (okCompletion OMX_FOCUSSTATUSTYPE.OMX_FocusStatusUnableToReach)
        (focusStateWith (OMX_IMAGE_FOCUSCONTROLTYPE.other 0x7F000001)) false).effects
      = [false] :=
  (returnFocusStatus_mapping sampleOmxToAndroidError
    (okCompletion OMX_FOCUSSTATUSTYPE.OMX_FocusStatusUnableToReach)
    (focusStateWith (OMX_IMAGE_FOCUSCONTROLTYPE.other 0x7F000001)) false
    (by decide) (Or.inr (by decide)) (by decide)).2.1.trans (by decide)

/-- Claim C16 (late or residual completion events). When the adapter state does not have
the autofocus-active flag, `returnFocusStatus`, for either value of its timeout argument,
returns `NO_ERROR` and performs no action: no notification, no state transition, no
hardware call, no change of the 3A lock, no change of the face-detection pause. -/
theorem returnFocusStatus_ignores_when_idle (conv : Nat → Int) (env : ReturnFocusEnv)
    (st : FocusState) (timeoutReached : Bool)
    (hidle : (AF_ACTIVE &&& env.adapter.state) ≠ AF_ACTIVE) :
    returnFocusStatus conv env st timeoutReached = ⟨NO_ERROR, []⟩ := by
  unfold returnFocusStatus
  simp [hidle]

/-- An instance of claim C16: a timeout reported while the adapter is idle. -/
theorem returnFocusStatus_ignores_when_idle_witness :
    returnFocusStatus sampleOmxToAndroidError
      (idleCompletion OMX_FOCUSSTATUSTYPE.OMX_FocusStatusReached)
      (focusStateWith OMX_IMAGE_FOCUSCONTROLTYPE.OMX_IMAGE_FocusControlAutoLock) true
      = ⟨NO_ERROR, []⟩ :=
  returnFocusStatus_ignores_when_idle sampleOmxToAndroidError
    (idleCompletion OMX_FOCUSSTATUSTYPE.OMX_FocusStatusReached)
    (focusStateWith OMX_IMAGE_FOCUSCONTROLTYPE.OMX_IMAGE_FocusControlAutoLock) true
    (by decide)

/-- Claim C17, evaluated where it fails. Auto-lock mode, component executing, no count on
the semaphore; registration and arming succeed, then the hardware rejects the focus-mode
write. `doAutoFocus` returns `INVALID_OPERATION` at once: the callback was armed and no
disarm request follows (nor is the face-detection pause ended). -/
theorem doAutoFocus_rejected_write_leaves_callback_armed :
    doAutoFocus sampleOmxToAndroidError rejectedSession
      (focusStateWith OMX_IMAGE_FOCUSCONTROLTYPE.OMX_IMAGE_FocusControlAutoLock) =
      ⟨INVALID_OPERATION,
        focusStateWith OMX_IMAGE_FOCUSCONTROLTYPE.OMX_IMAGE_FocusControlAutoLock,
        [FocusEffect.pauseFaceDetection true, FocusEffect.registerForEvent,
          FocusEffect.setConfigCallbackRequest true,
          FocusEffect.setConfigFocusControl
            OMX_IMAGE_FOCUSCONTROLTYPE.OMX_IMAGE_FocusControlAutoLock]⟩ ∧
    FocusEffect.setConfigCallbackRequest true ∈
      (doAutoFocus sampleOmxToAndroidError rejectedSession
        (focusStateWith OMX_IMAGE_FOCUSCONTROLTYPE.OMX_IMAGE_FocusControlAutoLock)).effects ∧
    FocusEffect.setConfigCallbackRequest false ∉
      (doAutoFocus sampleOmxToAndroidError rejectedSession
        (focusStateWith OMX_IMAGE_FOCUSCONTROLTYPE.OMX_IMAGE_FocusControlAutoLock)).effects := by
  decide

/-- Claim C18 as stated fails for infinity. Infinity mode, the focus-mode write succeeds,
the adapter is autofocus-active, the status query and the transition succeed, and the
hardware reports `OMX_FocusStatusOff`: subscribers are notified with false. It also fails
in continuous autofocus when the status query itself fails: the result is then false. -/
theorem doAutoFocus_infinity_reports_hardware_status :
    doAutoFocus sampleOmxToAndroidError (okSession OMX_FOCUSSTATUSTYPE.OMX_FocusStatusOff)
      (focusStateWith OMX_IMAGE_FOCUSCONTROLTYPE.OMX_IMAGE_FocusControlAutoInfinity) =
      ⟨NO_ERROR, focusStateWith OMX_IMAGE_FOCUSCONTROLTYPE.OMX_IMAGE_FocusControlAutoInfinity,
        [FocusEffect.pauseFaceDetection true,
          FocusEffect.setConfigFocusControl
            OMX_IMAGE_FOCUSCONTROLTYPE.OMX_IMAGE_FocusControlAutoInfinity,
          FocusEffect.getConfigFocusStatus, FocusEffect.setStateCancelAutofocus,
          FocusEffect.commitState, FocusEffect.notifyFocusSubscribers false,
          FocusEffect.pauseFaceDetection false]⟩ ∧
    focusNotifications
      (doAutoFocus sampleOmxToAndroidError (okSession OMX_FOCUSSTATUSTYPE.OMX_FocusStatusOff)
        (focusStateWith OMX_IMAGE_FOCUSCONTROLTYPE.OMX_IMAGE_FocusControlAutoInfinity)).effects
      = [false] ∧
    focusNotifications
      (doAutoFocus sampleOmxToAndroidError
        { okSession OMX_FOCUSSTATUSTYPE.OMX_FocusStatusReached with
          completion :=
            { okCompletion OMX_FOCUSSTATUSTYPE.OMX_FocusStatusReached with
              focusStatusError := 0x80001001 } }
        (focusStateWith OMX_IMAGE_FOCUSCONTROLTYPE.OMX_IMAGE_FocusControlAuto)).effects
      = [false] := by
  decide

/-- Claim C18, amended. When the focus mode is continuous autofocus or infinity,
`doAutoFocus` registers for no event, arms no completion callback and enters no wait.
When moreover the component is executing, the semaphore count is zero, the focus-mode
write and the status query succeed, autofocus is active and the state transition
succeeds, subscribers get exactly one focus result: in continuous autofocus it is true
whatever status the hardware reports; in infinity mode it is true if and only if the
hardware reports `OMX_FocusStatusReached`. -/
theorem doAutoFocus_immediate_result (conv : Nat → Int) (env : AutoFocusEnv) (st : FocusState)
    (hmode : st.Focus = OMX_IMAGE_FOCUSCONTROLTYPE.OMX_IMAGE_FocusControlAuto ∨
      st.Focus = OMX_IMAGE_FOCUSCONTROLTYPE.OMX_IMAGE_FocusControlAutoInfinity) :
    FocusEffect.registerForEvent ∉ (doAutoFocus conv env st).effects ∧
    FocusEffect.setConfigCallbackRequest true ∉ (doAutoFocus conv env st).effects ∧
    FocusEffect.waitTimeout ∉ (doAutoFocus conv env st).effects ∧
    (st.mComponentState = OMX_STATETYPE.OMX_StateExecuting → env.semCount = 0 →
      env.focusControlError = OMX_ErrorNone →
      env.completion.focusStatusError = OMX_ErrorNone →
      (AF_ACTIVE &&& env.completion.adapter.state) = AF_ACTIVE →
      (env.completion.adapter.setStateRet = NO_ERROR ∧
        env.completion.adapter.commitStateRet = NO_ERROR) →
      focusNotifications (doAutoFocus conv env st).effects =
        [if st.Focus = OMX_IMAGE_FOCUSCONTROLTYPE.OMX_IMAGE_FocusControlAuto then true
          else decide
            (env.completion.eFocusStatus = OMX_FOCUSSTATUSTYPE.OMX_FocusStatusReached)]) := by
  have hs := returnFocusStatus_steps conv env.completion st false
  have hsession : ∀ e ∈ (doAutoFocus conv env st).effects,
      e = FocusEffect.pauseFaceDetection true ∨ e = FocusEffect.setConfigFocusControl st.Focus ∨
      e.isSessionStep = false := by
    intro e he
    by_cases hexec : st.mComponentState = OMX_STATETYPE.OMX_StateExecuting
    · by_cases hcount : env.semCount = 0
      · rw [doAutoFocus_immediate conv env st hexec hcount hmode] at he
        split_ifs at he
        · simp only [List.mem_cons, List.mem_singleton, List.not_mem_nil, or_false] at he
          rcases he with h | h
          · exact Or.inl h
          · exact Or.inr (Or.inl h)
        · simp only [List.mem_append, List.mem_cons, List.mem_singleton, List.not_mem_nil,
            or_false] at he
          rcases he with (h | h) | h
          · exact Or.inl h
          · exact Or.inr (Or.inl h)
          · exact Or.inr (Or.inr (hs e h))
      · rw [doAutoFocus_awaiting conv env st hexec hcount] at he
        simp at he
    · rw [doAutoFocus_not_executing conv env st hexec] at he
      exact Or.inr (Or.inr (hs e he))
  refine ⟨?_, ?_, ?_, ?_⟩
  · intro hm
    rcases hsession _ hm with h | h | h
    · exact FocusEffect.noConfusion h
    · exact FocusEffect.noConfusion h
    · exact absurd h (by decide)
  · intro hm
    rcases hsession _ hm with h | h | h
    · exact absurd h (by decide)
    · exact FocusEffect.noConfusion h
    · exact absurd h (by decide)
  · intro hm
    rcases hsession _ hm with h | h | h
    · exact FocusEffect.noConfusion h
    · exact FocusEffect.noConfusion h
    · exact absurd h (by decide)
  · intro hexec hcount hwrite hquery hactive htrans
    have hd := (returnFocusStatus_delivers conv env.completion st false hactive
      (Or.inr ⟨hexec, hquery⟩) htrans).2
    rw [doAutoFocus_immediate conv env st hexec hcount hmode,
      if_neg (not_not.mpr hwrite.symm)]
    simp only [focusNotifications_append, hd]
    simp [focusNotifications]

/-- An instance of amended claim C18: continuous autofocus while the hardware reports
`OMX_FocusStatusOff`; subscribers are notified with true. -/
theorem doAutoFocus_immediate_result_witness :
    focusNotifications
      (doAutoFocus sampleOmxToAndroidError (okSession OMX_FOCUSSTATUSTYPE.OMX_FocusStatusOff)
        (focusStateWith OMX_IMAGE_FOCUSCONTROLTYPE.OMX_IMAGE_FocusControlAuto)).effects
      = [true] :=
  ((doAutoFocus_immediate_result sampleOmxToAndroidError
    (okSession OMX_FOCUSSTATUSTYPE.OMX_FocusStatusOff)
    (focusStateWith OMX_IMAGE_FOCUSCONTROLTYPE.OMX_IMAGE_FocusControlAuto)
    (Or.inl rfl)).2.2.2 (by decide) (by decide) (by decide) (by decide) (by decide)
    (by decide)).trans (by decide)

/-- Claim C19 (the 3A unlock of a cancellation). The first action of `cancelAutoFocus` is
always `set3ALock(OMX_FALSE)`, and its result is not propagated: two runs that differ only
in what the unlock returned give the same status and the same actions. -/
theorem cancelAutoFocus_unlock_not_propagated (conv : Nat → Int) (env : CancelFocusEnv)
    (st : FocusState) (r1 r2 : Int) :
    (cancelAutoFocus conv env st).effects.head? = some (FocusEffect.set3ALock false) ∧
    cancelAutoFocus conv { env with unlockRet := r1 } st =
      cancelAutoFocus conv { env with unlockRet := r2 } st := by
  refine ⟨?_, rfl⟩
  unfold cancelAutoFocus
  simp only []
  split_ifs <;> rfl

/-- Claim C20, evaluated where it fails. When the focus mode query of `cancelAutoFocus`
fails (here `OMX_GetConfig` returns an error; likewise when the component is in the
invalid state), the function returns the error at once: `pauseFaceDetection(false)` is
never called. -/
theorem cancelAutoFocus_early_return_keeps_pause :
    cancelAutoFocus sampleOmxToAndroidError
      { okCancel OMX_IMAGE_FOCUSCONTROLTYPE.OMX_IMAGE_FocusControlAutoLock with
        focusModeError := 0x80001001 }
      (focusStateWith OMX_IMAGE_FOCUSCONTROLTYPE.OMX_IMAGE_FocusControlAutoLock) =
      ⟨UNKNOWN_ERROR, [FocusEffect.set3ALock false, FocusEffect.getConfigFocusControl]⟩ ∧
    cancelAutoFocus sampleOmxToAndroidError
      (okCancel OMX_IMAGE_FOCUSCONTROLTYPE.OMX_IMAGE_FocusControlAutoLock)
      { focusStateWith OMX_IMAGE_FOCUSCONTROLTYPE.OMX_IMAGE_FocusControlAutoLock with
        mComponentState := OMX_STATETYPE.OMX_StateInvalid } =
      ⟨NO_INIT, [FocusEffect.set3ALock false]⟩ ∧
    FocusEffect.pauseFaceDetection false ∉
      (cancelAutoFocus sampleOmxToAndroidError
        { okCancel OMX_IMAGE_FOCUSCONTROLTYPE.OMX_IMAGE_FocusControlAutoLock with
          focusModeError := 0x80001001 }
        (focusStateWith OMX_IMAGE_FOCUSCONTROLTYPE.OMX_IMAGE_FocusControlAutoLock)).effects := by
  decide

/-! ## Zoom controller: the outcomes of `doZoom` -/

/-- A request for the stage recorded in `prevIndex` is skipped. -/
theorem doZoom_skip (hw : OMXPort) (z : ZoomState) (i : Int) (h : z.prevIndex = i) :
    doZoom hw z i = ⟨NO_ERROR, z, []⟩ := by
  unfold doZoom
  simp [h]

/-- A write that the hardware rejects: status -1, nothing recorded. -/
theorem doZoom_rejected (hw : OMXPort) (z : ZoomState) (i : Int) (hne : z.prevIndex ≠ i)
    (hv : hw.mComponentState ≠ OMX_STATETYPE.OMX_StateInvalid)
    (hi : 0 ≤ i ∧ i ≤ ZOOM_STAGES - 1) (hrej : OMX_ErrorNone ≠ hw.eError) :
    doZoom hw z i = ⟨-1, z, [ZoomEffect.setConfigDigitalZoom (ZOOM_STEPS.getD i.toNat 0)
      (ZOOM_STEPS.getD i.toNat 0)]⟩ := by
  have hrange : ¬ (0 > i ∨ ZOOM_STAGES - 1 < i) := by
    have := hi.1
    have := hi.2
    omega
  unfold doZoom
  simp only [hne, hv, hrange, if_false, if_true, hrej, ne_eq, not_false_eq_true]

/-- A write that the hardware accepts: status `NO_ERROR`, the stage recorded. -/
theorem doZoom_applied (hw : OMXPort) (z : ZoomState) (i : Int) (hne : z.prevIndex ≠ i)
    (hv : hw.mComponentState ≠ OMX_STATETYPE.OMX_StateInvalid)
    (hi : 0 ≤ i ∧ i ≤ ZOOM_STAGES - 1) (hok : hw.eError = OMX_ErrorNone) :
    doZoom hw z i = ⟨NO_ERROR, { z with prevIndex := i },
      [ZoomEffect.setConfigDigitalZoom (ZOOM_STEPS.getD i.toNat 0)
        (ZOOM_STEPS.getD i.toNat 0)]⟩ := by
  have hrange : ¬ (0 > i ∨ ZOOM_STAGES - 1 < i) := by
    have := hi.1
    have := hi.2
    omega
  unfold doZoom
  simp [hne, hv, hrange, hok]

/-- The only path of `doZoom` that writes is the one past all three guards. -/
theorem doZoom_writes (hw : OMXPort) (z : ZoomState) (i : Int)
    (h : zoomWrites (doZoom hw z i).effects ≠ []) :
    z.prevIndex ≠ i ∧ hw.mComponentState ≠ OMX_STATETYPE.OMX_StateInvalid ∧
    0 ≤ i ∧ i ≤ ZOOM_STAGES - 1 := by
  by_cases h1 : z.prevIndex = i
  · rw [doZoom_skip hw z i h1] at h
    exact absurd rfl h
  · by_cases h2 : 0 > i ∨ ZOOM_STAGES - 1 < i
    · have hne : ¬ (NO_ERROR = -EINVAL) := by decide
      unfold doZoom at h
      simp only [h1, h2, hne, if_true, if_false] at h
      exact absurd rfl h
    · by_cases h3 : hw.mComponentState = OMX_STATETYPE.OMX_StateInvalid
      · have hne : ¬ (NO_ERROR = (-1 : Int)) := by decide
        unfold doZoom at h
        simp only [h1, h2, h3, hne, if_true, if_false] at h
        exact absurd rfl h
      · refine ⟨h1, h3, ?_, ?_⟩ <;> omega

/-- The actions of `doZoom`: none, or one write of the table entry of a stage in range. -/
theorem doZoom_effects (hw : OMXPort) (z : ZoomState) (i : Int) :
    (doZoom hw z i).effects = [] ∨
    ((0 ≤ i ∧ i ≤ ZOOM_STAGES - 1) ∧
      (doZoom hw z i).effects = [ZoomEffect.setConfigDigitalZoom (ZOOM_STEPS.getD i.toNat 0)
        (ZOOM_STEPS.getD i.toNat 0)]) := by
  by_cases hw0 : zoomWrites (doZoom hw z i).effects = []
  · left
    revert hw0
    unfold doZoom
    simp only []
    split_ifs <;> simp [zoomWrites]
  · right
    obtain ⟨h1, h2, h3, h4⟩ := doZoom_writes hw z i hw0
    refine ⟨⟨h3, h4⟩, ?_⟩
    by_cases hrej : OMX_ErrorNone ≠ hw.eError
    · rw [doZoom_rejected hw z i h1 h2 ⟨h3, h4⟩ hrej]
    · rw [doZoom_applied hw z i h1 h2 ⟨h3, h4⟩ (not_not.mp hrej).symm]

/-! ## Zoom controller: claims on status reporting and the stage table -/

/-- `setParametersZoom` called with a stage outside `[0, ZOOM_STAGES - 1]` returns
`NO_ERROR`, leaves every zoom member unchanged (among them `mCurrentZoomIdx` and
`mTargetZoomIdx`) and performs no hardware write or other action, whether or not a smooth
zoom is active. -/
theorem setParametersZoom_ignores_out_of_range (hw : OMXPort) (zoom : Int) (state : Nat)
    (z : ZoomState) (h : ¬ (0 ≤ zoom ∧ zoom ≤ ZOOM_STAGES - 1)) :
    setParametersZoom hw zoom state z = ⟨NO_ERROR, z, []⟩ := by
  have hr : ¬ (zoom ≥ 0 ∧ zoom < ZOOM_STAGES) := by
    intro hc
    apply h
    have := hc.1
    have := hc.2
    unfold ZOOM_STAGES at *
    constructor <;> omega
  unfold setParametersZoom
  simp only [hr, if_false]
  split_ifs <;> rfl

/-- Claim C22 (immediate zoom range validation), evaluated where it fails. With no smooth
zoom active, `setParametersZoom` is called with stage 31 and with stage -1, both outside
`[0, ZOOM_STAGES - 1]`. It leaves `mCurrentZoomIdx`, `mTargetZoomIdx` and the hardware
untouched, as the claim says, but it returns `NO_ERROR`: the caller is not told that the
stage was rejected. The range test of `setParametersZoom` has no `else` branch, where the
same test in `startSmoothZoom` sets `ret = -EINVAL`, and `doZoom` sets `ret = -EINVAL` for
the same stages; for every stage outside the range and every state, `setParametersZoom`
returns `NO_ERROR` and `startSmoothZoom` returns `-EINVAL`. -/
theorem setParametersZoom_out_of_range_returns_success :
    (ZOOM_ACTIVE &&& 0) ≠ ZOOM_ACTIVE ∧
    ¬ ((0 : Int) ≤ 31 ∧ (31 : Int) ≤ ZOOM_STAGES - 1) ∧
    setParametersZoom sampleHw 31 0 (initialZoomState 1 0) =
      ⟨NO_ERROR, initialZoomState 1 0, []⟩ ∧
    ¬ ((0 : Int) ≤ -1 ∧ (-1 : Int) ≤ ZOOM_STAGES - 1) ∧
    setParametersZoom sampleHw (-1) 0 (initialZoomState 1 0) =
      ⟨NO_ERROR, initialZoomState 1 0, []⟩ ∧
    (startSmoothZoom 31 (initialZoomState 1 0)).ret = -EINVAL ∧
    (startSmoothZoom (-1) (initialZoomState 1 0)).ret = -EINVAL ∧
    (doZoom sampleHw (initialZoomState 1 0) 31).ret = -EINVAL ∧
    (doZoom sampleHw (initialZoomState 1 0) (-1)).ret = -EINVAL ∧
    ∀ (hw : OMXPort) (zoom : Int) (state : Nat) (z : ZoomState),
      ¬ (0 ≤ zoom ∧ zoom ≤ ZOOM_STAGES - 1) →
      (setParametersZoom hw zoom state z).ret = NO_ERROR ∧
      (startSmoothZoom zoom z).ret = -EINVAL := by
  refine ⟨by decide, by decide, by decide, by decide, by decide, by decide, by decide,
    by decide, by decide, ?_⟩
  intro hw zoom state z h
  constructor
  · rw [setParametersZoom_ignores_out_of_range hw zoom state z h]
  · have hr : ¬ (zoom ≥ 0 ∧ zoom < ZOOM_STAGES) := by
      intro hc
      apply h
      have := hc.1
      have := hc.2
      unfold ZOOM_STAGES at *
      constructor <;> omega
    unfold startSmoothZoom
    rw [if_neg hr]

/-- Claim C23 (immediate zoom reports hardware failure), evaluated where it fails. In the
initial state with no smooth zoom active, stage 7 is requested from a component that is
executing and rejects the zoom write. `doZoom` attempts the write of `ZOOM_STEPS[7]` and
returns -1; `setParametersZoom` discards that status and returns `NO_ERROR`, with
`mCurrentZoomIdx = mTargetZoomIdx = 7` and `prevIndex` still 0. No input makes
`setParametersZoom` return anything but `NO_ERROR`. -/
theorem setParametersZoom_drops_hardware_failure :
    (doZoom rejectingHw
      { initialZoomState 1 0 with mTargetZoomIdx := 7, mCurrentZoomIdx := 7 } 7).ret = -1 ∧
    setParametersZoom rejectingHw 7 0 (initialZoomState 1 0) =
      ⟨NO_ERROR,
        { mCurrentZoomIdx := 7, mTargetZoomIdx := 7, mZoomInc := 1,
          mReturnZoomStatus := false, mZoomParameterIdx := 0, prevIndex := 0 },
        [ZoomEffect.setConfigDigitalZoom 106168 106168]⟩ ∧
    ∀ (hw : OMXPort) (zoom : Int) (state : Nat) (z : ZoomState),
      (setParametersZoom hw zoom state z).ret = NO_ERROR := by
  refine ⟨by decide, by decide, ?_⟩
  intro hw zoom state z
  unfold setParametersZoom
  split_ifs <;> rfl

/-- Claim C25 (`startSmoothZoom`). For every target `t` in `[0, ZOOM_STAGES - 1]`,
`startSmoothZoom t` returns `NO_ERROR`, sets `mTargetZoomIdx = t` and
`mZoomParameterIdx = mCurrentZoomIdx`, clears the pending-stop flag and leaves
`mCurrentZoomIdx` (and the increment and `prevIndex`) unchanged, with no action on the
hardware or subscribers. For every `t` outside that range it returns `-EINVAL` and changes
no zoom member. -/
theorem startSmoothZoom_validates (t : Int) (z : ZoomState) :
    (0 ≤ t ∧ t ≤ ZOOM_STAGES - 1 →
      startSmoothZoom t z =
        ⟨NO_ERROR,
          { mCurrentZoomIdx := z.mCurrentZoomIdx, mTargetZoomIdx := t, mZoomInc := z.mZoomInc,
            mReturnZoomStatus := false, mZoomParameterIdx := z.mCurrentZoomIdx,
            prevIndex := z.prevIndex }, []⟩) ∧
    (¬ (0 ≤ t ∧ t ≤ ZOOM_STAGES - 1) → startSmoothZoom t z = ⟨-EINVAL, z, []⟩) := by
  constructor
  · intro h
    have hr : t ≥ 0 ∧ t < ZOOM_STAGES := by
      have := h.1
      have := h.2
      unfold ZOOM_STAGES at *
      constructor <;> omega
    unfold startSmoothZoom
    simp only [hr, and_self, if_true]
  · intro h
    have hr : ¬ (t ≥ 0 ∧ t < ZOOM_STAGES) := by
      intro hc
      apply h
      have := hc.1
      have := hc.2
      unfold ZOOM_STAGES at *
      constructor <;> omega
    unfold startSmoothZoom
    simp only [hr, if_false]

/-- Instances of claim C25: from a state at stage 3 with a stop pending, target 5 is
accepted and target 31 is rejected. -/
theorem startSmoothZoom_validates_witness :
    ((0 : Int) ≤ 5 ∧ (5 : Int) ≤ ZOOM_STAGES - 1) ∧
    startSmoothZoom 5 ⟨3, 9, -1, true, 0, 3⟩ = ⟨NO_ERROR, ⟨3, 5, -1, false, 3, 3⟩, []⟩ ∧
    ¬ ((0 : Int) ≤ 31 ∧ (31 : Int) ≤ ZOOM_STAGES - 1) ∧
    startSmoothZoom 31 ⟨3, 9, -1, true, 0, 3⟩ = ⟨-EINVAL, ⟨3, 9, -1, true, 0, 3⟩, []⟩ :=
  ⟨by decide, (startSmoothZoom_validates 5 ⟨3, 9, -1, true, 0, 3⟩).1 (by decide),
    by decide, (startSmoothZoom_validates 31 ⟨3, 9, -1, true, 0, 3⟩).2 (by decide)⟩

/-- Claim C26 (`doZoom` is idempotent). A request for the stage recorded as last written
(`prevIndex`) writes nothing, returns `NO_ERROR` and changes nothing, whatever the
hardware would answer. Hence, for every stage `i` in `[0, ZOOM_STAGES - 1]` and a
component that is not invalid and accepts zoom writes, the first `doZoom i` returns
`NO_ERROR`, performs at most one write and leaves `i` recorded, and a second `doZoom i`
(against any hardware) writes nothing and leaves the state as the first call left it. -/
theorem doZoom_idempotent (hw hw2 : OMXPort) (z : ZoomState) (i : Int)
    (hv : hw.mComponentState ≠ OMX_STATETYPE.OMX_StateInvalid)
    (hok : hw.eError = OMX_ErrorNone) (hi : 0 ≤ i ∧ i ≤ ZOOM_STAGES - 1) :
    (z.prevIndex = i → doZoom hw2 z i = ⟨NO_ERROR, z, []⟩) ∧
    (doZoom hw z i).ret = NO_ERROR ∧
    (doZoom hw z i).st.prevIndex = i ∧
    (zoomWrites (doZoom hw z i).effects).length ≤ 1 ∧
    doZoom hw2 (doZoom hw z i).st i = ⟨NO_ERROR, (doZoom hw z i).st, []⟩ := by
  have hrec : (doZoom hw z i).ret = NO_ERROR ∧ (doZoom hw z i).st.prevIndex = i ∧
      (zoomWrites (doZoom hw z i).effects).length ≤ 1 := by
    by_cases hp : z.prevIndex = i
    · rw [doZoom_skip hw z i hp]
      exact ⟨rfl, hp, by simp [zoomWrites]⟩
    · rw [doZoom_applied hw z i hp hv hi hok]
      exact ⟨rfl, rfl, by simp [zoomWrites]⟩
  exact ⟨fun hp => doZoom_skip hw2 z i hp, hrec.1, hrec.2.1, hrec.2.2,
    doZoom_skip hw2 (doZoom hw z i).st i hrec.2.1⟩

/-- An instance of claim C26: stage 7 applied twice from the initial state; the first call
writes `ZOOM_STEPS[7]`, the second call, even against a hardware that would reject the
write, does nothing. -/
theorem doZoom_idempotent_witness :
    (doZoom sampleHw (initialZoomState 1 0) 7).effects =
      [ZoomEffect.setConfigDigitalZoom 106168 106168] ∧
    doZoom rejectingHw (doZoom sampleHw (initialZoomState 1 0) 7).st 7 =
      ⟨NO_ERROR, (doZoom sampleHw (initialZoomState 1 0) 7).st, []⟩ ∧
    (doZoom sampleHw (initialZoomState 1 0) 7).st.prevIndex = 7 :=
  have h := doZoom_idempotent sampleHw rejectingHw (initialZoomState 1 0) 7
    (by decide) (by decide) (by decide)
  ⟨by decide, h.2.2.2.2, h.2.2.1⟩

/-- Claim C27 (stage table). `ZOOM_STEPS` has `ZOOM_STAGES = 31` entries and is strictly
increasing: for all stages `i < j` below 31, `ZOOM_STEPS[i] < ZOOM_STEPS[j]`. Every
hardware write of `doZoom` is for a stage `i` in `[0, ZOOM_STAGES - 1]` and carries
`ZOOM_STEPS[i]` as both the width and the height scale. -/
theorem ZOOM_STEPS_strictly_increasing :
    ZOOM_STEPS.length = 31 ∧ (ZOOM_STEPS.length : Int) = ZOOM_STAGES ∧
    (∀ (i j : Nat) (hi : i < ZOOM_STEPS.length) (hj : j < ZOOM_STEPS.length),
      i < j → ZOOM_STEPS[i] < ZOOM_STEPS[j]) ∧
    (∀ (hw : OMXPort) (z : ZoomState) (i : Int),
      (doZoom hw z i).effects = [] ∨
      ((0 ≤ i ∧ i ≤ ZOOM_STAGES - 1) ∧
        ∃ v, ZOOM_STEPS[i.toNat]? = some v ∧
          (doZoom hw z i).effects = [ZoomEffect.setConfigDigitalZoom v v])) := by
  refine ⟨by decide, by decide, ?_, ?_⟩
  · have hp : List.Pairwise (fun a b : Int => a < b) ZOOM_STEPS := by decide
    intro i j hi hj hij
    exact (List.pairwise_iff_getElem.mp hp) i j hi hj hij
  · intro hw z i
    rcases doZoom_effects hw z i with h | ⟨hr, h⟩
    · exact Or.inl h
    · obtain ⟨v, hv1, hv2⟩ := ZOOM_STEPS_entry i hr
      exact Or.inr ⟨hr, v, hv1, by rw [h, hv2]⟩

/-- An instance of claim C27: stages 3 and 17, with scale factors 80609 and 212992. -/
theorem ZOOM_STEPS_strictly_increasing_witness :
    ZOOM_STEPS.getD 3 0 = 80609 ∧ ZOOM_STEPS.getD 17 0 = 212992 ∧
    ZOOM_STEPS.get ⟨3, by decide⟩ < ZOOM_STEPS.get ⟨17, by decide⟩ :=
  ⟨by decide, by decide,
    ZOOM_STEPS_strictly_increasing.2.2.1 3 17 (by decide) (by decide) (by decide)⟩

/-! ## Zoom controller: the branches of `advanceZoom` -/

theorem zoomWrites_append (a b : List ZoomEffect) :
    zoomWrites (a ++ b) = zoomWrites a ++ zoomWrites b := by
  induction a with
  | nil => rfl
  | cons x xs ih => cases x <;> simp [zoomWrites, ih]

theorem stopSmoothZoomState_no_writes (ad : AdapterEnv) :
    zoomWrites (stopSmoothZoomState ad).2 = [] := by
  unfold stopSmoothZoomState
  split_ifs <;> simp [zoomWrites]

/-- Past its three guards `doZoom` attempts exactly one write, of the table entry. -/
theorem doZoom_attempts (hw : OMXPort) (z : ZoomState) (i : Int) (hne : z.prevIndex ≠ i)
    (hv : hw.mComponentState ≠ OMX_STATETYPE.OMX_StateInvalid)
    (hi : 0 ≤ i ∧ i ≤ ZOOM_STAGES - 1) :
    (doZoom hw z i).effects = [ZoomEffect.setConfigDigitalZoom (ZOOM_STEPS.getD i.toNat 0)
      (ZOOM_STEPS.getD i.toNat 0)] := by
  by_cases hrej : OMX_ErrorNone ≠ hw.eError
  · rw [doZoom_rejected hw z i hne hv hi hrej]
  · rw [doZoom_applied hw z i hne hv hi (not_not.mp hrej).symm]

/-- The pending-stop branch of `advanceZoom`. -/
theorem advanceZoom_pending (hw : OMXPort) (ad : AdapterEnv) (z : ZoomState)
    (hz : z.mReturnZoomStatus = true) :
    advanceZoom hw ad z =
      ⟨(doZoom hw
          { z with mCurrentZoomIdx := z.mCurrentZoomIdx + z.mZoomInc,
                   mTargetZoomIdx := z.mCurrentZoomIdx + z.mZoomInc,
                   mReturnZoomStatus := false } (z.mCurrentZoomIdx + z.mZoomInc)).ret,
        (doZoom hw
          { z with mCurrentZoomIdx := z.mCurrentZoomIdx + z.mZoomInc,
                   mTargetZoomIdx := z.mCurrentZoomIdx + z.mZoomInc,
                   mReturnZoomStatus := false } (z.mCurrentZoomIdx + z.mZoomInc)).st,
        (doZoom hw
          { z with mCurrentZoomIdx := z.mCurrentZoomIdx + z.mZoomInc,
                   mTargetZoomIdx := z.mCurrentZoomIdx + z.mZoomInc,
                   mReturnZoomStatus := false } (z.mCurrentZoomIdx + z.mZoomInc)).effects ++
          [ZoomEffect.notifyZoomSubscribers (z.mCurrentZoomIdx + z.mZoomInc) true]⟩ := by
  have hc := (doZoom_frame hw
      { z with mCurrentZoomIdx := z.mCurrentZoomIdx + z.mZoomInc,
               mTargetZoomIdx := z.mCurrentZoomIdx + z.mZoomInc,
               mReturnZoomStatus := false } (z.mCurrentZoomIdx + z.mZoomInc)).1
  simp only [] at hc
  unfold advanceZoom
  simp only [hz, if_true]
  rw [hc]

/-- The jump branch of `advanceZoom`: no stop pending, indices apart, adapter not in the
smooth-zoom state. -/
theorem advanceZoom_idle (hw : OMXPort) (ad : AdapterEnv) (z : ZoomState)
    (hp : z.mReturnZoomStatus = false) (hne : z.mCurrentZoomIdx ≠ z.mTargetZoomIdx)
    (hidle : (ZOOM_ACTIVE &&& ad.state) = 0) :
    advanceZoom hw ad z =
      doZoom hw { z with mCurrentZoomIdx := z.mTargetZoomIdx } z.mTargetZoomIdx := by
  unfold advanceZoom
  simp only [hp, hne, hidle, ne_eq, not_true_eq_false, not_false_eq_true, if_true, if_false,
    Bool.false_eq_true]

/-- The ramp branch of `advanceZoom`: no stop pending, indices apart, adapter in the
smooth-zoom state; `d` is the direction. -/
theorem advanceZoom_active (hw : OMXPort) (ad : AdapterEnv) (z : ZoomState) (d : Int)
    (hp : z.mReturnZoomStatus = false) (hne : z.mCurrentZoomIdx ≠ z.mTargetZoomIdx)
    (ha : (ZOOM_ACTIVE &&& ad.state) ≠ 0)
    (hd : d = if z.mCurrentZoomIdx < z.mTargetZoomIdx then 1 else -1) :
    advanceZoom hw ad z =
      if z.mCurrentZoomIdx + d = z.mTargetZoomIdx then
        ⟨(if NO_ERROR = (doZoom hw { z with mZoomInc := d, mCurrentZoomIdx := z.mCurrentZoomIdx + d }
              (z.mCurrentZoomIdx + d)).ret then stopSmoothZoomState ad
            else ((doZoom hw { z with mZoomInc := d, mCurrentZoomIdx := z.mCurrentZoomIdx + d }
              (z.mCurrentZoomIdx + d)).ret, [])).1,
          { (doZoom hw { z with mZoomInc := d, mCurrentZoomIdx := z.mCurrentZoomIdx + d }
              (z.mCurrentZoomIdx + d)).st with mReturnZoomStatus := false },
          (doZoom hw { z with mZoomInc := d, mCurrentZoomIdx := z.mCurrentZoomIdx + d }
              (z.mCurrentZoomIdx + d)).effects ++
            (if NO_ERROR = (doZoom hw { z with mZoomInc := d, mCurrentZoomIdx := z.mCurrentZoomIdx + d }
              (z.mCurrentZoomIdx + d)).ret then stopSmoothZoomState ad
            else ((doZoom hw { z with mZoomInc := d, mCurrentZoomIdx := z.mCurrentZoomIdx + d }
              (z.mCurrentZoomIdx + d)).ret, [])).2 ++
            [ZoomEffect.notifyZoomSubscribers (z.mCurrentZoomIdx + d) true]⟩
      else
        ⟨(doZoom hw { z with mZoomInc := d, mCurrentZoomIdx := z.mCurrentZoomIdx + d }
            (z.mCurrentZoomIdx + d)).ret,
          (doZoom hw { z with mZoomInc := d, mCurrentZoomIdx := z.mCurrentZoomIdx + d }
            (z.mCurrentZoomIdx + d)).st,
          (doZoom hw { z with mZoomInc := d, mCurrentZoomIdx := z.mCurrentZoomIdx + d }
            (z.mCurrentZoomIdx + d)).effects ++
            [ZoomEffect.notifyZoomSubscribers (z.mCurrentZoomIdx + d) false]⟩ := by
  obtain ⟨c, t, inc, flag, p, prev⟩ := z
  simp only [] at hp hne hd
  subst hp
  obtain ⟨h1, h2, -, -, -, -⟩ := doZoom_frame hw ⟨c + d, t, d, false, p, prev⟩ (c + d)
  simp only [] at h1 h2
  unfold advanceZoom
  simp only [hne, ha, ne_eq, not_false_eq_true, if_true, if_false, Bool.false_eq_true, ← hd]
  simp only [h1, h2]

/-! ## Zoom controller: claims on the steps of `advanceZoom` -/

/-- Claim C24 (a ramp step reports hardware failure). Let `advanceZoom` take a step, either
the pending-stop step or a step of an active ramp, and let the hardware reject the zoom
write that the step attempts. Then `advanceZoom` returns -1, a non-success status;
`mCurrentZoomIdx` holds the stepped value (current + increment for the pending-stop step,
current + 1 or current - 1 toward the target for a ramp step); `prevIndex`, the record of
the last stage written, is unchanged; and a later `doZoom` for the same stage against a
component that is not invalid attempts the write again. -/
theorem advanceZoom_reports_rejected_write (hw : OMXPort) (ad : AdapterEnv) (z : ZoomState)
    (hstep : z.mReturnZoomStatus = true ∨
      (z.mCurrentZoomIdx ≠ z.mTargetZoomIdx ∧ (ZOOM_ACTIVE &&& ad.state) ≠ 0))
    (hwrite : zoomWrites (advanceZoom hw ad z).effects ≠ [])
    (hrej : OMX_ErrorNone ≠ hw.eError) :
    (advanceZoom hw ad z).ret = -1 ∧
    (advanceZoom hw ad z).ret ≠ NO_ERROR ∧
    (advanceZoom hw ad z).st.mCurrentZoomIdx =
      (if z.mReturnZoomStatus = true then z.mCurrentZoomIdx + z.mZoomInc
       else if z.mCurrentZoomIdx < z.mTargetZoomIdx then z.mCurrentZoomIdx + 1
       else z.mCurrentZoomIdx - 1) ∧
    (advanceZoom hw ad z).st.prevIndex = z.prevIndex ∧
    ∀ hw2 : OMXPort, hw2.mComponentState ≠ OMX_STATETYPE.OMX_StateInvalid →
      zoomWrites (doZoom hw2 (advanceZoom hw ad z).st
        (advanceZoom hw ad z).st.mCurrentZoomIdx).effects ≠ [] := by
  have hminus : ¬ ((-1 : Int) = NO_ERROR) := by decide
  have again : ∀ (i : Int) (hw2 : OMXPort) (y : ZoomState), z.prevIndex ≠ i →
      (0 ≤ i ∧ i ≤ ZOOM_STAGES - 1) →
      hw2.mComponentState ≠ OMX_STATETYPE.OMX_StateInvalid → y.prevIndex = z.prevIndex →
      zoomWrites (doZoom hw2 y i).effects ≠ [] := by
    intro i hw2 y hi hr hv2 hy
    rw [doZoom_attempts hw2 y i (by rw [hy]; exact hi) hv2 hr]
    simp [zoomWrites]
  by_cases hz : z.mReturnZoomStatus = true
  · rw [advanceZoom_pending hw ad z hz] at hwrite ⊢
    simp only [zoomWrites_append] at hwrite
    have hw1 : zoomWrites (doZoom hw
        { z with mCurrentZoomIdx := z.mCurrentZoomIdx + z.mZoomInc,
                 mTargetZoomIdx := z.mCurrentZoomIdx + z.mZoomInc,
                 mReturnZoomStatus := false } (z.mCurrentZoomIdx + z.mZoomInc)).effects ≠ [] := by
      intro h0
      apply hwrite
      rw [h0]
      rfl
    obtain ⟨g1, g2, g3, g4⟩ := doZoom_writes _ _ _ hw1
    have hr := doZoom_rejected hw _ _ g1 g2 ⟨g3, g4⟩ hrej
    rw [hr, if_pos hz]
    exact ⟨rfl, hminus, rfl, rfl, fun hw2 hv2 => again _ hw2 _ g1 ⟨g3, g4⟩ hv2 rfl⟩
  · have hp : z.mReturnZoomStatus = false := by simpa using hz
    obtain ⟨hne, ha⟩ := hstep.resolve_left hz
    have hA := advanceZoom_active hw ad z
      (if z.mCurrentZoomIdx < z.mTargetZoomIdx then 1 else -1) hp hne ha rfl
    have hd : z.mCurrentZoomIdx + (if z.mCurrentZoomIdx < z.mTargetZoomIdx then 1 else -1) =
        (if z.mCurrentZoomIdx < z.mTargetZoomIdx then z.mCurrentZoomIdx + 1
         else z.mCurrentZoomIdx - 1) := by
      split_ifs <;> omega
    generalize (if z.mCurrentZoomIdx < z.mTargetZoomIdx then (1 : Int) else -1) = d at hA hd
    by_cases hw1 : zoomWrites (doZoom hw
        { z with mZoomInc := d, mCurrentZoomIdx := z.mCurrentZoomIdx + d }
        (z.mCurrentZoomIdx + d)).effects = []
    · exfalso
      apply hwrite
      rw [hA]
      split_ifs <;>
        simp [zoomWrites_append, hw1, zoomWrites, stopSmoothZoomState_no_writes]
    · obtain ⟨g1, g2, g3, g4⟩ := doZoom_writes _ _ _ hw1
      have hr := doZoom_rejected hw _ _ g1 g2 ⟨g3, g4⟩ hrej
      have hne1 : ¬ (NO_ERROR = (-1 : Int)) := by decide
      rw [hA, hr, if_neg hz, ← hd]
      simp only [if_neg hne1]
      by_cases hc : z.mCurrentZoomIdx + d = z.mTargetZoomIdx
      · rw [if_pos hc]
        exact ⟨rfl, hminus, rfl, rfl, fun hw2 hv2 => again _ hw2 _ g1 ⟨g3, g4⟩ hv2 rfl⟩
      · rw [if_neg hc]
        exact ⟨rfl, hminus, rfl, rfl, fun hw2 hv2 => again _ hw2 _ g1 ⟨g3, g4⟩ hv2 rfl⟩

/-- An instance of claim C24: the first tick of an active ramp from stage 0 toward stage 5,
with the hardware rejecting the write of `ZOOM_STEPS[1]`. -/
theorem advanceZoom_reports_rejected_write_witness :
    advanceZoom rejectingHw activeAdapter (startSmoothZoom 5 (initialZoomState 1 0)).st =
      ⟨-1, ⟨1, 5, 1, false, 0, 0⟩,
        [ZoomEffect.setConfigDigitalZoom 70124 70124,
          ZoomEffect.notifyZoomSubscribers 1 false]⟩ ∧
    (advanceZoom rejectingHw activeAdapter
      (startSmoothZoom 5 (initialZoomState 1 0)).st).ret ≠ NO_ERROR ∧
    (advanceZoom rejectingHw activeAdapter
      (startSmoothZoom 5 (initialZoomState 1 0)).st).st.prevIndex =
      (startSmoothZoom 5 (initialZoomState 1 0)).st.prevIndex ∧
    zoomWrites (doZoom sampleHw
      (advanceZoom rejectingHw activeAdapter (startSmoothZoom 5 (initialZoomState 1 0)).st).st
      (advanceZoom rejectingHw activeAdapter
        (startSmoothZoom 5 (initialZoomState 1 0)).st).st.mCurrentZoomIdx).effects ≠ [] :=
  have h := advanceZoom_reports_rejected_write rejectingHw activeAdapter
    (startSmoothZoom 5 (initialZoomState 1 0)).st (Or.inr (by decide)) (by decide) (by decide)
  ⟨by decide, h.2.1, h.2.2.2.1, h.2.2.2.2 sampleHw (by decide)⟩

/-- The status and actions of `doZoom` depend on the zoom members only through
`prevIndex`. -/
theorem doZoom_congr (hw : OMXPort) (y z : ZoomState) (i : Int)
    (h : y.prevIndex = z.prevIndex) :
    (doZoom hw y i).ret = (doZoom hw z i).ret ∧
    (doZoom hw y i).effects = (doZoom hw z i).effects := by
  unfold doZoom
  simp only [h]
  split_ifs <;> simp

/-- Claim C29 (stop step). If `mCurrentZoomIdx = mTargetZoomIdx`, `stopSmoothZoom` changes
nothing. If they differ, it returns `NO_ERROR`, sets the pending-stop flag and the
increment (+1 when current < target, -1 otherwise) and changes nothing else; the next
`advanceZoom` then sets `mCurrentZoomIdx` to current + increment and `mTargetZoomIdx` to
the same value, clears the pending flag, pushes the new index to the hardware (it performs
the actions of `doZoom` for the new index and returns its status: one write of
`ZOOM_STEPS[new]` when the component is not invalid, the index is in range and differs
from `prevIndex`) and then sends exactly one notification, with the new index and
`final = true`. -/
theorem stopSmoothZoom_step (hw : OMXPort) (ad : AdapterEnv) (z : ZoomState) :
    (z.mCurrentZoomIdx = z.mTargetZoomIdx → stopSmoothZoom z = ⟨NO_ERROR, z, []⟩) ∧
    (z.mCurrentZoomIdx ≠ z.mTargetZoomIdx →
      stopSmoothZoom z =
        ⟨NO_ERROR,
          { z with mZoomInc := if z.mCurrentZoomIdx < z.mTargetZoomIdx then 1 else -1,
                   mReturnZoomStatus := true }, []⟩ ∧
      (advanceZoom hw ad (stopSmoothZoom z).st).st.mCurrentZoomIdx =
        z.mCurrentZoomIdx + (if z.mCurrentZoomIdx < z.mTargetZoomIdx then 1 else -1) ∧
      (advanceZoom hw ad (stopSmoothZoom z).st).st.mTargetZoomIdx =
        z.mCurrentZoomIdx + (if z.mCurrentZoomIdx < z.mTargetZoomIdx then 1 else -1) ∧
      (advanceZoom hw ad (stopSmoothZoom z).st).st.mReturnZoomStatus = false ∧
      (advanceZoom hw ad (stopSmoothZoom z).st).ret =
        (doZoom hw z
          (z.mCurrentZoomIdx + (if z.mCurrentZoomIdx < z.mTargetZoomIdx then 1 else -1))).ret ∧
      (advanceZoom hw ad (stopSmoothZoom z).st).effects =
        (doZoom hw z (z.mCurrentZoomIdx +
          (if z.mCurrentZoomIdx < z.mTargetZoomIdx then 1 else -1))).effects ++
        [ZoomEffect.notifyZoomSubscribers
          (z.mCurrentZoomIdx + (if z.mCurrentZoomIdx < z.mTargetZoomIdx then 1 else -1)) true] ∧
      (hw.mComponentState ≠ OMX_STATETYPE.OMX_StateInvalid →
        (0 ≤ z.mCurrentZoomIdx + (if z.mCurrentZoomIdx < z.mTargetZoomIdx then 1 else -1) ∧
          z.mCurrentZoomIdx + (if z.mCurrentZoomIdx < z.mTargetZoomIdx then 1 else -1)
            ≤ ZOOM_STAGES - 1) →
        z.prevIndex ≠
          z.mCurrentZoomIdx + (if z.mCurrentZoomIdx < z.mTargetZoomIdx then 1 else -1) →
        ∃ v, ZOOM_STEPS[(z.mCurrentZoomIdx +
            (if z.mCurrentZoomIdx < z.mTargetZoomIdx then 1 else -1)).toNat]? = some v ∧
          (advanceZoom hw ad (stopSmoothZoom z).st).effects =
            [ZoomEffect.setConfigDigitalZoom v v,
              ZoomEffect.notifyZoomSubscribers (z.mCurrentZoomIdx +
                (if z.mCurrentZoomIdx < z.mTargetZoomIdx then 1 else -1)) true])) := by
  constructor
  · intro heq
    unfold stopSmoothZoom
    simp [heq]
  · intro hne
    have hne2 : z.mTargetZoomIdx ≠ z.mCurrentZoomIdx := fun h => hne h.symm
    have hs : stopSmoothZoom z =
        ⟨NO_ERROR,
          { z with mZoomInc := if z.mCurrentZoomIdx < z.mTargetZoomIdx then 1 else -1,
                   mReturnZoomStatus := true }, []⟩ := by
      unfold stopSmoothZoom
      simp only [hne2, ne_eq, not_false_eq_true, if_true]
    generalize (if z.mCurrentZoomIdx < z.mTargetZoomIdx then (1 : Int) else -1) = d at hs ⊢
    refine ⟨hs, ?_⟩
    rw [hs]
    simp only []
    rw [advanceZoom_pending hw ad _ rfl]
    simp only []
    obtain ⟨f1, f2, -, f4, -, -⟩ := doZoom_frame hw
      { z with mCurrentZoomIdx := z.mCurrentZoomIdx + d, mTargetZoomIdx := z.mCurrentZoomIdx + d,
               mZoomInc := d, mReturnZoomStatus := false } (z.mCurrentZoomIdx + d)
    obtain ⟨c1, c2⟩ := doZoom_congr hw
      { z with mCurrentZoomIdx := z.mCurrentZoomIdx + d, mTargetZoomIdx := z.mCurrentZoomIdx + d,
               mZoomInc := d, mReturnZoomStatus := false } z (z.mCurrentZoomIdx + d) rfl
    refine ⟨f1, f2, f4, c1, by rw [c2], ?_⟩
    intro hv hr hp
    obtain ⟨v, hv1, hv2⟩ := ZOOM_STEPS_entry _ hr
    refine ⟨v, hv1, ?_⟩
    rw [c2, doZoom_attempts hw z _ hp hv hr, hv2]
    rfl

/-- Instances of claim C29: a ramp from stage 0 toward stage 5 stopped before its first
tick, and a stop requested when the indices are equal. -/
theorem stopSmoothZoom_step_witness :
    (initialZoomState 1 0).mCurrentZoomIdx = (initialZoomState 1 0).mTargetZoomIdx ∧
    stopSmoothZoom (initialZoomState 1 0) = ⟨NO_ERROR, initialZoomState 1 0, []⟩ ∧
    (startSmoothZoom 5 (initialZoomState 1 0)).st.mCurrentZoomIdx ≠
      (startSmoothZoom 5 (initialZoomState 1 0)).st.mTargetZoomIdx ∧
    stopSmoothZoom (startSmoothZoom 5 (initialZoomState 1 0)).st =
      ⟨NO_ERROR, ⟨0, 5, 1, true, 0, 0⟩, []⟩ ∧
    advanceZoom sampleHw idleAdapter
        (stopSmoothZoom (startSmoothZoom 5 (initialZoomState 1 0)).st).st =
      ⟨NO_ERROR, ⟨1, 1, 1, false, 0, 1⟩,
        [ZoomEffect.setConfigDigitalZoom 70124 70124,
          ZoomEffect.notifyZoomSubscribers 1 true]⟩ :=
  ⟨by decide,
    (stopSmoothZoom_step sampleHw idleAdapter (initialZoomState 1 0)).1 (by decide),
    by decide,
    ((stopSmoothZoom_step sampleHw idleAdapter
      (startSmoothZoom 5 (initialZoomState 1 0)).st).2 (by decide)).1.trans (by decide),
    by decide⟩

/-- Claim C30 (jump outside a ramp). When no stop is pending, the indices differ and the
adapter state does not have the smooth-zoom flag, one `advanceZoom` sets
`mCurrentZoomIdx` directly to `mTargetZoomIdx`, whatever the distance, leaves the target
and the pending flag as they were, makes the one `doZoom` attempt for the target stage
(its status is returned and its actions are the only actions: at most one hardware write,
and exactly one, of `ZOOM_STEPS[target]`, when the component is not invalid, the target is
in range and differs from `prevIndex`), and sends no zoom notification. -/
theorem advanceZoom_jump (hw : OMXPort) (ad : AdapterEnv) (z : ZoomState)
    (hp : z.mReturnZoomStatus = false) (hne : z.mCurrentZoomIdx ≠ z.mTargetZoomIdx)
    (hidle : (ZOOM_ACTIVE &&& ad.state) = 0) :
    (advanceZoom hw ad z).st.mCurrentZoomIdx = z.mTargetZoomIdx ∧
    (advanceZoom hw ad z).st.mTargetZoomIdx = z.mTargetZoomIdx ∧
    (advanceZoom hw ad z).st.mReturnZoomStatus = false ∧
    (advanceZoom hw ad z).ret = (doZoom hw z z.mTargetZoomIdx).ret ∧
    (advanceZoom hw ad z).effects = (doZoom hw z z.mTargetZoomIdx).effects ∧
    zoomNotifications (advanceZoom hw ad z).effects = [] ∧
    (zoomWrites (advanceZoom hw ad z).effects).length ≤ 1 ∧
    (advanceZoom hw ad z).effects.length ≤ 1 ∧
    (hw.mComponentState ≠ OMX_STATETYPE.OMX_StateInvalid →
      (0 ≤ z.mTargetZoomIdx ∧ z.mTargetZoomIdx ≤ ZOOM_STAGES - 1) →
      z.prevIndex ≠ z.mTargetZoomIdx →
      ∃ v, ZOOM_STEPS[z.mTargetZoomIdx.toNat]? = some v ∧
        (advanceZoom hw ad z).effects = [ZoomEffect.setConfigDigitalZoom v v]) := by
  rw [advanceZoom_idle hw ad z hp hne hidle]
  obtain ⟨f1, f2, -, f4, -, f6⟩ := doZoom_frame hw
    { z with mCurrentZoomIdx := z.mTargetZoomIdx } z.mTargetZoomIdx
  obtain ⟨c1, c2⟩ := doZoom_congr hw
    { z with mCurrentZoomIdx := z.mTargetZoomIdx } z z.mTargetZoomIdx rfl
  refine ⟨f1, f2, f4.trans hp, c1, c2, f6, ?_, ?_, ?_⟩
  · rw [c2]
    rcases doZoom_effects hw z z.mTargetZoomIdx with h | ⟨-, h⟩ <;> rw [h] <;>
      simp [zoomWrites]
  · rw [c2]
    rcases doZoom_effects hw z z.mTargetZoomIdx with h | ⟨-, h⟩ <;> rw [h] <;> simp
  · intro hv hr hprev
    obtain ⟨v, hv1, hv2⟩ := ZOOM_STEPS_entry _ hr
    exact ⟨v, hv1, by rw [c2, doZoom_attempts hw z _ hprev hv hr, hv2]⟩

/-- An instance of claim C30: target 5 set from stage 0 while the adapter is not in the
smooth-zoom state; one tick jumps to stage 5 with one write of `ZOOM_STEPS[5] = 92406`. -/
theorem advanceZoom_jump_witness :
    (startSmoothZoom 5 (initialZoomState 1 0)).st.mCurrentZoomIdx = 0 ∧
    (advanceZoom sampleHw idleAdapter
      (startSmoothZoom 5 (initialZoomState 1 0)).st).st.mCurrentZoomIdx = 5 ∧
    zoomNotifications (advanceZoom sampleHw idleAdapter
      (startSmoothZoom 5 (initialZoomState 1 0)).st).effects = [] ∧
    (advanceZoom sampleHw idleAdapter (startSmoothZoom 5 (initialZoomState 1 0)).st).effects =
      [ZoomEffect.setConfigDigitalZoom 92406 92406] :=
  have h := advanceZoom_jump sampleHw idleAdapter (startSmoothZoom 5 (initialZoomState 1 0)).st
    (by decide) (by decide) (by decide)
  ⟨by decide, h.1, h.2.2.2.2.2.1, by decide⟩

/-! ## Autofocus controller: the status of `stopAutoFocus` -/

/-- The run of `stopAutoFocus` for an executing component whose focus mode is not infinity,
by the outcome of its two writes. -/
theorem stopAutoFocus_run (conv : Nat → Int) (st : FocusState) (env : StopFocusEnv)
    (hexec : st.mComponentState = OMX_STATETYPE.OMX_StateExecuting)
    (hmode : st.Focus ≠ OMX_IMAGE_FOCUSCONTROLTYPE.OMX_IMAGE_FocusControlAutoInfinity) :
    stopAutoFocus conv st env =
      if OMX_ErrorNone ≠ env.callbackError then
        ⟨-1, [FocusEffect.setConfigCallbackRequest false] ++
          (updateFocusDistances st env).effects⟩
      else if OMX_ErrorNone ≠ env.focusOffError then
        ⟨conv env.focusOffError,
          [FocusEffect.setConfigCallbackRequest false,
            FocusEffect.setConfigFocusControl
              OMX_IMAGE_FOCUSCONTROLTYPE.OMX_IMAGE_FocusControlOff]⟩
      else
        ⟨NO_ERROR,
          [FocusEffect.setConfigCallbackRequest false,
            FocusEffect.setConfigFocusControl
              OMX_IMAGE_FOCUSCONTROLTYPE.OMX_IMAGE_FocusControlOff] ++
          (updateFocusDistances st env).effects⟩ := by
  have hne : ¬ (NO_ERROR = (-1 : Int)) := by decide
  unfold stopAutoFocus setFocusCallback
  simp only [hexec, hmode, ne_eq, not_true_eq_false, if_false, if_true]
  by_cases hc : OMX_ErrorNone = env.callbackError
  · by_cases ho : OMX_ErrorNone = env.focusOffError
    · simp [hc, ho]
    · simp [hc, ho]
  · simp [hc, hne]

/-- The focus-distance refresh of an executing component fails exactly when the query of
the distances fails; it then stores nothing. -/
theorem updateFocusDistances_run (st : FocusState) (env : StopFocusEnv)
    (hexec : st.mComponentState = OMX_STATETYPE.OMX_StateExecuting) :
    updateFocusDistances st env =
      if OMX_ErrorNone ≠ env.distanceError then
        ⟨UNKNOWN_ERROR, [FocusEffect.getConfigFocusDistance]⟩
      else
        ⟨NO_ERROR, [FocusEffect.getConfigFocusDistance,
          FocusEffect.setFocusDistances (encodeFocusDistance st env.nFocusDistanceNear).2
            (encodeFocusDistance st env.nFocusDistanceOptimal).2
            (encodeFocusDistance st env.nFocusDistanceFar).2]⟩ := by
  have hne : ¬ (NO_ERROR = UNKNOWN_ERROR) := by decide
  have henc : ∀ d, (encodeFocusDistance st d).1 = NO_ERROR := by
    intro d
    unfold encodeFocusDistance
    simp only []
    split_ifs <;> rfl
  unfold updateFocusDistances getFocusDistances addFocusDistances
  simp only [hexec, henc, if_true]
  by_cases hd : OMX_ErrorNone = env.distanceError
  · simp [hd]
  · simp [hd, hne]

/-- Claim C21 as stated fails: an executing component in auto-lock mode accepts both
writes of `stopAutoFocus` and fails the query of the focus distances. The refresh
`updateFocusDistances` fails with `UNKNOWN_ERROR`, and `stopAutoFocus` returns
`NO_ERROR`. -/
theorem stopAutoFocus_swallows_refresh_failure :
    (focusStateWith OMX_IMAGE_FOCUSCONTROLTYPE.OMX_IMAGE_FocusControlAutoLock).mComponentState =
      OMX_STATETYPE.OMX_StateExecuting ∧
    (focusStateWith OMX_IMAGE_FOCUSCONTROLTYPE.OMX_IMAGE_FocusControlAutoLock).Focus ≠
      OMX_IMAGE_FOCUSCONTROLTYPE.OMX_IMAGE_FocusControlAutoInfinity ∧
    updateFocusDistances
        (focusStateWith OMX_IMAGE_FOCUSCONTROLTYPE.OMX_IMAGE_FocusControlAutoLock)
        failedDistanceStop =
      ⟨UNKNOWN_ERROR, [FocusEffect.getConfigFocusDistance]⟩ ∧
    UNKNOWN_ERROR ≠ NO_ERROR ∧
    stopAutoFocus sampleOmxToAndroidError
        (focusStateWith OMX_IMAGE_FOCUSCONTROLTYPE.OMX_IMAGE_FocusControlAutoLock)
        failedDistanceStop =
      ⟨NO_ERROR,
        [FocusEffect.setConfigCallbackRequest false,
          FocusEffect.setConfigFocusControl
            OMX_IMAGE_FOCUSCONTROLTYPE.OMX_IMAGE_FocusControlOff,
          FocusEffect.getConfigFocusDistance]⟩ := by
  decide

/-- Claim C21, amended. For an executing component whose focus mode is not infinity, the
status of `stopAutoFocus` does not depend on the focus-distance refresh: it is -1 when
disabling the focus callback fails, otherwise the converted error of the focus-off write
when that write fails, otherwise `NO_ERROR`. The refresh fails exactly when the query of
the distances fails (encoding never fails); it is attempted unless the focus-off write
failed, its status is dropped, and when it fails no focus distances are stored. -/
theorem stopAutoFocus_status (conv : Nat → Int) (st : FocusState) (env : StopFocusEnv)
    (hexec : st.mComponentState = OMX_STATETYPE.OMX_StateExecuting)
    (hmode : st.Focus ≠ OMX_IMAGE_FOCUSCONTROLTYPE.OMX_IMAGE_FocusControlAutoInfinity) :
    (stopAutoFocus conv st env).ret =
      (if OMX_ErrorNone ≠ env.callbackError then -1
       else if OMX_ErrorNone ≠ env.focusOffError then conv env.focusOffError
       else NO_ERROR) ∧
    ((updateFocusDistances st env).ret ≠ NO_ERROR ↔ OMX_ErrorNone ≠ env.distanceError) ∧
    ((OMX_ErrorNone ≠ env.callbackError ∨ OMX_ErrorNone = env.focusOffError) →
      FocusEffect.getConfigFocusDistance ∈ (stopAutoFocus conv st env).effects) ∧
    (OMX_ErrorNone ≠ env.distanceError →
      ∀ n o f, FocusEffect.setFocusDistances n o f ∉ (stopAutoFocus conv st env).effects) := by
  have hne : ¬ (UNKNOWN_ERROR = NO_ERROR) := by decide
  rw [stopAutoFocus_run conv st env hexec hmode, updateFocusDistances_run st env hexec]
  refine ⟨?_, ?_, ?_, ?_⟩
  · split_ifs <;> rfl
  · by_cases hd : OMX_ErrorNone ≠ env.distanceError
    · simp only [if_pos hd]
      exact ⟨fun _ => hd, fun _ => hne⟩
    · simp only [if_neg hd]
      exact ⟨fun h => absurd rfl h, fun h => absurd h hd⟩
  · intro h
    by_cases hc : OMX_ErrorNone ≠ env.callbackError
    · simp only [if_pos hc]
      by_cases hd : OMX_ErrorNone ≠ env.distanceError
      · simp only [if_pos hd]
        simp
      · simp only [if_neg hd]
        simp
    · have ho : ¬ (OMX_ErrorNone ≠ env.focusOffError) := by
        rcases h with h | h
        · exact absurd h hc
        · exact fun hn => hn h
      simp only [if_neg hc, if_neg ho]
      by_cases hd : OMX_ErrorNone ≠ env.distanceError
      · simp only [if_pos hd]
        simp
      · simp only [if_neg hd]
        simp
  · intro hd n o f
    simp only [if_pos hd]
    by_cases hc : OMX_ErrorNone ≠ env.callbackError
    · simp only [if_pos hc]
      simp
    · simp only [if_neg hc]
      by_cases ho : OMX_ErrorNone ≠ env.focusOffError
      · simp only [if_pos ho]
        simp
      · simp only [if_neg ho]
        simp

/-- An instance of amended claim C21: every write accepted, the distance query failing;
the status is `NO_ERROR` and no distances are stored. -/
theorem stopAutoFocus_status_witness :
    (stopAutoFocus sampleOmxToAndroidError
      (focusStateWith OMX_IMAGE_FOCUSCONTROLTYPE.OMX_IMAGE_FocusControlAutoLock)
      failedDistanceStop).ret = NO_ERROR ∧
    (updateFocusDistances
      (focusStateWith OMX_IMAGE_FOCUSCONTROLTYPE.OMX_IMAGE_FocusControlAutoLock)
      failedDistanceStop).ret ≠ NO_ERROR ∧
    ∀ n o f, FocusEffect.setFocusDistances n o f ∉
      (stopAutoFocus sampleOmxToAndroidError
        (focusStateWith OMX_IMAGE_FOCUSCONTROLTYPE.OMX_IMAGE_FocusControlAutoLock)
        failedDistanceStop).effects :=
  have h := stopAutoFocus_status sampleOmxToAndroidError
    (focusStateWith OMX_IMAGE_FOCUSCONTROLTYPE.OMX_IMAGE_FocusControlAutoLock)
    failedDistanceStop rfl (by decide)
  ⟨h.1.trans (by decide), h.2.1.mpr (by decide), h.2.2.2 (by decide)⟩

/-! ## Face-detection result transformer: score, id and landmarks -/

/-- Claim C28 (faces, scores and landmarks). For face data with a positive face count `n`
(representable in the `int32_t` field `number_of_faces`), both allocations succeeding,
`encodeFaceCoordinates` returns `NO_ERROR` and stores `number_of_faces = n` and an array of
exactly `n` faces in input order: entry `i` is the loop body applied to input face `i`, its
score is the input face's score, its id is 0, and its left-eye, right-eye and mouth
coordinates (x and y) are all `INVALID_DATA`. This holds for every orientation, preview
size and choice of the constants. -/
theorem encodeFaceCoordinates_scores_and_landmarks (c : FaceSpace) (o : Int)
    (heap : Allocator) (fd : OMX_FACEDETECTIONTYPE) (pw ph : Nat)
    (hpos : 0 < fd.ulFaceCount) (hint : fd.ulFaceCount < 2 ^ 31)
    (hheap : heap.faceResultOk = true ∧ heap.facesOk = true) :
    (encodeFaceCoordinates c o heap (some fd) pw ph).ret = NO_ERROR ∧
    ∃ fs : List camera_face_t,
      (encodeFaceCoordinates c o heap (some fd) pw ph).pFaces =
        some { number_of_faces := (fd.ulFaceCount : Int), faces := some fs } ∧
      fs.length = fd.ulFaceCount ∧
      ∀ i, i < fd.ulFaceCount →
        ∃ f, fs[i]? = some f ∧
          f = encodeFace c o pw ph (fd.tFacePosition i) ∧
          f.score = (fd.tFacePosition i).nScore ∧
          f.id = 0 ∧
          f.left_eye = [c.INVALID_DATA, c.INVALID_DATA] ∧
          f.right_eye = [c.INVALID_DATA, c.INVALID_DATA] ∧
          f.mouth = [c.INVALID_DATA, c.INVALID_DATA] := by
  have h32 : toInt32 fd.ulFaceCount = (fd.ulFaceCount : Int) := by
    unfold toInt32
    have hmod : fd.ulFaceCount % 2 ^ 32 = fd.ulFaceCount := Nat.mod_eq_of_lt (by omega)
    rw [hmod, if_pos hint]
  refine ⟨by simp [encodeFaceCoordinates, hheap.1, hheap.2, hpos], ?_⟩
  refine ⟨(List.range fd.ulFaceCount).map
    (fun i => encodeFace c o pw ph (fd.tFacePosition i)), ?_, by simp, ?_⟩
  · simp [encodeFaceCoordinates, hheap.1, hheap.2, hpos, h32]
  · intro i hi
    refine ⟨encodeFace c o pw ph (fd.tFacePosition i), by simp [hi], rfl, rfl, rfl, rfl, rfl, rfl⟩

/-- An instance of claim C28: two faces with scores 50 and 80 at orientation 180. -/
theorem encodeFaceCoordinates_scores_and_landmarks_witness :
    (encodeFaceCoordinates cameraHalFaceSpace 180 ⟨true, true⟩ (some twoFaceData) 640 480).ret
      = NO_ERROR ∧
    ∃ fs : List camera_face_t,
      (encodeFaceCoordinates cameraHalFaceSpace 180 ⟨true, true⟩ (some twoFaceData)
        640 480).pFaces = some { number_of_faces := 2, faces := some fs } ∧
      fs.length = 2 ∧
      (∃ f, fs[0]? = some f ∧ f.score = 50 ∧ f.id = 0 ∧ f.left_eye = [-2000, -2000] ∧
        f.right_eye = [-2000, -2000] ∧ f.mouth = [-2000, -2000]) ∧
      (∃ f, fs[1]? = some f ∧ f.score = 80 ∧ f.id = 0 ∧ f.left_eye = [-2000, -2000] ∧
        f.right_eye = [-2000, -2000] ∧ f.mouth = [-2000, -2000]) := by
  obtain ⟨hret, fs, hp, hlen, hall⟩ := encodeFaceCoordinates_scores_and_landmarks
    cameraHalFaceSpace 180 ⟨true, true⟩ twoFaceData 640 480
    (by decide) (by decide) ⟨rfl, rfl⟩
  refine ⟨hret, fs, hp, hlen, ?_, ?_⟩
  · obtain ⟨f, h1, -, h3, h4, h5, h6, h7⟩ := hall 0 (by decide)
    exact ⟨f, h1, h3, h4, h5, h6, h7⟩
  · obtain ⟨f, h1, -, h3, h4, h5, h6, h7⟩ := hall 1 (by decide)
    exact ⟨f, h1, h3, h4, h5, h6, h7⟩

/-! ## Face-detection result transformer: the rectangle is well ordered -/

/-- The stage that `doZoom` records is the one it had, or the requested stage when that is
in range. -/
theorem doZoom_prevIndex (hw : OMXPort) (z : ZoomState) (i : Int) :
    (doZoom hw z i).st.prevIndex = z.prevIndex ∨
    ((0 ≤ i ∧ i ≤ ZOOM_STAGES - 1) ∧ (doZoom hw z i).st.prevIndex = i) := by
  by_cases h1 : z.prevIndex = i
  · rw [doZoom_skip hw z i h1]
    exact Or.inl rfl
  · by_cases hg : hw.mComponentState ≠ OMX_STATETYPE.OMX_StateInvalid ∧
        (0 ≤ i ∧ i ≤ ZOOM_STAGES - 1)
    · by_cases hrej : OMX_ErrorNone ≠ hw.eError
      · rw [doZoom_rejected hw z i h1 hg.1 hg.2 hrej]
        exact Or.inl rfl
      · rw [doZoom_applied hw z i h1 hg.1 hg.2 (not_not.mp hrej).symm]
        exact Or.inr ⟨hg.2, rfl⟩
    · left
      have hnw : zoomWrites (doZoom hw z i).effects = [] := by
        by_contra hc
        obtain ⟨-, g2, g3, g4⟩ := doZoom_writes hw z i hc
        exact hg ⟨g2, g3, g4⟩
      revert hnw
      unfold doZoom
      simp only []
      split_ifs <;> simp [zoomWrites]

/-- Each call of `doZoom` keeps the recorded stage in range. -/
theorem doZoom_keeps_range (hw : OMXPort) (z : ZoomState) (i : Int)
    (h : 0 ≤ z.prevIndex ∧ z.prevIndex ≤ ZOOM_STAGES - 1) :
    0 ≤ (doZoom hw z i).st.prevIndex ∧ (doZoom hw z i).st.prevIndex ≤ ZOOM_STAGES - 1 := by
  rcases doZoom_prevIndex hw z i with h1 | ⟨hr, h1⟩
  · rw [h1]
    exact h
  · rw [h1]
    exact hr

/-- Each call of the zoom interface keeps the recorded stage in range. -/
theorem ZoomCall_keeps_range (c : ZoomCall) (z : ZoomState)
    (h : 0 ≤ z.prevIndex ∧ z.prevIndex ≤ ZOOM_STAGES - 1) :
    0 ≤ (c.run z).st.prevIndex ∧ (c.run z).st.prevIndex ≤ ZOOM_STAGES - 1 := by
  cases c with
  | setParametersZoom hw zoom state =>
    simp only [ZoomCall.run]
    unfold setParametersZoom
    split_ifs
    · exact doZoom_keeps_range hw _ _ h
    · exact h
    · exact h
  | startSmoothZoom t =>
    simp only [ZoomCall.run]
    unfold startSmoothZoom
    split_ifs <;> exact h
  | stopSmoothZoom =>
    simp only [ZoomCall.run]
    unfold stopSmoothZoom
    split_ifs <;> exact h
  | advanceZoom hw ad =>
    simp only [ZoomCall.run]
    unfold advanceZoom
    simp only []
    split_ifs <;> first | exact h | exact doZoom_keeps_range hw _ _ h

/-- In every state reached from construction the recorded stage is in range. -/
theorem runZoomCalls_keeps_range (cs : List ZoomCall) (z : ZoomState)
    (h : 0 ≤ z.prevIndex ∧ z.prevIndex ≤ ZOOM_STAGES - 1) :
    0 ≤ (runZoomCalls cs z).prevIndex ∧ (runZoomCalls cs z).prevIndex ≤ ZOOM_STAGES - 1 := by
  induction cs generalizing z with
  | nil => exact h
  | cons c cs ih => exact ih (c.run z).st (ZoomCall_keeps_range c z h)

/-- A request for a stage out of range, other than the recorded one, is refused before
the table is read. -/
theorem doZoom_refuses (hw : OMXPort) (z : ZoomState) (i : Int)
    (hout : ¬ (0 ≤ i ∧ i ≤ ZOOM_STAGES - 1)) (hne : z.prevIndex ≠ i) :
    doZoom hw z i = ⟨-EINVAL, z, []⟩ := by
  have hrange : 0 > i ∨ ZOOM_STAGES - 1 < i := by
    by_contra hc
    apply hout
    constructor <;> omega
  have hn : ¬ (NO_ERROR = -EINVAL) := by decide
  unfold doZoom
  simp only [hne, hrange, hn, if_true, if_false]

/-- Claim C33 (`doZoom` never reads `ZOOM_STEPS` out of bounds). In every state reached
from construction by calls of the zoom interface, the last-applied stage `prevIndex`
(initially 0) is within `[0, ZOOM_STAGES - 1]`, and `doZoom` keeps it there. Hence for
every index outside `[0, ZOOM_STAGES - 1]` the index differs from `prevIndex`, and `doZoom`
returns `-EINVAL`, performs no hardware write and changes nothing, `prevIndex` included.
In any state at all, whenever `doZoom` reads the table the index is non-negative and below
the length of `ZOOM_STEPS`. -/
theorem doZoom_reads_in_bounds (cs : List ZoomCall) (inc p : Int) (hw : OMXPort) (i : Int)
    (hout : ¬ (0 ≤ i ∧ i ≤ ZOOM_STAGES - 1)) :
    (0 ≤ (runZoomCalls cs (initialZoomState inc p)).prevIndex ∧
      (runZoomCalls cs (initialZoomState inc p)).prevIndex ≤ ZOOM_STAGES - 1) ∧
    (runZoomCalls cs (initialZoomState inc p)).prevIndex ≠ i ∧
    doZoom hw (runZoomCalls cs (initialZoomState inc p)) i =
      ⟨-EINVAL, runZoomCalls cs (initialZoomState inc p), []⟩ ∧
    (∀ (hw2 : OMXPort) (j : Int),
      0 ≤ (doZoom hw2 (runZoomCalls cs (initialZoomState inc p)) j).st.prevIndex ∧
      (doZoom hw2 (runZoomCalls cs (initialZoomState inc p)) j).st.prevIndex
        ≤ ZOOM_STAGES - 1) ∧
    (∀ (hw2 : OMXPort) (z : ZoomState) (j : Int), (doZoom hw2 z j).effects ≠ [] →
      0 ≤ j ∧ j.toNat < ZOOM_STEPS.length ∧
      (doZoom hw2 z j).effects =
        [ZoomEffect.setConfigDigitalZoom (ZOOM_STEPS.getD j.toNat 0)
          (ZOOM_STEPS.getD j.toNat 0)]) := by
  have hinit : 0 ≤ (initialZoomState inc p).prevIndex ∧
      (initialZoomState inc p).prevIndex ≤ ZOOM_STAGES - 1 := by
    simp only [initialZoomState]
    decide
  have hinv := runZoomCalls_keeps_range cs (initialZoomState inc p) hinit
  have hne : (runZoomCalls cs (initialZoomState inc p)).prevIndex ≠ i := by
    intro heq
    rw [heq] at hinv
    exact hout hinv
  refine ⟨hinv, hne, doZoom_refuses hw _ i hout hne, ?_, ?_⟩
  · intro hw2 j
    exact doZoom_keeps_range hw2 _ j hinv
  · intro hw2 z j hfx
    rcases doZoom_effects hw2 z j with h | ⟨hr, h⟩
    · exact absurd h hfx
    · have hlen : ZOOM_STEPS.length = 31 := by decide
      have h2 := hr.2
      unfold ZOOM_STAGES at h2
      exact ⟨hr.1, by omega, h⟩

/-- An instance of claim C33: after a ramp toward stage 30 is stopped and stage 30 is set
directly, the pending-stop step asks `doZoom` for stage 31; the recorded stage is 30 and
the request is refused without a write. -/
theorem doZoom_reads_in_bounds_witness :
    ¬ ((0 : Int) ≤ 31 ∧ (31 : Int) ≤ ZOOM_STAGES - 1) ∧
    (runZoomCalls
      [ZoomCall.startSmoothZoom 30, ZoomCall.stopSmoothZoom,
        ZoomCall.setParametersZoom sampleHw 30 0] (initialZoomState 1 0)).prevIndex = 30 ∧
    doZoom sampleHw
      (runZoomCalls
        [ZoomCall.startSmoothZoom 30, ZoomCall.stopSmoothZoom,
          ZoomCall.setParametersZoom sampleHw 30 0] (initialZoomState 1 0)) 31 =
      ⟨-EINVAL,
        runZoomCalls
          [ZoomCall.startSmoothZoom 30, ZoomCall.stopSmoothZoom,
            ZoomCall.setParametersZoom sampleHw 30 0] (initialZoomState 1 0), []⟩ :=
  ⟨by decide, by decide,
    (doZoom_reads_in_bounds
      [ZoomCall.startSmoothZoom 30, ZoomCall.stopSmoothZoom,
        ZoomCall.setParametersZoom sampleHw 30 0] 1 0 sampleHw 31 (by decide)).2.2.1⟩

/-! ## Autofocus controller: the mode written and the auto-lock substitution -/

/-- Writing any focus mode other than off is a step of a session. -/
theorem isSessionStep_write (m : OMX_IMAGE_FOCUSCONTROLTYPE)
    (h : m ≠ OMX_IMAGE_FOCUSCONTROLTYPE.OMX_IMAGE_FocusControlOff) :
    (FocusEffect.setConfigFocusControl m).isSessionStep = true := by
  cases m <;> simp_all [FocusEffect.isSessionStep]

/-- In continuous autofocus, completion handling touches the hardware configuration only
to query the focus status: it does not stop the focus. -/
theorem returnFocusStatus_continuous (conv : Nat → Int) (env : ReturnFocusEnv)
    (st : FocusState) (timeoutReached : Bool)
    (hauto : st.Focus = OMX_IMAGE_FOCUSCONTROLTYPE.OMX_IMAGE_FocusControlAuto) :
    ∀ e ∈ (returnFocusStatus conv env st timeoutReached).effects,
      e.isHardwareConfig = true → e = FocusEffect.getConfigFocusStatus := by
  have key : (returnFocusStatus conv env st timeoutReached).effects.all
      (fun e => !e.isHardwareConfig || decide (e = FocusEffect.getConfigFocusStatus)) = true := by
    have hc : (checkFocus st env.focusStatusError).effects.all
        (fun e => !e.isHardwareConfig || decide (e = FocusEffect.getConfigFocusStatus))
          = true := by
      unfold checkFocus
      simp only []
      split_ifs <;> rfl
    have ht : (cancelAutofocusState env.adapter).2.all
        (fun e => !e.isHardwareConfig || decide (e = FocusEffect.getConfigFocusStatus))
          = true := by
      rcases cancelAutofocusState_effects env.adapter with h | h <;> rw [h] <;> rfl
    unfold returnFocusStatus
    simp only [hauto]
    split_ifs <;>
      simp only [List.all_append, hc, ht, Bool.and_true, Bool.true_and, Bool.and_self,
        if_true, if_false] <;> rfl
  intro e he hcfg
  have h := (List.all_eq_true.mp key) e he
  simp only [hcfg, Bool.not_true, Bool.false_or, decide_eq_true_eq] at h
  exact h

/-- The steps of a session that `doAutoFocus` takes: pausing face detection and writing
the persistent focus mode; and, only in a mode other than continuous autofocus and
infinity, registering for the event, arming the callback, waiting and signalling. -/
theorem doAutoFocus_own_steps (conv : Nat → Int) (env : AutoFocusEnv) (st : FocusState) :
    ∀ e ∈ (doAutoFocus conv env st).effects, e.isSessionStep = true →
      e = FocusEffect.pauseFaceDetection true ∨
      e = FocusEffect.setConfigFocusControl st.Focus ∨
      ((st.Focus ≠ OMX_IMAGE_FOCUSCONTROLTYPE.OMX_IMAGE_FocusControlAuto ∧
          st.Focus ≠ OMX_IMAGE_FOCUSCONTROLTYPE.OMX_IMAGE_FocusControlAutoInfinity) ∧
        (e = FocusEffect.registerForEvent ∨ e = FocusEffect.setConfigCallbackRequest true ∨
          e = FocusEffect.waitTimeout ∨ e = FocusEffect.signalEvent)) := by
  have hs := fun b => returnFocusStatus_steps conv env.completion st b
  intro e he hstep
  by_cases hexec : st.mComponentState = OMX_STATETYPE.OMX_StateExecuting
  · by_cases hcount : env.semCount = 0
    · by_cases hmode : st.Focus = OMX_IMAGE_FOCUSCONTROLTYPE.OMX_IMAGE_FocusControlAuto ∨
          st.Focus = OMX_IMAGE_FOCUSCONTROLTYPE.OMX_IMAGE_FocusControlAutoInfinity
      · rw [doAutoFocus_immediate conv env st hexec hcount hmode] at he
        split_ifs at he <;>
          simp only [List.mem_append, List.mem_cons, List.mem_singleton, List.not_mem_nil,
            or_false] at he
        all_goals repeat' (rcases (he : _ ∨ _) with he | he)
        all_goals first
          | exact Or.inl he
          | exact Or.inr (Or.inl he)
          | exact absurd hstep (by rw [hs _ e he]; decide)
      · have hm := not_or.mp hmode
        rw [doAutoFocus_waiting conv env st hexec hcount hm] at he
        by_cases hr : NO_ERROR = env.registerRet
        · simp only [if_pos hr] at he
          split_ifs at he <;>
            simp only [List.mem_append, List.mem_cons, List.mem_singleton, List.not_mem_nil,
              or_false] at he
          all_goals repeat' (rcases (he : _ ∨ _) with he | he)
          all_goals first
            | exact Or.inl he
            | exact Or.inr (Or.inl he)
            | exact Or.inr (Or.inr ⟨hm, Or.inl he⟩)
            | exact Or.inr (Or.inr ⟨hm, Or.inr (Or.inl he)⟩)
            | exact Or.inr (Or.inr ⟨hm, Or.inr (Or.inr (Or.inl he))⟩)
            | exact Or.inr (Or.inr ⟨hm, Or.inr (Or.inr (Or.inr he))⟩)
            | exact absurd hstep (by rw [hs _ e he]; decide)
            | exact absurd hstep (by rw [he]; decide)
        · simp only [if_neg hr] at he
          split_ifs at he <;>
            simp only [List.mem_append, List.mem_cons, List.mem_singleton, List.not_mem_nil,
              or_false] at he
          all_goals repeat' (rcases (he : _ ∨ _) with he | he)
          all_goals first
            | exact Or.inl he
            | exact Or.inr (Or.inl he)
            | exact Or.inr (Or.inr ⟨hm, Or.inl he⟩)
            | exact Or.inr (Or.inr ⟨hm, Or.inr (Or.inl he)⟩)
            | exact Or.inr (Or.inr ⟨hm, Or.inr (Or.inr (Or.inl he))⟩)
            | exact Or.inr (Or.inr ⟨hm, Or.inr (Or.inr (Or.inr he))⟩)
            | exact absurd hstep (by rw [hs _ e he]; decide)
            | exact absurd hstep (by rw [he]; decide)
    · rw [doAutoFocus_awaiting conv env st hexec hcount] at he
      simp at he
  · rw [doAutoFocus_not_executing conv env st hexec] at he
    exact absurd hstep (by rw [hs _ e he]; decide)

/-- Claim C32 (the auto-lock substitution is unreachable). For every run of `doAutoFocus`:
every focus mode written to the hardware is the persistent mode `mParameters3A.Focus`, or
off when completion handling stops the focus; in particular auto-lock is written only when
it is the persistent mode, and a call that passes both entry guards writes the persistent
mode. In continuous autofocus the only mode written is continuous autofocus, no event is
registered, no callback is armed or disarmed and nothing is waited for. No member changes:
`mPending3Asettings` is as before, so the `SetFocus` bit is never added. -/
theorem doAutoFocus_never_substitutes (conv : Nat → Int) (env : AutoFocusEnv)
    (st : FocusState) :
    (∀ m, FocusEffect.setConfigFocusControl m ∈ (doAutoFocus conv env st).effects →
      m = st.Focus ∨ m = OMX_IMAGE_FOCUSCONTROLTYPE.OMX_IMAGE_FocusControlOff) ∧
    (FocusEffect.setConfigFocusControl OMX_IMAGE_FOCUSCONTROLTYPE.OMX_IMAGE_FocusControlAutoLock
        ∈ (doAutoFocus conv env st).effects →
      st.Focus = OMX_IMAGE_FOCUSCONTROLTYPE.OMX_IMAGE_FocusControlAutoLock) ∧
    (st.mComponentState = OMX_STATETYPE.OMX_StateExecuting → env.semCount = 0 →
      FocusEffect.setConfigFocusControl st.Focus ∈ (doAutoFocus conv env st).effects) ∧
    (st.Focus = OMX_IMAGE_FOCUSCONTROLTYPE.OMX_IMAGE_FocusControlAuto →
      (∀ m, FocusEffect.setConfigFocusControl m ∈ (doAutoFocus conv env st).effects →
        m = OMX_IMAGE_FOCUSCONTROLTYPE.OMX_IMAGE_FocusControlAuto) ∧
      FocusEffect.registerForEvent ∉ (doAutoFocus conv env st).effects ∧
      (∀ b, FocusEffect.setConfigCallbackRequest b ∉ (doAutoFocus conv env st).effects) ∧
      FocusEffect.waitTimeout ∉ (doAutoFocus conv env st).effects) ∧
    (doAutoFocus conv env st).st = st ∧
    (doAutoFocus conv env st).st.mPending3Asettings = st.mPending3Asettings := by
  have own := doAutoFocus_own_steps conv env st
  have hmem := doAutoFocus_members conv env st
  have hwrite : ∀ m, FocusEffect.setConfigFocusControl m ∈ (doAutoFocus conv env st).effects →
      m = st.Focus ∨ m = OMX_IMAGE_FOCUSCONTROLTYPE.OMX_IMAGE_FocusControlOff := by
    intro m hm
    by_cases hoff : m = OMX_IMAGE_FOCUSCONTROLTYPE.OMX_IMAGE_FocusControlOff
    · exact Or.inr hoff
    · rcases own _ hm (isSessionStep_write m hoff) with h | h | ⟨-, h | h | h | h⟩
      · exact FocusEffect.noConfusion h
      · exact Or.inl (FocusEffect.setConfigFocusControl.inj h)
      · exact FocusEffect.noConfusion h
      · exact FocusEffect.noConfusion h
      · exact FocusEffect.noConfusion h
      · exact FocusEffect.noConfusion h
  refine ⟨hwrite, ?_, ?_, ?_, hmem, by rw [hmem]⟩
  · intro h
    rcases hwrite _ h with h1 | h1
    · exact h1.symm
    · exact absurd h1 (by decide)
  · intro hexec hcount
    by_cases hmode : st.Focus = OMX_IMAGE_FOCUSCONTROLTYPE.OMX_IMAGE_FocusControlAuto ∨
        st.Focus = OMX_IMAGE_FOCUSCONTROLTYPE.OMX_IMAGE_FocusControlAutoInfinity
    · rw [doAutoFocus_immediate conv env st hexec hcount hmode]
      split_ifs <;> simp
    · rw [doAutoFocus_waiting conv env st hexec hcount (not_or.mp hmode)]
      split_ifs <;> simp
  · intro hauto
    have hnot : ¬ (st.Focus ≠ OMX_IMAGE_FOCUSCONTROLTYPE.OMX_IMAGE_FocusControlAuto ∧
        st.Focus ≠ OMX_IMAGE_FOCUSCONTROLTYPE.OMX_IMAGE_FocusControlAutoInfinity) :=
      fun h => h.1 hauto
    have hcont := fun b => returnFocusStatus_continuous conv env.completion st b hauto
    have hcfg : ∀ e ∈ (doAutoFocus conv env st).effects, e.isHardwareConfig = true →
        e = FocusEffect.setConfigFocusControl st.Focus ∨
        e = FocusEffect.getConfigFocusStatus := by
      intro e he hc
      by_cases hexec : st.mComponentState = OMX_STATETYPE.OMX_StateExecuting
      · by_cases hcount : env.semCount = 0
        · rw [doAutoFocus_immediate conv env st hexec hcount (Or.inl hauto)] at he
          split_ifs at he <;>
            simp only [List.mem_append, List.mem_cons, List.mem_singleton, List.not_mem_nil,
              or_false] at he
          all_goals repeat' (rcases (he : _ ∨ _) with he | he)
          all_goals first
            | exact Or.inl he
            | exact Or.inr (hcont _ e he hc)
            | exact absurd hc (by rw [he]; decide)
        · rw [doAutoFocus_awaiting conv env st hexec hcount] at he
          simp at he
      · rw [doAutoFocus_not_executing conv env st hexec] at he
        exact Or.inr (hcont _ e he hc)
    refine ⟨?_, ?_, ?_, ?_⟩
    · intro m hm
      rcases hcfg _ hm rfl with h | h
      · rw [FocusEffect.setConfigFocusControl.inj h, hauto]
      · exact FocusEffect.noConfusion h
    · intro h
      rcases own _ h rfl with h1 | h1 | ⟨h1, -⟩
      · exact FocusEffect.noConfusion h1
      · exact FocusEffect.noConfusion h1
      · exact hnot h1
    · intro b h
      rcases hcfg _ h rfl with h1 | h1
      · exact FocusEffect.noConfusion h1
      · exact FocusEffect.noConfusion h1
    · intro h
      rcases own _ h rfl with h1 | h1 | ⟨h1, -⟩
      · exact FocusEffect.noConfusion h1
      · exact FocusEffect.noConfusion h1
      · exact hnot h1

/-- Instances of claim C32: a session in continuous autofocus, where only that mode is
written and nothing is armed or waited for, and a session in auto-lock mode. -/
theorem doAutoFocus_never_substitutes_witness :
    (doAutoFocus sampleOmxToAndroidError
      (okSession OMX_FOCUSSTATUSTYPE.OMX_FocusStatusRequest)
      (focusStateWith OMX_IMAGE_FOCUSCONTROLTYPE.OMX_IMAGE_FocusControlAuto)).effects =
      [FocusEffect.pauseFaceDetection true,
        FocusEffect.setConfigFocusControl OMX_IMAGE_FOCUSCONTROLTYPE.OMX_IMAGE_FocusControlAuto,
        FocusEffect.getConfigFocusStatus, FocusEffect.setStateCancelAutofocus,
        FocusEffect.commitState, FocusEffect.notifyFocusSubscribers true,
        FocusEffect.pauseFaceDetection false] ∧
    FocusEffect.setConfigCallbackRequest true ∉
      (doAutoFocus sampleOmxToAndroidError
        (okSession OMX_FOCUSSTATUSTYPE.OMX_FocusStatusRequest)
        (focusStateWith OMX_IMAGE_FOCUSCONTROLTYPE.OMX_IMAGE_FocusControlAuto)).effects ∧
    (doAutoFocus sampleOmxToAndroidError
      (okSession OMX_FOCUSSTATUSTYPE.OMX_FocusStatusRequest)
      (focusStateWith OMX_IMAGE_FOCUSCONTROLTYPE.OMX_IMAGE_FocusControlAuto)).st.mPending3Asettings
        = 0 :=
  have h := doAutoFocus_never_substitutes sampleOmxToAndroidError
    (okSession OMX_FOCUSSTATUSTYPE.OMX_FocusStatusRequest)
    (focusStateWith OMX_IMAGE_FOCUSCONTROLTYPE.OMX_IMAGE_FocusControlAuto)
  ⟨by decide, (h.2.2.2.1 rfl).2.2.1 true, h.2.2.2.2.2⟩

end OMXCameraAdapter
